import Mathlib

/-!
# The submission/completion ring of GNUWeebBot2

A shallow embedding of `src/core/ring.c`, `src/core/ring/sqe_tg_api.c` and the
inline helpers of `src/include/gw/ring.h`.

* `uint32_t` counters are naturals reduced modulo `2 ^ 32` after every
  operation (`add32`, `sub32`, `mul32`); the `uint16_t` waiter counters are
  reduced modulo `2 ^ 16`.
* `sqes` and `cqes` are lists; a pointer into one of them is the slot index.
  A `NULL` array is the empty list.
* Every function is modelled as one atomic step taken while its mutex is held:
  the state it returns is the state at `mutex_unlock`.  The mutexes and the
  condition variables themselves carry no data the functions read, so they
  are not fields of the model; a thread that reaches `cond_wait` is reported
  as blocked and resumes through the matching `_wake` function.
* What the C code gets from outside `src/` (whether `malloc` succeeds, what
  `try_queue_work` answers, what the init steps answer) is an explicit
  argument of the model.
* `int ret` of `__gw_ring_submit` counts at most `sq_tail - sq_head` entries;
  it is modelled as an integer, which is exact whenever fewer than `2 ^ 31`
  entries are pending.
-/

namespace GwRing

/-! ## Constants -/

/-- Linux `errno` value of `ENOMEM`. -/
abbrev ENOMEM : Int := 12

/-- Linux `errno` value of `EOWNERDEAD`. -/
abbrev EOWNERDEAD : Int := 130

/-- Opcode `GW_RING_OP_NOP` of the enumeration in `gw/ring.h`. -/
abbrev GW_RING_OP_NOP : Nat := 0

/-- Opcode `GW_RING_OP_TG_GET_UPDATES`. -/
abbrev GW_RING_OP_TG_GET_UPDATES : Nat := 1

/-- Opcode `GW_RING_OP_TG_API_CALL`. -/
abbrev GW_RING_OP_TG_API_CALL : Nat := 2

/-- Sentinel `GW_RING_OP_LAST`, one past the last opcode. -/
abbrev GW_RING_OP_LAST : Nat := 3

/-! ## Machine arithmetic -/

/-- Addition of two `uint32_t` values. -/
def add32 (a b : Nat) : Nat := (a + b) % 2 ^ 32

/-- Subtraction of two `uint32_t` values, wrapping below zero. -/
def sub32 (a b : Nat) : Nat := (a + (2 ^ 32 - b % 2 ^ 32)) % 2 ^ 32

/-- Multiplication of two `uint32_t` values. -/
def mul32 (a b : Nat) : Nat := (a * b) % 2 ^ 32

/-- Increment of a `uint16_t` value. -/
def inc16 (a : Nat) : Nat := (a + 1) % 2 ^ 16

/-- Decrement of a `uint16_t` value, wrapping below zero. -/
def dec16 (a : Nat) : Nat := (a + (2 ^ 16 - 1)) % 2 ^ 16

/-! ## Data model -/

/-- A submission entry, `struct gw_ring_sqe`.  Each `argN` is the raw 64-bit
content of the union `argN_u64 / argN_s64 / argN_ptr`. -/
structure gw_ring_sqe where
  op : Nat
  flags : Nat
  user_data : Nat
  arg1 : Nat
  arg2 : Nat
  arg3 : Nat
  arg4 : Nat
  arg5 : Nat
  arg6 : Nat
deriving DecidableEq, Repr

/-- A completion entry, `struct gw_ring_cqe`. -/
structure gw_ring_cqe where
  res : Int
  user_data : Nat
deriving DecidableEq, Repr

/-- The record of `struct post_cqe_data`; its `ring` pointer is the one ring
of the model. -/
structure post_cqe_data where
  res : Int
  user_data : Nat
deriving DecidableEq, Repr

/-- The record of `struct work_tg_get_updates` (`sqe_tg_api.c`); its `ring`
pointer is the one ring of the model. -/
structure work_tg_get_updates where
  ctx : Nat
  updates_p : Nat
  offset : Int
  user_data : Nat
deriving DecidableEq, Repr

/-- A task handed to `try_queue_work`: the body function together with its
data record.  `post_cqe d` is the body `gw_iowq_post_cqe` on `d`,
`tg_get_updates d` is the body `iowq_tg_get_updates` on `d`. -/
inductive work where
  | post_cqe (d : post_cqe_data)
  | tg_get_updates (d : work_tg_get_updates)
deriving DecidableEq, Repr

/-- Modelled from the spec: the worker pool `struct workqueue_struct`, whose
declaration (`gw/workqueue.h`) and implementation are not among the sources.
The pool is the list of tasks it has accepted and not yet run, oldest
first. -/
structure workqueue_struct where
  pending : List work
deriving DecidableEq, Repr

/-- What the outside world answers while one SQE is dispatched or one CQE is
posted: whether `malloc` returns a record, and the status `try_queue_work`
returns (`0` is success). -/
structure oracle where
  malloc_ok : Bool
  queue_status : Int
deriving DecidableEq, Repr

/-- The ring, `struct gw_ring`, without its mutexes and condition variables.
`io_wq` is `none` for a `NULL` pool pointer. -/
structure gw_ring where
  sqes : List gw_ring_sqe
  cqes : List gw_ring_cqe
  sq_head : Nat
  sq_tail : Nat
  sq_mask : Nat
  cq_head : Nat
  cq_tail : Nat
  cq_mask : Nat
  post_cqe_cond_n : Nat
  wait_cqe_cond_n : Nat
  should_stop : Bool
  io_wq : Option workqueue_struct
deriving DecidableEq, Repr

/-- An all-zero SQE, as `calloc` returns it. -/
def sqe_zero : gw_ring_sqe :=
  { op := 0, flags := 0, user_data := 0, arg1 := 0, arg2 := 0, arg3 := 0,
    arg4 := 0, arg5 := 0, arg6 := 0 }

/-- An all-zero CQE, as `calloc` returns it. -/
def cqe_zero : gw_ring_cqe := { res := 0, user_data := 0 }

/-- The ring after `memset(ring, 0, sizeof(*ring))`. -/
def gw_ring_zero : gw_ring :=
  { sqes := [], cqes := [], sq_head := 0, sq_tail := 0, sq_mask := 0,
    cq_head := 0, cq_tail := 0, cq_mask := 0, post_cqe_cond_n := 0,
    wait_cqe_cond_n := 0, should_stop := false, io_wq := none }

/-- Reading of a 64-bit union cell through its `_s64` member. -/
def s64 (x : Nat) : Int :=
  if x % 2 ^ 64 < 2 ^ 63 then (x % 2 ^ 64 : Nat) else ((x % 2 ^ 64 : Nat) : Int) - 2 ^ 64

/-! ## Inline helpers of `gw/ring.h` -/

/-- `gw_ring_sq_ready`: `sq_tail - sq_head`. -/
def gw_ring_sq_ready (ring : gw_ring) : Nat := sub32 ring.sq_tail ring.sq_head

/-- `gw_ring_sq_left`: `sq_mask + 1u - gw_ring_sq_ready(ring)`. -/
def gw_ring_sq_left (ring : gw_ring) : Nat :=
  sub32 (add32 ring.sq_mask 1) (gw_ring_sq_ready ring)

/-- `gw_ring_cq_ready`: `cq_tail - cq_head`. -/
def gw_ring_cq_ready (ring : gw_ring) : Nat := sub32 ring.cq_tail ring.cq_head

/-- `gw_ring_cq_left`: `cq_mask + 1u - gw_ring_cq_ready(ring)`. -/
def gw_ring_cq_left (ring : gw_ring) : Nat :=
  sub32 (add32 ring.cq_mask 1) (gw_ring_cq_ready ring)

/-! ## Worker pool -/

/-- Modelled from the spec: `try_queue_work(pool, body, data, cleanup)`, whose
code is not among the sources.  The spec says it enqueues without blocking
and returns a status; on any non-success the pool keeps nothing and the caller
disposes of the data.  The status is the argument `status`; a `NULL` pool
queues nothing. -/
def try_queue_work (status : Int) (wq : Option workqueue_struct) (w : work) :
    Int × Option workqueue_struct :=
  match wq with
  | some q => if status = 0 then (0, some { pending := q.pending ++ [w] }) else (status, some q)
  | none => (status, none)

/-! ## Completion path (`ring.c`) -/

/-- `__gw_post_cqe`: write the CQE at `cq_tail & cq_mask`, then `cq_tail++`.
The broadcast on `wait_cqe_cond` wakes waiters and changes no field. -/
def __gw_post_cqe (ring : gw_ring) (res : Int) (user_data : Nat) : gw_ring :=
  { ring with
    cqes := ring.cqes.set (ring.cq_tail &&& ring.cq_mask) { res := res, user_data := user_data }
    cq_tail := add32 ring.cq_tail 1 }

/-- How one run of a worker body or of a wait loop ends: it returned after
doing its work, it returned because of `should_stop`, or it is blocked in
`cond_wait`. -/
inductive run_status where
  | done
  | stopped
  | blocked
deriving DecidableEq, Repr

/-- `gw_iowq_post_cqe` from the top of its `while (1)` loop up to its return
or its next `cond_wait`. -/
def gw_iowq_post_cqe_loop (ring : gw_ring) (d : post_cqe_data) : run_status × gw_ring :=
  if gw_ring_cq_left ring > 0 then
    (run_status.done, __gw_post_cqe ring d.res d.user_data)
  else if ring.should_stop then
    (run_status.stopped, ring)
  else
    (run_status.blocked, { ring with post_cqe_cond_n := inc16 ring.post_cqe_cond_n })

/-- `gw_iowq_post_cqe`: the worker body of an overflow record, from its entry. -/
def gw_iowq_post_cqe (ring : gw_ring) (d : post_cqe_data) : run_status × gw_ring :=
  gw_iowq_post_cqe_loop ring d

/-- `gw_iowq_post_cqe` resumed from `cond_wait`: `post_cqe_cond_n--`, then the
loop again. -/
def gw_iowq_post_cqe_wake (ring : gw_ring) (d : post_cqe_data) : run_status × gw_ring :=
  gw_iowq_post_cqe_loop { ring with post_cqe_cond_n := dec16 ring.post_cqe_cond_n } d

/-- `gw_post_cqe_via_wq`: allocate the overflow record and queue it; `q` is the
status `try_queue_work` returned together with the pool afterwards. -/
def gw_post_cqe_via_wq (o : oracle) (ring : gw_ring) (res : Int) (user_data : Nat) :
    Bool × gw_ring :=
  if !o.malloc_ok then (false, ring)
  else
    let data : post_cqe_data := { res := res, user_data := user_data }
    let q := try_queue_work o.queue_status ring.io_wq (work.post_cqe data)
    if q.1 ≠ 0 then (false, { ring with io_wq := q.2 })
    else (true, { ring with io_wq := q.2 })

/-- `gw_post_cqe`. -/
def gw_post_cqe (o : oracle) (ring : gw_ring) (res : Int) (user_data : Nat) : Bool × gw_ring :=
  if gw_ring_cq_left ring = 0 then gw_post_cqe_via_wq o ring res user_data
  else (true, __gw_post_cqe ring res user_data)

/-- `gw_ring_cq_advance`: `cq_head += n`.  The broadcast on `post_cqe_cond`
wakes parked workers and changes no field. -/
def gw_ring_cq_advance (ring : gw_ring) (n : Nat) : gw_ring :=
  { ring with cq_head := add32 ring.cq_head n }

/-! ## Submission path -/

/-- `gw_issue_sqe_nop`. -/
def gw_issue_sqe_nop (o : oracle) (ring : gw_ring) (sqe : gw_ring_sqe) : Bool × gw_ring :=
  gw_post_cqe o ring 0 sqe.user_data

/-- `gw_issue_sqe_tg_get_updates` (`sqe_tg_api.c`). -/
def gw_issue_sqe_tg_get_updates (o : oracle) (ring : gw_ring) (sqe : gw_ring_sqe) :
    Bool × gw_ring :=
  if !o.malloc_ok then (false, ring)
  else
    let data : work_tg_get_updates :=
      { ctx := sqe.arg1, updates_p := sqe.arg2, offset := s64 sqe.arg3,
        user_data := sqe.user_data }
    let q := try_queue_work o.queue_status ring.io_wq (work.tg_get_updates data)
    if q.1 ≠ 0 then (false, { ring with io_wq := q.2 })
    else (true, { ring with io_wq := q.2 })

/-- `gw_issue_sqe`: the switch over `sqe->op`. -/
def gw_issue_sqe (o : oracle) (ring : gw_ring) (sqe : gw_ring_sqe) : Bool × gw_ring :=
  if sqe.op = GW_RING_OP_NOP then gw_issue_sqe_nop o ring sqe
  else if sqe.op = GW_RING_OP_TG_GET_UPDATES then gw_issue_sqe_tg_get_updates o ring sqe
  else (false, ring)

/-- The SQE stored for submission counter `c`: `ring->sqes[c & ring->sq_mask]`. -/
def sqe_at (ring : gw_ring) (c : Nat) : gw_ring_sqe :=
  ring.sqes.getD (c &&& ring.sq_mask) sqe_zero

/-- The `while (head != tail)` loop of `__gw_ring_submit`.  `env i` is what the
outside world answers during the `i`-th dispatch of this call; `fuel` bounds
the number of loop tests, and `none` means it ran out. -/
def __gw_ring_submit_loop (env : Nat → oracle) :
    Nat → gw_ring → Nat → Nat → Int → Nat → Option (Int × gw_ring)
  | 0, _, _, _, _, _ => none
  | fuel + 1, ring, head, tail, ret, i =>
    if head = tail then some (ret, { ring with sq_head := head })
    else if ring.should_stop then some (-EOWNERDEAD, ring)
    else
      let r := gw_issue_sqe (env i) ring (sqe_at ring head)
      __gw_ring_submit_loop env fuel r.2 (add32 head 1) tail (if r.1 then ret + 1 else ret) (i + 1)

/-- `__gw_ring_submit`.  A 32-bit `head` reaches `tail` in fewer than `2 ^ 32`
increments, so `2 ^ 32` loop tests are allowed. -/
def __gw_ring_submit (env : Nat → oracle) (ring : gw_ring) : Option (Int × gw_ring) :=
  __gw_ring_submit_loop env (2 ^ 32) ring ring.sq_head ring.sq_tail 0 0

/-- `gw_ring_submit`. -/
def gw_ring_submit (env : Nat → oracle) (ring : gw_ring) : Option (Int × gw_ring) :=
  __gw_ring_submit env ring

/-- `gw_ring_get_sqe`: the returned pointer is the slot index, `none` is
`NULL`. -/
def gw_ring_get_sqe (ring : gw_ring) : Option Nat × gw_ring :=
  if gw_ring_sq_left ring > 0 then
    (some (ring.sq_tail &&& ring.sq_mask), { ring with sq_tail := add32 ring.sq_tail 1 })
  else (none, ring)

/-! ## Waiting -/

/-- What a wait call leaves behind.  `ret` is the returned `int`, or `none`
when the thread is blocked in `cond_wait`; `cqe` is the caller's `*cqe` cell
after the call (`none` when the argument `cqe` is `NULL`), holding the slot
index it points to, if any. -/
structure wait_out where
  ret : Option Int
  cqe : Option (Option Nat)
  ring : gw_ring
deriving DecidableEq, Repr

/-- `__gw_ring_wait_cqe_nr` from the top of its `while (1)` loop up to its
return or its next `cond_wait`.  The argument `cqe` is `none` for a `NULL`
pointer and `some c` for a pointer to a cell that holds `c`. -/
def __gw_ring_wait_cqe_nr (ring : gw_ring) (cqe : Option (Option Nat)) (nr : Nat) : wait_out :=
  if ring.should_stop then
    { ret := some (-EOWNERDEAD), cqe := cqe, ring := ring }
  else if gw_ring_cq_ready ring ≥ nr then
    { ret := some 0
      cqe := match cqe with
        | some _ => some (some (ring.cq_head &&& ring.cq_mask))
        | none => none
      ring := ring }
  else
    { ret := none, cqe := cqe
      ring := { ring with wait_cqe_cond_n := inc16 ring.wait_cqe_cond_n } }

/-- `__gw_ring_wait_cqe_nr` resumed from `cond_wait`: `wait_cqe_cond_n--`, then
the loop again. -/
def __gw_ring_wait_cqe_nr_wake (ring : gw_ring) (cqe : Option (Option Nat)) (nr : Nat) :
    wait_out :=
  __gw_ring_wait_cqe_nr { ring with wait_cqe_cond_n := dec16 ring.wait_cqe_cond_n } cqe nr

/-- `gw_ring_wait_cqe_nr`. -/
def gw_ring_wait_cqe_nr (ring : gw_ring) (cqe : Option (Option Nat)) (nr : Nat) : wait_out :=
  __gw_ring_wait_cqe_nr ring cqe nr

/-- `gw_ring_wait_cqe`. -/
def gw_ring_wait_cqe (ring : gw_ring) (cqe : Option (Option Nat)) : wait_out :=
  gw_ring_wait_cqe_nr ring cqe 1

/-! ## Lifecycle -/

/-- What the outside world answers during `gw_ring_queue_init`: whether each
`calloc` returns an array, and the status of `alloc_workqueue`, the two
`mutex_init` and the two `cond_init` calls (`0` is success). -/
structure init_oracle where
  sqes_ok : Bool
  cqes_ok : Bool
  wq_ret : Int
  sq_lock_ret : Int
  cq_lock_ret : Int
  post_cqe_cond_ret : Int
  wait_cqe_cond_ret : Int
deriving DecidableEq, Repr

/-- The resources `gw_ring_queue_init` acquires, one per step. -/
inductive resource where
  | sqes
  | cqes
  | io_wq
  | sq_lock
  | cq_lock
  | post_cqe_cond
  | wait_cqe_cond
deriving DecidableEq, Repr

/-- What `gw_ring_queue_init` leaves behind: the returned `int`, the ring, and
the resources its failure path released, in the order of the release calls. -/
structure init_out where
  ret : Int
  ring : gw_ring
  released : List resource
deriving DecidableEq, Repr

/-- The rounding loop `while (i < entries) i *= 2u;` of `gw_ring_queue_init`.
`fuel` bounds the number of loop tests, and `none` means it ran out. -/
def round_up_loop : Nat → Nat → Nat → Option Nat
  | 0, _, _ => none
  | fuel + 1, i, entries =>
    if i < entries then round_up_loop fuel (mul32 i 2) entries else some i

/-- `gw_ring_queue_init`.  The ring passed in is overwritten by the first
`memset`, so it is not an argument. -/
def gw_ring_queue_init (fuel : Nat) (o : init_oracle) (entries : Nat) : Option init_out :=
  match round_up_loop fuel 2 entries with
  | none => none
  | some i =>
    let ring0 : gw_ring :=
      { gw_ring_zero with sq_mask := sub32 i 1, cq_mask := sub32 (mul32 i 2) 1 }
    if !o.sqes_ok then
      some { ret := -ENOMEM, ring := ring0, released := [] }
    else
      let ring1 : gw_ring :=
        { ring0 with sqes := List.replicate (add32 ring0.sq_mask 1) sqe_zero }
      if !o.cqes_ok then
        some { ret := -ENOMEM, ring := gw_ring_zero, released := [resource.sqes] }
      else
        let ring2 : gw_ring :=
          { ring1 with cqes := List.replicate (add32 ring1.cq_mask 1) cqe_zero }
        if o.wq_ret ≠ 0 then
          some { ret := o.wq_ret, ring := gw_ring_zero
                 released := [resource.cqes, resource.sqes] }
        else
          let ring3 : gw_ring := { ring2 with io_wq := some { pending := [] } }
          if o.sq_lock_ret ≠ 0 then
            some { ret := o.sq_lock_ret, ring := gw_ring_zero
                   released := [resource.io_wq, resource.cqes, resource.sqes] }
          else if o.cq_lock_ret ≠ 0 then
            some { ret := o.cq_lock_ret, ring := gw_ring_zero
                   released := [resource.sq_lock, resource.io_wq, resource.cqes,
                     resource.sqes] }
          else if o.post_cqe_cond_ret ≠ 0 then
            some { ret := o.post_cqe_cond_ret, ring := gw_ring_zero
                   released := [resource.cq_lock, resource.sq_lock, resource.io_wq,
                     resource.cqes, resource.sqes] }
          else if o.wait_cqe_cond_ret ≠ 0 then
            some { ret := o.wait_cqe_cond_ret, ring := gw_ring_zero
                   released := [resource.post_cqe_cond, resource.cq_lock, resource.sq_lock,
                     resource.io_wq, resource.cqes, resource.sqes] }
          else
            some { ret := 0, ring := ring3, released := [] }

/-- An init in which every step succeeds. -/
def init_all_ok : init_oracle :=
  { sqes_ok := true, cqes_ok := true, wq_ret := 0, sq_lock_ret := 0, cq_lock_ret := 0,
    post_cqe_cond_ret := 0, wait_cqe_cond_ret := 0 }

/-! ## Ring states -/

/-- The shape `gw_ring_queue_init` gives a ring for `entries ≤ 2 ^ 30` and that
no ring function changes: the SQ capacity `sq_mask + 1` is a power of two
between `2` and `2 ^ 30`, the CQ capacity is twice that, both arrays hold
exactly their capacity, the four counters are 32-bit values and the pool
exists. -/
def ring_ok (r : gw_ring) : Prop :=
  (∃ n, n < 31 ∧ 0 < n ∧ r.sq_mask + 1 = 2 ^ n) ∧
  r.cq_mask + 1 = 2 * (r.sq_mask + 1) ∧
  r.sqes.length = r.sq_mask + 1 ∧
  r.cqes.length = r.cq_mask + 1 ∧
  r.sq_head < 2 ^ 32 ∧ r.sq_tail < 2 ^ 32 ∧
  r.cq_head < 2 ^ 32 ∧ r.cq_tail < 2 ^ 32 ∧
  r.io_wq.isSome = true

instance (r : gw_ring) : Decidable (ring_ok r) := by
  unfold ring_ok; infer_instance

/-- The dispatch of `n` consecutive SQEs from submission counter `head` on, one
`gw_issue_sqe` after the other: the per-entry results in dispatch order and
the ring after the last one.  `i` numbers the dispatches of the call. -/
def dispatch_seq (env : Nat → oracle) : Nat → Nat → Nat → gw_ring → List Bool × gw_ring
  | 0, _, _, ring => ([], ring)
  | n + 1, head, i, ring =>
    let r := gw_issue_sqe (env i) ring (sqe_at ring head)
    let rest := dispatch_seq env n (add32 head 1) (i + 1) r.2
    (r.1 :: rest.1, rest.2)

/-- A step on the completion side of the ring: a `gw_post_cqe` call, a run of
the overflow worker body from its entry, a wake-up of a parked overflow
worker, or a `gw_ring_cq_advance` call. -/
inductive cq_op where
  | post (o : oracle) (res : Int) (user_data : Nat)
  | iowq_run (d : post_cqe_data)
  | iowq_wake (d : post_cqe_data)
  | advance (n : Nat)
deriving DecidableEq, Repr

/-- The ring after one completion-side step. -/
def cq_step (ring : gw_ring) : cq_op → gw_ring
  | cq_op.post o res user_data => (gw_post_cqe o ring res user_data).2
  | cq_op.iowq_run d => (gw_iowq_post_cqe ring d).2
  | cq_op.iowq_wake d => (gw_iowq_post_cqe_wake ring d).2
  | cq_op.advance n => gw_ring_cq_advance ring n

/-- The ring after a sequence of completion-side steps. -/
def cq_run (ring : gw_ring) (ops : List cq_op) : gw_ring := ops.foldl cq_step ring

/-- A `gw_ring_cq_advance(n)` step releases at most the CQEs that are ready
when it is called; the other steps are not restricted. -/
def advance_ok (ring : gw_ring) : cq_op → Bool
  | cq_op.advance n => decide (n ≤ gw_ring_cq_ready ring)
  | _ => true

/-- Every `gw_ring_cq_advance(n)` of the sequence releases at most the CQEs
that are ready when it is called. -/
def advances_ok : gw_ring → List cq_op → Bool
  | _, [] => true
  | ring, op :: ops => advance_ok ring op && advances_ok (cq_step ring op) ops

/-! ## Callers, as in `src/tests/core/ring.c` -/

/-- `gw_ring_prep_nop`. -/
def gw_ring_prep_nop (sqe : gw_ring_sqe) : gw_ring_sqe := { sqe with op := GW_RING_OP_NOP }

/-- `gw_ring_sqe_set_data64`. -/
def gw_ring_sqe_set_data64 (sqe : gw_ring_sqe) (data : Nat) : gw_ring_sqe :=
  { sqe with user_data := data }

/-- The caller's `gw_ring_get_sqe`, `gw_ring_prep_nop`, `gw_ring_sqe_set_data64`
on the slot it got; nothing is written when no slot is returned. -/
def queue_nop (ring : gw_ring) (data : Nat) : gw_ring :=
  match gw_ring_get_sqe ring with
  | (some s, ring1) =>
    { ring1 with
      sqes := ring1.sqes.set s
        (gw_ring_sqe_set_data64 (gw_ring_prep_nop (ring1.sqes.getD s sqe_zero)) data) }
  | (none, ring1) => ring1

/-- The caller queues `n` NOPs, all tagged `data`. -/
def queue_nops (data : Nat) : Nat → gw_ring → gw_ring
  | 0, ring => ring
  | n + 1, ring => queue_nops data n (queue_nop ring data)

/-- The ring of a `gw_ring_queue_init` in which every step succeeds (the zero
ring if the rounding loop runs out of 64 tests). -/
def fresh_ring (entries : Nat) : gw_ring :=
  match gw_ring_queue_init 64 init_all_ok entries with
  | some out => out.ring
  | none => gw_ring_zero

/-- A 2-entry ring whose CQ (capacity 4) holds four unconsumed completions. -/
def full_cq_ring : gw_ring :=
  cq_run (fresh_ring 2)
    [cq_op.post { malloc_ok := true, queue_status := 0 } 0 1,
     cq_op.post { malloc_ok := true, queue_status := 0 } 0 2,
     cq_op.post { malloc_ok := true, queue_status := 0 } 0 3,
     cq_op.post { malloc_ok := true, queue_status := 0 } 0 4]

/-- A caller that reserves a slot and writes `op` and `user_data` into it
directly; nothing is written when no slot is returned. -/
def queue_raw (ring : gw_ring) (op data : Nat) : gw_ring :=
  match gw_ring_get_sqe ring with
  | (some s, ring1) =>
    { ring1 with
      sqes := ring1.sqes.set s { (ring1.sqes.getD s sqe_zero) with op := op, user_data := data } }
  | (none, ring1) => ring1

/-- An outside world in which every allocation succeeds and the pool accepts
every task. -/
def env_accept : Nat → oracle := fun _ => { malloc_ok := true, queue_status := 0 }

/-- The ring `gw_ring_submit` leaves behind (the ring itself if the submit loop
runs out). -/
def submit_ring (env : Nat → oracle) (ring : gw_ring) : gw_ring :=
  match gw_ring_submit env ring with
  | some r => r.2
  | none => ring

/-- The ring after a `gw_ring_submit` in which every allocation succeeds and the
pool accepts every task. -/
def submit_ok (ring : gw_ring) : gw_ring := submit_ring env_accept ring

/-- Pool workers run the bodies of overflow records one after the other, each
up to its return or its next `cond_wait`: `(false, d)` is a run of
`gw_iowq_post_cqe` on `d` from its entry, `(true, d)` the wake-up of a worker
that was parked on `d`.  The result lists how each run ended. -/
def run_workers (ring : gw_ring) : List (Bool × post_cqe_data) → List run_status × gw_ring
  | [] => ([], ring)
  | w :: ws =>
    let s := if w.1 then gw_iowq_post_cqe_wake ring w.2 else gw_iowq_post_cqe ring w.2
    let rest := run_workers s.2 ws
    (s.1 :: rest.1, rest.2)

/-- The overflow records `k - f` NOPs tagged `u f .. u (k - 1)` leave in the
pool, oldest first. -/
def overflow_records (u : Nat → Nat) (f k : Nat) : List post_cqe_data :=
  (List.range (k - f)).map (fun i => { res := 0, user_data := u (f + i) })

/-- An outside world in which no allocation succeeds and the pool refuses every
task. -/
def env_refuse : Nat → oracle := fun _ => { malloc_ok := false, queue_status := -11 }

/-- The ring after the completions of a list are written one after the other
by `__gw_post_cqe`. -/
def post_all (ring : gw_ring) : List post_cqe_data → gw_ring
  | [] => ring
  | d :: l => post_all (__gw_post_cqe ring d.res d.user_data) l

/-- The completions `n` consecutive NOP SQEs from submission counter `head` on
stand for: result 0 and the `user_data` of the SQE, in submission order. -/
def nop_records (ring : gw_ring) : Nat → Nat → List post_cqe_data
  | 0, _ => []
  | n + 1, head =>
    { res := 0, user_data := (sqe_at ring head).user_data } ::
      nop_records ring n (add32 head 1)

/-- The ring of the overflow test: a 16-entry ring on which two batches of 16
NOPs tagged `0xdeadbeef` were submitted and a third batch of 16 is queued. -/
def overflow_test_ring : gw_ring :=
  queue_nops 3735928559 16
    (submit_ok (queue_nops 3735928559 16 (submit_ok (queue_nops 3735928559 16 (fresh_ring 16)))))

/-! ## Never-failing reservation, submit and wait, iteration -/

/-- `gw_ring_get_sqe_nf`: when the SQ is full the internal submit runs first and
its return value is dropped; the slot at `sq_tail` is then claimed
unconditionally.  `none` means the submit loop ran out of fuel. -/
def gw_ring_get_sqe_nf (env : Nat → oracle) (ring : gw_ring) : Option (Nat × gw_ring) :=
  if gw_ring_sq_left ring = 0 then
    match __gw_ring_submit env ring with
    | none => none
    | some res =>
      some (res.2.sq_tail &&& res.2.sq_mask, { res.2 with sq_tail := add32 res.2.sq_tail 1 })
  else
    some (ring.sq_tail &&& ring.sq_mask, { ring with sq_tail := add32 ring.sq_tail 1 })

/-- `gw_ring_submit_and_wait` up to its return or its first `cond_wait`: the
submit phase, then, unless that returned a negative value, the wait phase with
a `NULL` `cqe` argument.  `none` means the submit loop ran out of fuel. -/
def gw_ring_submit_and_wait (env : Nat → oracle) (ring : gw_ring) (wait_nr : Nat) :
    Option wait_out :=
  match __gw_ring_submit env ring with
  | none => none
  | some res =>
    if res.1 < 0 then some { ret := some res.1, cqe := none, ring := res.2 }
    else some (__gw_ring_wait_cqe_nr res.2 none wait_nr)

/-- `gw_ring_submit_and_wait` resumed from the `cond_wait` of its wait phase. -/
def gw_ring_submit_and_wait_wake (ring : gw_ring) (wait_nr : Nat) : wait_out :=
  __gw_ring_wait_cqe_nr_wake ring none wait_nr

/-- The CQE stored for completion counter `c`: `ring->cqes[c & ring->cq_mask]`. -/
def cqe_at (ring : gw_ring) (c : Nat) : gw_ring_cqe :=
  ring.cqes.getD (c &&& ring.cq_mask) cqe_zero

/-- The loop of the macro `gw_ring_for_each_cqe(ring, head, cqe)`:
`for (head = ring->cq_head; (cqe = head != ring->cq_tail ? &ring->cqes[head & ring->cq_mask] : NULL); head++)`.
Each run of the body is recorded as the pointer `cqe` (the slot index) with the
CQE it points to.  The macro assigns to `head` and `cqe` only, so the ring is
passed along as it is.  `fuel` bounds the number of loop tests, and `none`
means it ran out. -/
def gw_ring_for_each_cqe_loop (ring : gw_ring) :
    Nat → Nat → List (Nat × gw_ring_cqe) → Option (List (Nat × gw_ring_cqe) × gw_ring)
  | 0, _, _ => none
  | fuel + 1, head, visited =>
    if head ≠ ring.cq_tail then
      gw_ring_for_each_cqe_loop ring fuel (add32 head 1)
        (visited ++ [(head &&& ring.cq_mask, cqe_at ring head)])
    else some (visited, ring)

/-- `gw_ring_for_each_cqe` with a body that only reads `cqe`.  A 32-bit `head`
reaches `cq_tail` in fewer than `2 ^ 32` increments, so `2 ^ 32` loop tests are
allowed. -/
def gw_ring_for_each_cqe (ring : gw_ring) : Option (List (Nat × gw_ring_cqe) × gw_ring) :=
  gw_ring_for_each_cqe_loop ring (2 ^ 32) ring.cq_head []

/-! ## Sequences of calls -/

/-- A step on the submission side of the ring: one of the four calls
`gw_ring_get_sqe`, `gw_ring_get_sqe_nf`, `gw_ring_submit`,
`gw_ring_submit_and_wait`, the wake-up of a `gw_ring_submit_and_wait` that is
blocked in its wait phase, or the caller writing an SQE into a slot. -/
inductive sq_op where
  | get_sqe
  | get_sqe_nf (env : Nat → oracle)
  | submit (env : Nat → oracle)
  | submit_and_wait (env : Nat → oracle) (wait_nr : Nat)
  | wait_wake (wait_nr : Nat)
  | fill (slot : Nat) (sqe : gw_ring_sqe)

/-- The ring after one submission-side step; `none` when a submit loop ran out
of fuel. -/
def sq_step (ring : gw_ring) : sq_op → Option gw_ring
  | sq_op.get_sqe => some (gw_ring_get_sqe ring).2
  | sq_op.get_sqe_nf env => (gw_ring_get_sqe_nf env ring).map (fun x => x.2)
  | sq_op.submit env => (gw_ring_submit env ring).map (fun x => x.2)
  | sq_op.submit_and_wait env wait_nr =>
    (gw_ring_submit_and_wait env ring wait_nr).map (fun x => x.ring)
  | sq_op.wait_wake wait_nr => some (gw_ring_submit_and_wait_wake ring wait_nr).ring
  | sq_op.fill slot sqe => some { ring with sqes := ring.sqes.set slot sqe }

/-- The ring after a sequence of submission-side steps. -/
def sq_run : gw_ring → List sq_op → Option gw_ring
  | ring, [] => some ring
  | ring, op :: ops =>
    match sq_step ring op with
    | none => none
    | some ring1 => sq_run ring1 ops

/-- A sequence of `gw_post_cqe` calls: what each call returned, and the ring
after the last one. -/
def post_calls (ring : gw_ring) : List (oracle × post_cqe_data) → List Bool × gw_ring
  | [] => ([], ring)
  | c :: cs =>
    let s := gw_post_cqe c.1 ring c.2.res c.2.user_data
    let rest := post_calls s.2 cs
    (s.1 :: rest.1, rest.2)

/-! ## Lock traces -/

/-- A `mutex_lock` or `mutex_unlock` call on one of the two ring mutexes.  A
`cond_wait` on `cq_lock` counts as `unlock_cq` when the thread goes to sleep
and as `lock_cq` when it wakes up. -/
inductive lock_ev where
  | lock_sq
  | unlock_sq
  | lock_cq
  | unlock_cq
deriving DecidableEq, Repr

/-- `gw_post_cqe` with the mutex calls it makes, in program order. -/
def gw_post_cqe_tr (o : oracle) (ring : gw_ring) (res : Int) (user_data : Nat) :
    (Bool × gw_ring) × List lock_ev :=
  if gw_ring_cq_left ring = 0 then
    (gw_post_cqe_via_wq o ring res user_data, [lock_ev.lock_cq, lock_ev.unlock_cq])
  else ((true, __gw_post_cqe ring res user_data), [lock_ev.lock_cq, lock_ev.unlock_cq])

/-- `gw_issue_sqe` with the ring mutex calls it makes: the NOP case calls
`gw_post_cqe`; `gw_issue_sqe_tg_get_updates` and the default case touch no
ring mutex. -/
def gw_issue_sqe_tr (o : oracle) (ring : gw_ring) (sqe : gw_ring_sqe) :
    (Bool × gw_ring) × List lock_ev :=
  if sqe.op = GW_RING_OP_NOP then gw_post_cqe_tr o ring 0 sqe.user_data
  else if sqe.op = GW_RING_OP_TG_GET_UPDATES then (gw_issue_sqe_tg_get_updates o ring sqe, [])
  else ((false, ring), [])

/-- The loop of `__gw_ring_submit` with the mutex calls made so far. -/
def __gw_ring_submit_loop_tr (env : Nat → oracle) :
    Nat → gw_ring → Nat → Nat → Int → Nat → List lock_ev →
      Option ((Int × gw_ring) × List lock_ev)
  | 0, _, _, _, _, _, _ => none
  | fuel + 1, ring, head, tail, ret, i, tr =>
    if head = tail then some ((ret, { ring with sq_head := head }), tr)
    else if ring.should_stop then some ((-EOWNERDEAD, ring), tr)
    else
      let r := gw_issue_sqe_tr (env i) ring (sqe_at ring head)
      __gw_ring_submit_loop_tr env fuel r.1.2 (add32 head 1) tail
        (if r.1.1 then ret + 1 else ret) (i + 1) (tr ++ r.2)

/-- `__gw_ring_submit` continuing the trace `tr`. -/
def __gw_ring_submit_tr (env : Nat → oracle) (ring : gw_ring) (tr : List lock_ev) :
    Option ((Int × gw_ring) × List lock_ev) :=
  __gw_ring_submit_loop_tr env (2 ^ 32) ring ring.sq_head ring.sq_tail 0 0 tr

/-- `gw_ring_submit` with its mutex calls. -/
def gw_ring_submit_tr (env : Nat → oracle) (ring : gw_ring) :
    Option ((Int × gw_ring) × List lock_ev) :=
  match __gw_ring_submit_tr env ring [lock_ev.lock_sq] with
  | none => none
  | some x => some (x.1, x.2 ++ [lock_ev.unlock_sq])

/-- `gw_ring_get_sqe_nf` with its mutex calls. -/
def gw_ring_get_sqe_nf_tr (env : Nat → oracle) (ring : gw_ring) :
    Option ((Nat × gw_ring) × List lock_ev) :=
  if gw_ring_sq_left ring = 0 then
    match __gw_ring_submit_tr env ring [lock_ev.lock_sq] with
    | none => none
    | some x =>
      some ((x.1.2.sq_tail &&& x.1.2.sq_mask, { x.1.2 with sq_tail := add32 x.1.2.sq_tail 1 }),
        x.2 ++ [lock_ev.unlock_sq])
  else
    some ((ring.sq_tail &&& ring.sq_mask, { ring with sq_tail := add32 ring.sq_tail 1 }),
      [lock_ev.lock_sq, lock_ev.unlock_sq])

/-- `gw_ring_wait_cqe_nr` with its mutex calls, up to its return or its first
`cond_wait`: `mutex_lock`, then either the return through `mutex_unlock` or the
release of the mutex inside `cond_wait`. -/
def gw_ring_wait_cqe_nr_tr (ring : gw_ring) (cqe : Option (Option Nat)) (nr : Nat) :
    wait_out × List lock_ev :=
  (__gw_ring_wait_cqe_nr ring cqe nr, [lock_ev.lock_cq, lock_ev.unlock_cq])

/-- A wait resumed from `cond_wait` with its mutex calls: the mutex is taken
again on wake-up and given back at the return or at the next `cond_wait`. -/
def gw_ring_wait_cqe_nr_wake_tr (ring : gw_ring) (cqe : Option (Option Nat)) (nr : Nat) :
    wait_out × List lock_ev :=
  (__gw_ring_wait_cqe_nr_wake ring cqe nr, [lock_ev.lock_cq, lock_ev.unlock_cq])

/-- `gw_ring_submit_and_wait` with its mutex calls, up to its return or its
first `cond_wait`. -/
def gw_ring_submit_and_wait_tr (env : Nat → oracle) (ring : gw_ring) (wait_nr : Nat) :
    Option (wait_out × List lock_ev) :=
  match __gw_ring_submit_tr env ring [lock_ev.lock_sq] with
  | none => none
  | some x =>
    if x.1.1 < 0 then
      some ({ ret := some x.1.1, cqe := none, ring := x.1.2 }, x.2 ++ [lock_ev.unlock_sq])
    else
      some (__gw_ring_wait_cqe_nr x.1.2 none wait_nr,
        x.2 ++ [lock_ev.unlock_sq] ++ [lock_ev.lock_cq, lock_ev.unlock_cq])

/-- `gw_ring_cq_advance` with its mutex calls. -/
def gw_ring_cq_advance_tr (ring : gw_ring) (n : Nat) : gw_ring × List lock_ev :=
  (gw_ring_cq_advance ring n, [lock_ev.lock_cq, lock_ev.unlock_cq])

/-- Whether `cq_lock` is acquired at a moment when `sq_lock` is held, in a trace
that starts with `sq_lock` held or not as the first argument says. -/
def cq_under_sq : Bool → List lock_ev → Bool
  | _, [] => false
  | _, lock_ev.lock_sq :: t => cq_under_sq true t
  | _, lock_ev.unlock_sq :: t => cq_under_sq false t
  | sq, lock_ev.lock_cq :: t => sq || cq_under_sq sq t
  | sq, lock_ev.unlock_cq :: t => cq_under_sq sq t

/-- Whether `sq_lock` is acquired at a moment when `cq_lock` is held, in a trace
that starts with `cq_lock` held or not as the first argument says. -/
def sq_under_cq : Bool → List lock_ev → Bool
  | _, [] => false
  | _, lock_ev.lock_cq :: t => sq_under_cq true t
  | _, lock_ev.unlock_cq :: t => sq_under_cq false t
  | cq, lock_ev.lock_sq :: t => cq || sq_under_cq cq t
  | cq, lock_ev.unlock_sq :: t => sq_under_cq cq t

/-- The ring mutex calls one `gw_issue_sqe` makes for an SQE: those of
`gw_post_cqe` for a NOP, none otherwise. -/
def issue_locks (sqe : gw_ring_sqe) : List lock_ev :=
  if sqe.op = GW_RING_OP_NOP then [lock_ev.lock_cq, lock_ev.unlock_cq] else []

/-- The ring mutex calls made while `n` consecutive SQEs from submission counter
`head` on are dispatched. -/
def dispatch_locks (ring : gw_ring) : Nat → Nat → List lock_ev
  | 0, _ => []
  | n + 1, head => issue_locks (sqe_at ring head) ++ dispatch_locks ring n (add32 head 1)

/-- What the submission-side steps keep: `should_stop` is clear, the two SQ
counters are 32-bit values, and the SQ holds at most `sq_mask + 1` entries, a
capacity of at least one. -/
def sq_inv (r : gw_ring) : Prop :=
  r.should_stop = false ∧ r.sq_head < 2 ^ 32 ∧ r.sq_tail < 2 ^ 32 ∧
  1 ≤ add32 r.sq_mask 1 ∧ gw_ring_sq_ready r ≤ add32 r.sq_mask 1

/-! ## Arithmetic and ring-shape lemmas -/

theorem sub32_lt (a b : Nat) : sub32 a b < 2 ^ 32 := by
  unfold sub32; exact Nat.mod_lt _ (by norm_num)

theorem add32_lt (a b : Nat) : add32 a b < 2 ^ 32 := by
  unfold add32; exact Nat.mod_lt _ (by norm_num)

theorem sq_cap_bounds (r : gw_ring) (h : ring_ok r) :
    2 ≤ r.sq_mask + 1 ∧ r.sq_mask + 1 ≤ 2 ^ 30 := by
  obtain ⟨⟨n, hn, hn0, hp⟩, -⟩ := h
  rw [hp]
  constructor
  · calc 2 = 2 ^ 1 := by norm_num
      _ ≤ 2 ^ n := Nat.pow_le_pow_right (by norm_num) hn0
  · exact Nat.pow_le_pow_right (by norm_num) (by omega)

theorem cq_cap_bounds (r : gw_ring) (h : ring_ok r) :
    4 ≤ r.cq_mask + 1 ∧ r.cq_mask + 1 ≤ 2 ^ 31 := by
  have hs := sq_cap_bounds r h
  have hc : r.cq_mask + 1 = 2 * (r.sq_mask + 1) := h.2.1
  omega

theorem sq_left_eq_zero_iff (r : gw_ring) (h : ring_ok r) :
    gw_ring_sq_left r = 0 ↔ gw_ring_sq_ready r = r.sq_mask + 1 := by
  have hcap := sq_cap_bounds r h
  have hr : gw_ring_sq_ready r < 2 ^ 32 := sub32_lt _ _
  unfold gw_ring_sq_left
  generalize gw_ring_sq_ready r = k at *
  unfold sub32 add32
  omega

theorem cq_slot_lt (r : gw_ring) (h : ring_ok r) (c : Nat) :
    (c &&& r.cq_mask) < r.cqes.length := by
  have hlen : r.cqes.length = r.cq_mask + 1 := h.2.2.2.1
  have := @Nat.and_le_right c r.cq_mask
  omega

/-! ## Dispatch lemmas -/

theorem issue_frame (o : oracle) (r : gw_ring) (sqe : gw_ring_sqe) :
    (gw_issue_sqe o r sqe).2.should_stop = r.should_stop ∧
    (gw_issue_sqe o r sqe).2.sqes = r.sqes ∧
    (gw_issue_sqe o r sqe).2.sq_head = r.sq_head ∧
    (gw_issue_sqe o r sqe).2.sq_tail = r.sq_tail ∧
    (gw_issue_sqe o r sqe).2.sq_mask = r.sq_mask ∧
    (gw_issue_sqe o r sqe).2.cq_head = r.cq_head ∧
    (gw_issue_sqe o r sqe).2.cq_mask = r.cq_mask ∧
    (gw_issue_sqe o r sqe).2.post_cqe_cond_n = r.post_cqe_cond_n ∧
    (gw_issue_sqe o r sqe).2.wait_cqe_cond_n = r.wait_cqe_cond_n ∧
    (gw_issue_sqe o r sqe).2.cqes.length = r.cqes.length := by
  simp only [gw_issue_sqe, gw_issue_sqe_nop, gw_issue_sqe_tg_get_updates, gw_post_cqe,
    gw_post_cqe_via_wq, __gw_post_cqe]
  split_ifs <;> simp

theorem submit_loop_eq (env : Nat → oracle) (tail : Nat) (ht : tail < 2 ^ 32) :
    ∀ (n fuel : Nat) (r : gw_ring) (head : Nat) (ret : Int) (i : Nat),
      r.should_stop = false → head < 2 ^ 32 → sub32 tail head = n → n < fuel →
      __gw_ring_submit_loop env fuel r head tail ret i =
        some (ret + ((dispatch_seq env n head i r).1.count true : Nat),
          { (dispatch_seq env n head i r).2 with sq_head := tail }) := by
  intro n
  induction n with
  | zero =>
    intro fuel r head ret i hs hh hn hf
    obtain ⟨f, rfl⟩ : ∃ f, fuel = f + 1 := ⟨fuel - 1, by omega⟩
    have hht : head = tail := by unfold sub32 at hn; omega
    simp [__gw_ring_submit_loop, dispatch_seq, hht]
  | succ n ih =>
    intro fuel r head ret i hs hh hn hf
    obtain ⟨f, rfl⟩ : ∃ f, fuel = f + 1 := ⟨fuel - 1, by omega⟩
    have hht : head ≠ tail := by unfold sub32 at hn; omega
    have hn' : sub32 tail (add32 head 1) = n := by unfold sub32 add32 at *; omega
    have hs' : (gw_issue_sqe (env i) r (sqe_at r head)).2.should_stop = false := by
      rw [(issue_frame _ _ _).1]; exact hs
    rw [__gw_ring_submit_loop]
    simp only [hht, if_false, hs, Bool.false_eq_true]
    rw [ih f _ (add32 head 1) _ (i + 1) hs' (add32_lt _ _) hn' (by omega)]
    simp only [dispatch_seq]
    cases hok : (gw_issue_sqe (env i) r (sqe_at r head)).1
    · simp
    · simp [List.count_cons]; omega

theorem dispatch_seq_length (env : Nat → oracle) :
    ∀ (n head i : Nat) (r : gw_ring), (dispatch_seq env n head i r).1.length = n := by
  intro n
  induction n with
  | zero => intro head i r; rfl
  | succ n ih => intro head i r; simp [dispatch_seq, ih]

theorem dispatch_seq_frame (env : Nat → oracle) :
    ∀ (n head i : Nat) (r : gw_ring),
      (dispatch_seq env n head i r).2.should_stop = r.should_stop ∧
      (dispatch_seq env n head i r).2.sqes = r.sqes ∧
      (dispatch_seq env n head i r).2.sq_head = r.sq_head ∧
      (dispatch_seq env n head i r).2.sq_tail = r.sq_tail ∧
      (dispatch_seq env n head i r).2.sq_mask = r.sq_mask ∧
      (dispatch_seq env n head i r).2.cq_head = r.cq_head ∧
      (dispatch_seq env n head i r).2.cq_mask = r.cq_mask ∧
      (dispatch_seq env n head i r).2.post_cqe_cond_n = r.post_cqe_cond_n ∧
      (dispatch_seq env n head i r).2.wait_cqe_cond_n = r.wait_cqe_cond_n ∧
      (dispatch_seq env n head i r).2.cqes.length = r.cqes.length := by
  intro n
  induction n with
  | zero => intro head i r; simp [dispatch_seq]
  | succ n ih =>
    intro head i r
    have h1 := issue_frame (env i) r (sqe_at r head)
    have h2 := ih (add32 head 1) (i + 1) (gw_issue_sqe (env i) r (sqe_at r head)).2
    simp only [dispatch_seq]
    obtain ⟨a1, a2, a3, a4, a5, a6, a7, a8, a9, a10⟩ := h1
    obtain ⟨b1, b2, b3, b4, b5, b6, b7, b8, b9, b10⟩ := h2
    exact ⟨b1.trans a1, b2.trans a2, b3.trans a3, b4.trans a4, b5.trans a5, b6.trans a6,
      b7.trans a7, b8.trans a8, b9.trans a9, b10.trans a10⟩

theorem sqe_at_congr (r r' : gw_ring) (c : Nat) (h1 : r'.sqes = r.sqes)
    (h2 : r'.sq_mask = r.sq_mask) : sqe_at r' c = sqe_at r c := by
  unfold sqe_at; rw [h1, h2]

theorem issue_unknown (o : oracle) (r : gw_ring) (sqe : gw_ring_sqe)
    (h : GW_RING_OP_LAST ≤ sqe.op) : gw_issue_sqe o r sqe = (false, r) := by
  have h0 : ¬ sqe.op = GW_RING_OP_NOP := by
    intro h'; rw [h'] at h; exact absurd h (by decide)
  have h1 : ¬ sqe.op = GW_RING_OP_TG_GET_UPDATES := by
    intro h'; rw [h'] at h; exact absurd h (by decide)
  simp [gw_issue_sqe, h0, h1]

theorem dispatch_seq_unknown (env : Nat → oracle) :
    ∀ (n head i : Nat) (r : gw_ring) (j : Nat), head < 2 ^ 32 → j < n →
      GW_RING_OP_LAST ≤ (sqe_at r (add32 head j)).op →
      (dispatch_seq env n head i r).1[j]? = some false := by
  intro n
  induction n with
  | zero => intro head i r j _ hj; omega
  | succ n ih =>
    intro head i r j hh hj hop
    cases j with
    | zero =>
      have h0 : add32 head 0 = head := by unfold add32; omega
      rw [h0] at hop
      simp [dispatch_seq, issue_unknown _ _ _ hop]
    | succ j =>
      have hf := issue_frame (env i) r (sqe_at r head)
      have hc : add32 (add32 head 1) j = add32 head (j + 1) := by unfold add32; omega
      simp only [dispatch_seq, List.getElem?_cons_succ]
      apply ih (add32 head 1) (i + 1) _ j (add32_lt _ _) (by omega)
      rw [sqe_at_congr r _ _ hf.2.1 hf.2.2.2.2.1, hc]
      exact hop

theorem submit_eq_dispatch (env : Nat → oracle) (r : gw_ring) (h : ring_ok r)
    (hs : r.should_stop = false) :
    gw_ring_submit env r =
      some ((((dispatch_seq env (gw_ring_sq_ready r) r.sq_head 0 r).1.count true : Nat) : Int),
        { (dispatch_seq env (gw_ring_sq_ready r) r.sq_head 0 r).2 with sq_head := r.sq_tail }) := by
  have h1 : r.sq_head < 2 ^ 32 := h.2.2.2.2.1
  have h2 : r.sq_tail < 2 ^ 32 := h.2.2.2.2.2.1
  have := submit_loop_eq env r.sq_tail h2 (gw_ring_sq_ready r) (2 ^ 32) r r.sq_head 0 0 hs h1
    rfl (sub32_lt _ _)
  simpa [gw_ring_submit, __gw_ring_submit] using this

/-! ## CQ slot lemmas -/

theorem and_mask_eq_mod (mask n c : Nat) (h : mask + 1 = 2 ^ n) :
    c &&& mask = c % (mask + 1) := by
  have hm : mask = 2 ^ n - 1 := by omega
  rw [h, hm, Nat.and_pow_two_sub_one_eq_mod]

theorem add32_mod_cap (cap n c j : Nat) (hcap : cap = 2 ^ n) (hn : n ≤ 32) :
    add32 c j % cap = (c + j) % cap := by
  unfold add32
  rw [hcap]
  exact Nat.mod_mod_of_dvd _ (Nat.pow_dvd_pow 2 hn)

theorem slot_ne (mask n c a b : Nat) (h : mask + 1 = 2 ^ n) (hn : n ≤ 32)
    (hab : a < b) (hlt : b - a < mask + 1) :
    (add32 c a &&& mask) ≠ (add32 c b &&& mask) := by
  rw [and_mask_eq_mod mask n _ h, and_mask_eq_mod mask n _ h,
    add32_mod_cap _ n c a h hn, add32_mod_cap _ n c b h hn]
  intro he
  have h1 : a ≡ b [MOD mask + 1] := Nat.ModEq.add_left_cancel' c he
  have h2 : mask + 1 ∣ b - a := (Nat.modEq_iff_dvd' (le_of_lt hab)).mp h1
  have h3 : b - a = 0 := Nat.eq_zero_of_dvd_of_lt h2 hlt
  omega

theorem add32_add32 (c a b : Nat) : add32 (add32 c a) b = add32 c (a + b) := by
  unfold add32; omega

theorem add32_zero (c : Nat) (h : c < 2 ^ 32) : add32 c 0 = c := by
  unfold add32; omega

theorem post_all_spec (n : Nat) (hn : n ≤ 32) :
    ∀ (l : List post_cqe_data) (r : gw_ring),
      r.cq_mask + 1 = 2 ^ n → r.cqes.length = r.cq_mask + 1 → r.cq_tail < 2 ^ 32 →
      l.length ≤ r.cq_mask + 1 →
      (post_all r l).cq_tail = add32 r.cq_tail l.length ∧
      (post_all r l).cqes.length = r.cqes.length ∧
      (∀ j, j < l.length →
        (post_all r l).cqes[add32 r.cq_tail j &&& r.cq_mask]? =
          (l[j]?).map (fun d => { res := d.res, user_data := d.user_data })) ∧
      (∀ s, (∀ j, j < l.length → s ≠ (add32 r.cq_tail j &&& r.cq_mask)) →
        (post_all r l).cqes[s]? = r.cqes[s]?) ∧
      post_all r l =
        { r with cqes := (post_all r l).cqes, cq_tail := (post_all r l).cq_tail } := by
  intro l
  induction l with
  | nil =>
    intro r _ _ ht _
    refine ⟨?_, rfl, ?_, ?_, rfl⟩
    · simp [post_all, add32_zero _ ht]
    · intro j hj; simp at hj
    · intro s _; rfl
  | cons d l ih =>
    intro r hm hlen ht hl
    have hl' : l.length + 1 ≤ r.cq_mask + 1 := by simpa using hl
    have hslot : (r.cq_tail &&& r.cq_mask) < r.cqes.length := by
      have := @Nat.and_le_right r.cq_tail r.cq_mask
      omega
    obtain ⟨i1, i2, i3, i4, i5⟩ := ih (__gw_post_cqe r d.res d.user_data) hm
      (by simp [__gw_post_cqe, hlen]) (add32_lt _ _) (by show l.length ≤ r.cq_mask + 1; omega)
    have e1 : (__gw_post_cqe r d.res d.user_data).cq_tail = add32 r.cq_tail 1 := rfl
    have e2 : (__gw_post_cqe r d.res d.user_data).cq_mask = r.cq_mask := rfl
    have e3 : (__gw_post_cqe r d.res d.user_data).cqes =
        r.cqes.set (r.cq_tail &&& r.cq_mask) { res := d.res, user_data := d.user_data } := rfl
    rw [e1, e2] at i3 i4
    rw [e1] at i1
    rw [e3] at i2 i4
    have hp : post_all r (d :: l) = post_all (__gw_post_cqe r d.res d.user_data) l := rfl
    rw [hp]
    refine ⟨?_, ?_, ?_, ?_, ?_⟩
    · rw [i1, add32_add32]; simp [Nat.add_comm]
    · rw [i2]; simp
    · intro j hj
      cases j with
      | zero =>
        have hne : ∀ j, j < l.length →
            (add32 r.cq_tail 0 &&& r.cq_mask) ≠ (add32 (add32 r.cq_tail 1) j &&& r.cq_mask) := by
          intro j hj
          rw [add32_add32]
          exact slot_ne r.cq_mask n r.cq_tail 0 (1 + j) hm hn (by omega) (by omega)
        rw [i4 _ hne, add32_zero _ ht, List.getElem?_set_self hslot]
        simp
      | succ j =>
        have := i3 j (by simpa using hj)
        rw [add32_add32, Nat.add_comm 1 j] at this
        rw [this]
        simp
    · intro s hs
      have h0 := hs 0 (by simp)
      rw [add32_zero _ ht] at h0
      rw [i4 s, List.getElem?_set_ne (Ne.symm h0)]
      intro j hj
      rw [add32_add32, Nat.add_comm 1 j]
      exact hs (j + 1) (by simpa using hj)
    · exact i5.trans rfl

theorem nop_records_congr (r r' : gw_ring) (h1 : r'.sqes = r.sqes) (h2 : r'.sq_mask = r.sq_mask) :
    ∀ (n head : Nat), nop_records r' n head = nop_records r n head := by
  intro n
  induction n with
  | zero => intro head; rfl
  | succ n ih =>
    intro head
    simp only [nop_records, ih, sqe_at_congr r r' head h1 h2]

theorem nop_records_length (r : gw_ring) :
    ∀ (n head : Nat), (nop_records r n head).length = n := by
  intro n
  induction n with
  | zero => intro head; rfl
  | succ n ih => intro head; simp [nop_records, ih]

theorem nop_records_get (r : gw_ring) :
    ∀ (n head j : Nat), head < 2 ^ 32 → j < n →
      (nop_records r n head)[j]? =
        some { res := 0, user_data := (sqe_at r (add32 head j)).user_data } := by
  intro n
  induction n with
  | zero => intro head j _ hj; omega
  | succ n ih =>
    intro head j hh hj
    cases j with
    | zero => simp [nop_records, add32_zero _ hh]
    | succ j =>
      simp only [nop_records, List.getElem?_cons_succ]
      rw [ih (add32 head 1) j (add32_lt _ _) (by omega), add32_add32, Nat.add_comm 1 j]

theorem issue_nop_direct (o : oracle) (r : gw_ring) (sqe : gw_ring_sqe)
    (hop : sqe.op = GW_RING_OP_NOP) (hl : gw_ring_cq_left r ≠ 0) :
    gw_issue_sqe o r sqe = (true, __gw_post_cqe r 0 sqe.user_data) := by
  simp [gw_issue_sqe, hop, gw_issue_sqe_nop, gw_post_cqe, hl]

theorem issue_nop_overflow (o : oracle) (r : gw_ring) (sqe : gw_ring_sqe) (q : workqueue_struct)
    (hop : sqe.op = GW_RING_OP_NOP) (hl : gw_ring_cq_left r = 0) (hq : r.io_wq = some q)
    (hm : o.malloc_ok = true) (hs : o.queue_status = 0) :
    gw_issue_sqe o r sqe =
      (true, { r with
        io_wq := some ⟨q.pending ++ [work.post_cqe { res := 0, user_data := sqe.user_data }]⟩ }) := by
  simp [gw_issue_sqe, hop, gw_issue_sqe_nop, gw_post_cqe, hl, gw_post_cqe_via_wq, hm, hs, hq,
    try_queue_work]

theorem dispatch_nops_direct (env : Nat → oracle) :
    ∀ (n head i : Nat) (r : gw_ring),
      r.cq_head < 2 ^ 32 → r.cq_tail < 2 ^ 32 → r.cq_mask + 1 < 2 ^ 32 → head < 2 ^ 32 →
      (∀ j, j < n → (sqe_at r (add32 head j)).op = GW_RING_OP_NOP) →
      gw_ring_cq_ready r + n ≤ r.cq_mask + 1 →
      dispatch_seq env n head i r = (List.replicate n true, post_all r (nop_records r n head)) := by
  intro n
  induction n with
  | zero => intro head i r _ _ _ _ _ _; rfl
  | succ n ih =>
    intro head i r hh ht hm hhd hnop hfree
    have hop : (sqe_at r head).op = GW_RING_OP_NOP := by
      have := hnop 0 (by omega); rwa [add32_zero _ hhd] at this
    have hl : gw_ring_cq_left r ≠ 0 := by
      unfold gw_ring_cq_left gw_ring_cq_ready sub32 add32 at *; omega
    have hstep := issue_nop_direct (env i) r (sqe_at r head) hop hl
    have hready : gw_ring_cq_ready (__gw_post_cqe r 0 (sqe_at r head).user_data) + n ≤
        r.cq_mask + 1 := by
      show sub32 (add32 r.cq_tail 1) r.cq_head + n ≤ r.cq_mask + 1
      unfold gw_ring_cq_ready sub32 add32 at *; omega
    have hnop' : ∀ j, j < n →
        (sqe_at (__gw_post_cqe r 0 (sqe_at r head).user_data) (add32 (add32 head 1) j)).op =
          GW_RING_OP_NOP := by
      intro j hj
      rw [sqe_at_congr r _ _ rfl rfl, add32_add32, Nat.add_comm 1 j]
      exact hnop (j + 1) (by omega)
    have := ih (add32 head 1) (i + 1) (__gw_post_cqe r 0 (sqe_at r head).user_data) hh
      (add32_lt _ _) hm (add32_lt _ _) hnop' hready
    rw [dispatch_seq, hstep]
    simp only [this, List.replicate_succ, nop_records, post_all]
    rw [nop_records_congr r (__gw_post_cqe r 0 (sqe_at r head).user_data) rfl rfl]

theorem cq_left_io_wq (r : gw_ring) (w : Option workqueue_struct) :
    gw_ring_cq_left { r with io_wq := w } = gw_ring_cq_left r := rfl

theorem dispatch_nops_overflow (env : Nat → oracle) :
    ∀ (n head i : Nat) (r : gw_ring) (q : workqueue_struct),
      r.io_wq = some q → gw_ring_cq_left r = 0 → head < 2 ^ 32 →
      (∀ j, j < n → (sqe_at r (add32 head j)).op = GW_RING_OP_NOP) →
      (∀ k, (env k).malloc_ok = true ∧ (env k).queue_status = 0) →
      dispatch_seq env n head i r =
        (List.replicate n true,
          { r with io_wq := some ⟨q.pending ++ (nop_records r n head).map work.post_cqe⟩ }) := by
  intro n
  induction n with
  | zero =>
    intro head i r q hq _ _ _ _
    simp only [dispatch_seq, nop_records, List.map_nil, List.append_nil, List.replicate_zero]
    congr 1
    cases r; simp_all
  | succ n ih =>
    intro head i r q hq hl hhd hnop henv
    have hop : (sqe_at r head).op = GW_RING_OP_NOP := by
      have := hnop 0 (by omega); rwa [add32_zero _ hhd] at this
    have hstep := issue_nop_overflow (env i) r (sqe_at r head) q hop hl hq (henv i).1 (henv i).2
    have hnop' : ∀ j, j < n →
        (sqe_at ({ r with io_wq := some ⟨q.pending ++
            [work.post_cqe { res := 0, user_data := (sqe_at r head).user_data }]⟩ } : gw_ring)
          (add32 (add32 head 1) j)).op = GW_RING_OP_NOP := by
      intro j hj
      rw [sqe_at_congr r _ _ rfl rfl, add32_add32, Nat.add_comm 1 j]
      exact hnop (j + 1) (by omega)
    have := ih (add32 head 1) (i + 1) _ _ rfl (by rw [cq_left_io_wq]; exact hl) (add32_lt _ _)
      hnop' henv
    rw [dispatch_seq, hstep]
    simp only [this, List.replicate_succ, nop_records, List.map_cons, List.append_assoc,
      List.singleton_append]
    rw [nop_records_congr r ({ r with io_wq := some ⟨q.pending ++
      [work.post_cqe { res := 0, user_data := (sqe_at r head).user_data }]⟩ } : gw_ring) rfl rfl]

theorem dispatch_seq_append (env : Nat → oracle) :
    ∀ (a b head i : Nat) (r : gw_ring), head < 2 ^ 32 →
      dispatch_seq env (a + b) head i r =
        ((dispatch_seq env a head i r).1 ++
            (dispatch_seq env b (add32 head a) (i + a) (dispatch_seq env a head i r).2).1,
          (dispatch_seq env b (add32 head a) (i + a) (dispatch_seq env a head i r).2).2) := by
  intro a
  induction a with
  | zero =>
    intro b head i r hh
    simp [dispatch_seq, add32_zero _ hh]
  | succ a ih =>
    intro b head i r hh
    have e : a + 1 + b = (a + b) + 1 := by omega
    rw [e, dispatch_seq, dispatch_seq, ih _ _ _ _ (add32_lt _ _)]
    simp only [List.cons_append, add32_add32]
    rw [Nat.add_comm 1 a, Nat.add_assoc i 1 a, Nat.add_comm 1 a]

theorem cq_shape (r : gw_ring) (h : ring_ok r) :
    ∃ n, n ≤ 32 ∧ r.cq_mask + 1 = 2 ^ n := by
  obtain ⟨⟨n, hn, hn0, hp⟩, hcq, -⟩ := h
  refine ⟨n + 1, by omega, ?_⟩
  rw [hcq, hp]; ring

theorem cq_tail_eq (r : gw_ring) (ht : r.cq_tail < 2 ^ 32) :
    r.cq_tail = add32 r.cq_head (gw_ring_cq_ready r) := by
  unfold gw_ring_cq_ready sub32 add32; omega

theorem unconsumed_ne (r : gw_ring) (h : ring_ok r) (j i m : Nat)
    (hj : j < gw_ring_cq_ready r) (hm : gw_ring_cq_ready r + m ≤ r.cq_mask + 1) (hi : i < m) :
    (add32 r.cq_head j &&& r.cq_mask) ≠ (add32 r.cq_tail i &&& r.cq_mask) := by
  obtain ⟨n, hn, hp⟩ := cq_shape r h
  have hh : r.cq_head < 2 ^ 32 := h.2.2.2.2.2.2.1
  have ht : r.cq_tail < 2 ^ 32 := h.2.2.2.2.2.2.2.1
  rw [cq_tail_eq r ht, add32_add32]
  exact slot_ne r.cq_mask n r.cq_head j (gw_ring_cq_ready r + i) hp hn (by omega) (by omega)

theorem submit_nops_direct (env : Nat → oracle) (r : gw_ring) (h : ring_ok r)
    (hs : r.should_stop = false)
    (hnop : ∀ i, i < gw_ring_sq_ready r → (sqe_at r (add32 r.sq_head i)).op = GW_RING_OP_NOP)
    (hfree : gw_ring_cq_ready r + gw_ring_sq_ready r ≤ r.cq_mask + 1) :
    gw_ring_submit env r =
      some ((gw_ring_sq_ready r : Int),
        { post_all r (nop_records r (gw_ring_sq_ready r) r.sq_head) with sq_head := r.sq_tail }) := by
  have hc := cq_cap_bounds r h
  have hd := dispatch_nops_direct env (gw_ring_sq_ready r) r.sq_head 0 r h.2.2.2.2.2.2.1
    h.2.2.2.2.2.2.2.1 (by omega) h.2.2.2.2.1 hnop hfree
  rw [submit_eq_dispatch env r h hs, hd]
  simp

theorem post_all_cond_n (x : Nat) :
    ∀ (l : List post_cqe_data) (r : gw_ring),
      post_all { r with post_cqe_cond_n := x } l = { post_all r l with post_cqe_cond_n := x } := by
  intro l
  induction l with
  | nil => intro r; rfl
  | cons d l ih =>
    intro r
    show post_all { __gw_post_cqe r d.res d.user_data with post_cqe_cond_n := x } l = _
    rw [ih]
    rfl

theorem cq_left_cond_n (r : gw_ring) (x : Nat) :
    gw_ring_cq_left { r with post_cqe_cond_n := x } = gw_ring_cq_left r := rfl

theorem cq_left_pos (r : gw_ring)
    (hm : r.cq_mask + 1 < 2 ^ 32) (hfree : gw_ring_cq_ready r + 1 ≤ r.cq_mask + 1) :
    0 < gw_ring_cq_left r := by
  unfold gw_ring_cq_left gw_ring_cq_ready sub32 add32 at *; omega

theorem cq_ready_post (r : gw_ring) (res : Int) (ud : Nat)
    (hm : r.cq_mask + 1 < 2 ^ 32) (hfree : gw_ring_cq_ready r + 1 ≤ r.cq_mask + 1) :
    gw_ring_cq_ready (__gw_post_cqe r res ud) = gw_ring_cq_ready r + 1 := by
  show sub32 (add32 r.cq_tail 1) r.cq_head = _
  unfold gw_ring_cq_ready sub32 add32 at *; omega

theorem run_workers_done :
    ∀ (ws : List (Bool × post_cqe_data)) (r : gw_ring),
      r.cq_head < 2 ^ 32 → r.cq_tail < 2 ^ 32 → r.cq_mask + 1 < 2 ^ 32 →
      gw_ring_cq_ready r + ws.length ≤ r.cq_mask + 1 →
      (run_workers r ws).1 = List.replicate ws.length run_status.done ∧
      (run_workers r ws).2 =
        { post_all r (ws.map Prod.snd) with
          post_cqe_cond_n := (run_workers r ws).2.post_cqe_cond_n } := by
  intro ws
  induction ws with
  | nil => intro r _ _ _ _; exact ⟨rfl, rfl⟩
  | cons w ws ih =>
    intro r hh ht hm hfree
    have hfree1 : gw_ring_cq_ready r + 1 ≤ r.cq_mask + 1 := by
      simp only [List.length_cons] at hfree; omega
    have hpos := cq_left_pos r hm hfree1
    -- the ring the loop starts from: `r` itself, or `r` with the waiter counter decremented
    obtain ⟨x, hx⟩ : ∃ x, (if w.1 then gw_iowq_post_cqe_wake r w.2 else gw_iowq_post_cqe r w.2) =
        (run_status.done,
          __gw_post_cqe { r with post_cqe_cond_n := x } w.2.res w.2.user_data) := by
      cases hw : w.1
      · refine ⟨r.post_cqe_cond_n, ?_⟩
        simp only [Bool.false_eq_true, if_false, gw_iowq_post_cqe, gw_iowq_post_cqe_loop, hpos,
          if_true]
      · refine ⟨dec16 r.post_cqe_cond_n, ?_⟩
        have hpos' : gw_ring_cq_left
            ({ r with post_cqe_cond_n := dec16 r.post_cqe_cond_n } : gw_ring) > 0 := by
          rw [cq_left_cond_n]; exact hpos
        simp only [if_true]
        rw [gw_iowq_post_cqe_wake, gw_iowq_post_cqe_loop, if_pos hpos']
    have hr1 : gw_ring_cq_ready
        (__gw_post_cqe { r with post_cqe_cond_n := x } w.2.res w.2.user_data) + ws.length ≤
        r.cq_mask + 1 := by
      have := cq_ready_post r w.2.res w.2.user_data hm hfree1
      have e : gw_ring_cq_ready
          (__gw_post_cqe { r with post_cqe_cond_n := x } w.2.res w.2.user_data) =
          gw_ring_cq_ready (__gw_post_cqe r w.2.res w.2.user_data) := rfl
      rw [e, this]
      simp only [List.length_cons] at hfree; omega
    obtain ⟨i1, i2⟩ := ih (__gw_post_cqe { r with post_cqe_cond_n := x } w.2.res w.2.user_data)
      hh (add32_lt _ _) hm hr1
    rw [run_workers]
    simp only [hx]
    refine ⟨by rw [i1]; rfl, ?_⟩
    rw [i2]
    have e2 : __gw_post_cqe { r with post_cqe_cond_n := x } w.2.res w.2.user_data =
        { __gw_post_cqe r w.2.res w.2.user_data with post_cqe_cond_n := x } := rfl
    rw [e2, post_all_cond_n]
    rfl

theorem cq_left_eq (r : gw_ring) (hm : r.cq_mask + 1 < 2 ^ 32)
    (hocc : gw_ring_cq_ready r ≤ r.cq_mask + 1) :
    gw_ring_cq_left r = r.cq_mask + 1 - gw_ring_cq_ready r := by
  unfold gw_ring_cq_left gw_ring_cq_ready sub32 add32 at *; omega

theorem nop_records_eq_overflow (r : gw_ring) (u : Nat → Nat) (f k : Nat)
    (hnop : ∀ i, i < k → (sqe_at r (add32 r.sq_head i)).user_data = u i) :
    nop_records r (k - f) (add32 r.sq_head f) = overflow_records u f k := by
  apply List.ext_getElem?
  intro j
  by_cases hj : j < k - f
  · rw [nop_records_get r _ _ j (add32_lt _ _) hj, add32_add32, hnop (f + j) (by omega)]
    simp [overflow_records, hj]
  · have h1 : (nop_records r (k - f) (add32 r.sq_head f)).length ≤ j := by
      rw [nop_records_length]; omega
    have h2 : (overflow_records u f k).length ≤ j := by
      simp [overflow_records]; omega
    rw [List.getElem?_eq_none h1, List.getElem?_eq_none h2]

theorem submit_nops_overflow (env : Nat → oracle) (r : gw_ring) (k f : Nat) (u : Nat → Nat)
    (q : workqueue_struct) (h : ring_ok r) (hs : r.should_stop = false)
    (hk : gw_ring_sq_ready r = k)
    (hnop : ∀ i, i < k → (sqe_at r (add32 r.sq_head i)).op = GW_RING_OP_NOP ∧
      (sqe_at r (add32 r.sq_head i)).user_data = u i)
    (hocc : gw_ring_cq_ready r ≤ r.cq_mask + 1) (hf : gw_ring_cq_left r = f) (hfk : f < k)
    (hq : r.io_wq = some q)
    (henv : ∀ i, (env i).malloc_ok = true ∧ (env i).queue_status = 0) :
    gw_ring_submit env r =
      some ((k : Int),
        { post_all r (nop_records r f r.sq_head) with
          sq_head := r.sq_tail
          io_wq := some ⟨q.pending ++ (overflow_records u f k).map work.post_cqe⟩ }) := by
  have hc := cq_cap_bounds r h
  have hm : r.cq_mask + 1 < 2 ^ 32 := by omega
  have hsh : r.sq_head < 2 ^ 32 := h.2.2.2.2.1
  have hch : r.cq_head < 2 ^ 32 := h.2.2.2.2.2.2.1
  have hct : r.cq_tail < 2 ^ 32 := h.2.2.2.2.2.2.2.1
  have hfe := cq_left_eq r hm hocc
  rw [hf] at hfe
  obtain ⟨n, hn, hp⟩ := cq_shape r h
  have hlen := nop_records_length r f r.sq_head
  obtain ⟨p1, p2, p3, p4, p5⟩ := post_all_spec n hn (nop_records r f r.sq_head) r
    hp h.2.2.2.1 hct (by omega)
  rw [hlen] at p1
  generalize hra : post_all r (nop_records r f r.sq_head) = ra at *
  have a1 : ra.io_wq = some q := by rw [p5]; exact hq
  have a2 : ra.sqes = r.sqes := by rw [p5]
  have a3 : ra.sq_mask = r.sq_mask := by rw [p5]
  have a4 : ra.cq_head = r.cq_head := by rw [p5]
  have a5 : ra.cq_mask = r.cq_mask := by rw [p5]
  have a6 : gw_ring_cq_left ra = 0 := by
    unfold gw_ring_cq_left gw_ring_cq_ready
    rw [a4, a5, p1]
    unfold gw_ring_cq_ready at hfe hocc
    unfold sub32 add32 at *
    omega
  have hd1 := dispatch_nops_direct env f r.sq_head 0 r hch hct hm hsh
    (fun j hj => (hnop j (by omega)).1) (by omega)
  rw [hra] at hd1
  have hd2 := dispatch_nops_overflow env (k - f) (add32 r.sq_head f) (0 + f) ra q a1 a6
    (add32_lt _ _)
    (fun j hj => by
      rw [sqe_at_congr r ra _ a2 a3, add32_add32]
      exact (hnop (f + j) (by omega)).1)
    henv
  rw [nop_records_congr r ra a2 a3,
    nop_records_eq_overflow r u f k (fun i hi => (hnop i hi).2)] at hd2
  have hsplit := dispatch_seq_append env f (k - f) r.sq_head 0 r hsh
  rw [hd1] at hsplit
  simp only [] at hsplit
  rw [hd2] at hsplit
  have hkf : f + (k - f) = k := by omega
  rw [hkf] at hsplit
  rw [submit_eq_dispatch env r h hs, hk, hsplit]
  simp only [List.count_append, List.count_replicate_self, hkf]

/-! ## C1: a batch of NOPs -/

/-- C1: on every initialised ring with `should_stop` clear whose SQ holds `k`
pending NOP entries carrying `user_data` `u 0 .. u (k - 1)` in slot order, and
whose CQ has at least `k` free slots (`cq_ready + k <= cq_mask + 1`),
`gw_ring_submit` returns `k`, leaves `sq_head == sq_tail`, and appends exactly
`k` CQEs: `cq_tail` grows by `k`, the CQE at counter `cq_tail + i`
(slot `counter & cq_mask`) has `res == 0` and `user_data == u i`, every
previously unconsumed CQE and every other slot is unchanged, `cq_head` and the
pool are unchanged.  This holds whatever `malloc` and the pool would
answer. -/
theorem C1_submit_nops_posts_cqes (env : Nat → oracle) (r : gw_ring) (k : Nat) (u : Nat → Nat)
    (h : ring_ok r) (hs : r.should_stop = false) (hk : gw_ring_sq_ready r = k)
    (hnop : ∀ i, i < k → (sqe_at r (add32 r.sq_head i)).op = GW_RING_OP_NOP ∧
      (sqe_at r (add32 r.sq_head i)).user_data = u i)
    (hfree : gw_ring_cq_ready r + k ≤ r.cq_mask + 1) :
    gw_ring_submit env r = some ((k : Int), submit_ring env r) ∧
    (submit_ring env r).sq_head = r.sq_tail ∧
    (submit_ring env r).sq_tail = r.sq_tail ∧
    (submit_ring env r).cq_tail = add32 r.cq_tail k ∧
    (submit_ring env r).cq_head = r.cq_head ∧
    (∀ i, i < k →
      (submit_ring env r).cqes[add32 r.cq_tail i &&& r.cq_mask]? =
        some { res := 0, user_data := u i }) ∧
    (∀ j, j < gw_ring_cq_ready r →
      (submit_ring env r).cqes[add32 r.cq_head j &&& r.cq_mask]? =
        r.cqes[add32 r.cq_head j &&& r.cq_mask]?) ∧
    (∀ s, (∀ i, i < k → s ≠ (add32 r.cq_tail i &&& r.cq_mask)) →
      (submit_ring env r).cqes[s]? = r.cqes[s]?) ∧
    (submit_ring env r).cqes.length = r.cqes.length ∧
    (submit_ring env r).io_wq = r.io_wq ∧
    (submit_ring env r).sqes = r.sqes := by
  subst hk
  have hsub := submit_nops_direct env r h hs (fun i hi => (hnop i hi).1) hfree
  obtain ⟨n, hn, hp⟩ := cq_shape r h
  have hlen := nop_records_length r (gw_ring_sq_ready r) r.sq_head
  obtain ⟨p1, p2, p3, p4, p5⟩ := post_all_spec n hn (nop_records r (gw_ring_sq_ready r) r.sq_head) r
    hp h.2.2.2.1 h.2.2.2.2.2.2.2.1 (by omega)
  have hring : submit_ring env r =
      { post_all r (nop_records r (gw_ring_sq_ready r) r.sq_head) with sq_head := r.sq_tail } := by
    unfold submit_ring; rw [hsub]
  rw [hlen] at p1 p3 p4
  have f1 : (post_all r (nop_records r (gw_ring_sq_ready r) r.sq_head)).sq_tail = r.sq_tail :=
    by have e := congrArg gw_ring.sq_tail p5; exact e
  have f2 : (post_all r (nop_records r (gw_ring_sq_ready r) r.sq_head)).cq_head = r.cq_head :=
    by have e := congrArg gw_ring.cq_head p5; exact e
  have f3 : (post_all r (nop_records r (gw_ring_sq_ready r) r.sq_head)).io_wq = r.io_wq :=
    by have e := congrArg gw_ring.io_wq p5; exact e
  have f4 : (post_all r (nop_records r (gw_ring_sq_ready r) r.sq_head)).sqes = r.sqes :=
    by have e := congrArg gw_ring.sqes p5; exact e
  rw [hring]
  refine ⟨hsub, rfl, f1, p1, f2, ?_, ?_, p4, p2, f3, f4⟩
  · intro i hi
    have := p3 i hi
    rw [nop_records_get r _ _ i h.2.2.2.2.1 hi, (hnop i hi).2] at this
    exact this
  · intro j hj
    exact p4 _ (fun i hi => unconsumed_ne r h j i _ hj hfree hi)

/-- C1 witness: one NOP tagged `0xdeadbeef` on a fresh 2-entry ring gives
`submit == 1` and a CQE with `res` 0 and `user_data` `0xdeadbeef`, even when
every allocation would fail. -/
theorem C1_witness_single_nop :
    ring_ok (queue_nop (fresh_ring 2) 3735928559) ∧
    gw_ring_sq_ready (queue_nop (fresh_ring 2) 3735928559) = 1 ∧
    gw_ring_submit env_refuse (queue_nop (fresh_ring 2) 3735928559) =
      some (1, submit_ring env_refuse (queue_nop (fresh_ring 2) 3735928559)) ∧
    (submit_ring env_refuse (queue_nop (fresh_ring 2) 3735928559)).cqes[0]? =
      some { res := 0, user_data := 3735928559 } :=
  ⟨by decide, by decide,
    (C1_submit_nops_posts_cqes env_refuse (queue_nop (fresh_ring 2) 3735928559) 1
      (fun _ => 3735928559) (by decide) (by decide) (by decide) (by decide) (by decide)).1,
    by decide⟩

/-! ## C2: `gw_ring_get_sqe` -/

/-- C2: on every initialised ring, `gw_ring_get_sqe` returns `NULL` exactly when
`sq_tail - sq_head` equals `sq_mask + 1`; a returned slot is
`sqes[old sq_tail & sq_mask]`, it lies inside the array, and the ring differs
from the old one in `sq_tail` alone, which is one larger; on `NULL` the ring is
unchanged. -/
theorem C2_get_sqe_null_iff_full (r : gw_ring) (h : ring_ok r) :
    ((gw_ring_get_sqe r).1 = none ↔ gw_ring_sq_ready r = r.sq_mask + 1) ∧
    (∀ s, (gw_ring_get_sqe r).1 = some s →
      s = (r.sq_tail &&& r.sq_mask) ∧ s < r.sqes.length ∧
      (gw_ring_get_sqe r).2 = { r with sq_tail := add32 r.sq_tail 1 }) ∧
    ((gw_ring_get_sqe r).1 = none → (gw_ring_get_sqe r).2 = r) := by
  have hz := sq_left_eq_zero_iff r h
  have hlen : r.sqes.length = r.sq_mask + 1 := h.2.2.1
  have hb : (r.sq_tail &&& r.sq_mask) < r.sqes.length := by
    have := @Nat.and_le_right r.sq_tail r.sq_mask
    omega
  unfold gw_ring_get_sqe
  by_cases hl : gw_ring_sq_left r > 0
  · simp only [hl, if_true]
    refine ⟨?_, ?_, ?_⟩
    · simp only [reduceCtorEq, false_iff]
      intro hk; rw [← hz] at hk; omega
    · intro s hs
      simp only [Option.some.injEq] at hs
      subst hs
      exact ⟨rfl, hb, trivial⟩
    · intro hk; simp at hk
  · simp only [hl, if_false]
    refine ⟨?_, ?_, ?_⟩
    · simp only [true_iff]
      rw [← hz]; omega
    · intro s hs; simp at hs
    · intro _; trivial

set_option maxRecDepth 100000 in
/-- C2 witness: on a 16-entry ring on which 16 SQEs were reserved without a
submit, the 17th `gw_ring_get_sqe` returns `NULL`. -/
theorem C2_witness_seventeenth_get :
    ring_ok (queue_nops 3735928559 16 (fresh_ring 16)) ∧
    gw_ring_sq_ready (queue_nops 3735928559 16 (fresh_ring 16)) = 16 ∧
    (gw_ring_get_sqe (queue_nops 3735928559 16 (fresh_ring 16))).1 = none :=
  ⟨by decide, by decide,
    (C2_get_sqe_null_iff_full (queue_nops 3735928559 16 (fresh_ring 16)) (by decide)).1.mpr
      (by decide)⟩

/-! ## C3: what `gw_ring_submit` returns -/

/-- C3: on every initialised ring with `should_stop` clear, `gw_ring_submit`
returns, and what it returns is the number of `true` results among the
dispatches of the pending SQEs (`dispatch_seq` runs `gw_issue_sqe` on each of
the `sq_tail - sq_head` pending entries in order, exactly once each); the
ring it leaves is the ring those dispatches left with `sq_head` set to
`sq_tail`, whatever the per-entry results were.  A pending SQE whose opcode is
not in the enumeration (`op >= GW_RING_OP_LAST`) has result false, so is not
counted, and its dispatch leaves the ring as it was: no CQE is posted, `cq_tail`
and the CQ contents do not change. -/
theorem C3_submit_counts_dispatched (env : Nat → oracle) (r : gw_ring) (h : ring_ok r)
    (hs : r.should_stop = false) :
    gw_ring_submit env r =
      some ((((dispatch_seq env (gw_ring_sq_ready r) r.sq_head 0 r).1.count true : Nat) : Int),
        { (dispatch_seq env (gw_ring_sq_ready r) r.sq_head 0 r).2 with sq_head := r.sq_tail }) ∧
    (dispatch_seq env (gw_ring_sq_ready r) r.sq_head 0 r).1.length = gw_ring_sq_ready r ∧
    (dispatch_seq env (gw_ring_sq_ready r) r.sq_head 0 r).2.sq_tail = r.sq_tail ∧
    (∀ j, j < gw_ring_sq_ready r → GW_RING_OP_LAST ≤ (sqe_at r (add32 r.sq_head j)).op →
      (dispatch_seq env (gw_ring_sq_ready r) r.sq_head 0 r).1[j]? = some false) ∧
    (∀ (o : oracle) (ring : gw_ring) (sqe : gw_ring_sqe), GW_RING_OP_LAST ≤ sqe.op →
      gw_issue_sqe o ring sqe = (false, ring)) := by
  have h1 : r.sq_head < 2 ^ 32 := h.2.2.2.2.1
  refine ⟨submit_eq_dispatch env r h hs, dispatch_seq_length _ _ _ _ _,
    (dispatch_seq_frame _ _ _ _ _).2.2.2.1, ?_, ?_⟩
  · intro j hj hop
    exact dispatch_seq_unknown env _ _ _ _ j h1 hj hop
  · intro o ring sqe hop
    exact issue_unknown o ring sqe hop

/-- C3 witness: a 2-entry ring holding a NOP tagged 11 and then an SQE with
opcode 7 tagged 22: the submit returns 1, the SQ is empty afterwards, and the
only CQE posted is the NOP's. -/
theorem C3_witness_unknown_opcode :
    ring_ok (queue_raw (queue_nop (fresh_ring 2) 11) 7 22) ∧
    (queue_raw (queue_nop (fresh_ring 2) 11) 7 22).should_stop = false ∧
    gw_ring_sq_ready (queue_raw (queue_nop (fresh_ring 2) 11) 7 22) = 2 ∧
    gw_ring_submit env_accept (queue_raw (queue_nop (fresh_ring 2) 11) 7 22) =
      some (1, { (queue_raw (queue_nop (fresh_ring 2) 11) 7 22) with
        sq_head := 2, cq_tail := 1
        cqes := [{ res := 0, user_data := 11 }, cqe_zero, cqe_zero, cqe_zero] }) :=
  ⟨by decide, by decide, by decide,
    (C3_submit_counts_dispatched env_accept (queue_raw (queue_nop (fresh_ring 2) 11) 7 22)
      (by decide) (by decide)).1.trans (by decide)⟩

/-! ## C4: `gw_post_cqe` with free space -/

/-- C4: on every initialised ring whose CQ has free space (`gw_ring_cq_left > 0`),
`gw_post_cqe` returns true, the slot `cqes[old cq_tail & cq_mask]` holds exactly
`(res, user_data)`, `cq_tail` is one larger (modulo `2 ^ 32`), and nothing else
changes: `cq_head`, every other CQ slot, the masks, all SQ fields, the waiter
counters, `should_stop` and the pool are as before. -/
theorem C4_post_cqe_direct (o : oracle) (r : gw_ring) (res : Int) (user_data : Nat)
    (h : ring_ok r) (hfree : 0 < gw_ring_cq_left r) :
    (gw_post_cqe o r res user_data).1 = true ∧
    (gw_post_cqe o r res user_data).2.cqes[r.cq_tail &&& r.cq_mask]? =
      some { res := res, user_data := user_data } ∧
    (gw_post_cqe o r res user_data).2.cq_tail = add32 r.cq_tail 1 ∧
    (gw_post_cqe o r res user_data).2.cq_head = r.cq_head ∧
    (∀ j, j ≠ (r.cq_tail &&& r.cq_mask) →
      (gw_post_cqe o r res user_data).2.cqes[j]? = r.cqes[j]?) ∧
    (gw_post_cqe o r res user_data).2.cqes.length = r.cqes.length ∧
    (gw_post_cqe o r res user_data).2.cq_mask = r.cq_mask ∧
    (gw_post_cqe o r res user_data).2.sqes = r.sqes ∧
    (gw_post_cqe o r res user_data).2.sq_head = r.sq_head ∧
    (gw_post_cqe o r res user_data).2.sq_tail = r.sq_tail ∧
    (gw_post_cqe o r res user_data).2.sq_mask = r.sq_mask ∧
    (gw_post_cqe o r res user_data).2.post_cqe_cond_n = r.post_cqe_cond_n ∧
    (gw_post_cqe o r res user_data).2.wait_cqe_cond_n = r.wait_cqe_cond_n ∧
    (gw_post_cqe o r res user_data).2.should_stop = r.should_stop ∧
    (gw_post_cqe o r res user_data).2.io_wq = r.io_wq := by
  have hne : ¬ gw_ring_cq_left r = 0 := by omega
  have hb := cq_slot_lt r h r.cq_tail
  simp only [gw_post_cqe, hne, if_false, __gw_post_cqe, List.length_set, and_true, true_and]
  refine ⟨?_, ?_⟩
  · rw [List.getElem?_set_self hb]
  · intro j hj
    rw [List.getElem?_set_ne (Ne.symm hj)]

/-- C4 witness: a fresh 2-entry ring (CQ capacity 4) takes the completion
`(-5, 77)` in slot 0 and `cq_tail` becomes 1. -/
theorem C4_witness_fresh_ring :
    ring_ok (fresh_ring 2) ∧ 0 < gw_ring_cq_left (fresh_ring 2) ∧
    (gw_post_cqe { malloc_ok := false, queue_status := 1 } (fresh_ring 2) (-5) 77).2.cqes[0]? =
      some { res := -5, user_data := 77 } ∧
    (gw_post_cqe { malloc_ok := false, queue_status := 1 } (fresh_ring 2) (-5) 77).2.cq_tail = 1 :=
  ⟨by decide, by decide,
    (C4_post_cqe_direct { malloc_ok := false, queue_status := 1 } (fresh_ring 2) (-5) 77
      (by decide) (by decide)).2.1,
    by decide⟩

/-! ## C5: `gw_post_cqe` on a full CQ -/

/-- C5: on every ring whose CQ is full (`gw_ring_cq_left == 0`), `gw_post_cqe`
leaves `cqes`, `cq_head` and `cq_tail` unchanged; it returns true exactly when
`malloc` returned a record and `try_queue_work` returned 0; when it returns
false the whole ring, the pool included, is unchanged (no record stays
queued); when it returns true the record `(res, user_data)` is the newest
pending task of the pool and nothing else changed. -/
theorem C5_post_cqe_overflow (o : oracle) (r : gw_ring) (res : Int) (user_data : Nat)
    (hfull : gw_ring_cq_left r = 0) :
    (gw_post_cqe o r res user_data).2.cqes = r.cqes ∧
    (gw_post_cqe o r res user_data).2.cq_head = r.cq_head ∧
    (gw_post_cqe o r res user_data).2.cq_tail = r.cq_tail ∧
    ((gw_post_cqe o r res user_data).1 = true ↔
      (o.malloc_ok = true ∧
        (try_queue_work o.queue_status r.io_wq
          (work.post_cqe { res := res, user_data := user_data })).1 = 0)) ∧
    ((gw_post_cqe o r res user_data).1 = false → (gw_post_cqe o r res user_data).2 = r) ∧
    (∀ q, (gw_post_cqe o r res user_data).1 = true → r.io_wq = some q →
      (gw_post_cqe o r res user_data).2 =
        { r with
          io_wq := some ⟨q.pending ++ [work.post_cqe { res := res, user_data := user_data }]⟩ }) := by
  simp only [gw_post_cqe, hfull, if_true, gw_post_cqe_via_wq]
  cases hm : o.malloc_ok
  · simp
  · cases hq : r.io_wq with
    | none =>
      by_cases hs : o.queue_status = 0
      · simp [try_queue_work, hs, hq]
      · simp [try_queue_work, hs, hq]
        rw [← hq]
    | some q =>
      by_cases hs : o.queue_status = 0
      · simp [try_queue_work, hs, hq]
      · simp [try_queue_work, hs, hq]
        rw [← hq]

/-- C5 witness: on a full 4-slot CQ a fifth completion is refused when the
pool answers a non-zero status, and the ring stays as it was. -/
theorem C5_witness_full_cq :
    gw_ring_cq_left full_cq_ring = 0 ∧
    (gw_post_cqe { malloc_ok := true, queue_status := -11 } full_cq_ring 0 5).1 = false ∧
    (gw_post_cqe { malloc_ok := true, queue_status := -11 } full_cq_ring 0 5).2 = full_cq_ring :=
  ⟨by decide, by decide,
    (C5_post_cqe_overflow { malloc_ok := true, queue_status := -11 } full_cq_ring 0 5
      (by decide)).2.2.2.2.1 (by decide)⟩

/-! ## C6: CQ overflow -/

/-- C6: the overflow tasks the pool accepted are its pending list.  On every
initialised ring with `should_stop` clear whose SQ holds `k` pending NOPs
tagged `u 0 .. u (k - 1)` and whose CQ has `f < k` free slots, if every
allocation succeeds and the pool accepts every task, `gw_ring_submit` returns
`k`; exactly `f` CQEs are written directly (`cq_tail` grows by `f`, counter
`cq_tail + i` holds `(0, u i)`, every other slot and every unconsumed CQE is
unchanged); the `k - f` records `(0, u f) .. (0, u (k - 1))` are appended to the
pool's pending list; the CQ is then full, and a worker body that runs before a
slot is freed parks without writing.  After `gw_ring_cq_advance(n)` with
`n <= cq_mask + 1`, when the bodies of up to `n` of the pending records run, in
any order `ws` (each from its entry or as the wake-up of a parked worker),
every run returns after one write: counter `cq_tail + f + j` holds the record of
the `j`-th run with its original `res` and `user_data`, and no other slot, in
particular no CQE that is still unconsumed, is changed; when all `k - f` have
run, `cq_tail` has grown by `k` in total, so all `k` completions are
delivered. -/
theorem C6_overflow_delivers_all (env : Nat → oracle) (r : gw_ring) (k f : Nat) (u : Nat → Nat)
    (q : workqueue_struct) (h : ring_ok r) (hs : r.should_stop = false)
    (hk : gw_ring_sq_ready r = k)
    (hnop : ∀ i, i < k → (sqe_at r (add32 r.sq_head i)).op = GW_RING_OP_NOP ∧
      (sqe_at r (add32 r.sq_head i)).user_data = u i)
    (hocc : gw_ring_cq_ready r ≤ r.cq_mask + 1) (hf : gw_ring_cq_left r = f) (hfk : f < k)
    (hq : r.io_wq = some q)
    (henv : ∀ i, (env i).malloc_ok = true ∧ (env i).queue_status = 0) :
    gw_ring_submit env r = some ((k : Int), submit_ring env r) ∧
    (submit_ring env r).sq_head = r.sq_tail ∧
    (submit_ring env r).cq_head = r.cq_head ∧
    (submit_ring env r).cq_tail = add32 r.cq_tail f ∧
    (∀ i, i < f →
      (submit_ring env r).cqes[add32 r.cq_tail i &&& r.cq_mask]? =
        some { res := 0, user_data := u i }) ∧
    (∀ j, j < gw_ring_cq_ready r →
      (submit_ring env r).cqes[add32 r.cq_head j &&& r.cq_mask]? =
        r.cqes[add32 r.cq_head j &&& r.cq_mask]?) ∧
    (∀ s, (∀ i, i < f → s ≠ (add32 r.cq_tail i &&& r.cq_mask)) →
      (submit_ring env r).cqes[s]? = r.cqes[s]?) ∧
    (submit_ring env r).io_wq =
      some ⟨q.pending ++ (overflow_records u f k).map work.post_cqe⟩ ∧
    gw_ring_cq_ready (submit_ring env r) = r.cq_mask + 1 ∧
    (∀ d, (gw_iowq_post_cqe (submit_ring env r) d).1 = run_status.blocked ∧
      (gw_iowq_post_cqe (submit_ring env r) d).2.cqes = (submit_ring env r).cqes ∧
      (gw_iowq_post_cqe (submit_ring env r) d).2.cq_tail = (submit_ring env r).cq_tail ∧
      (gw_iowq_post_cqe (submit_ring env r) d).2.cq_head = (submit_ring env r).cq_head) ∧
    (∀ (n : Nat) (ws : List (Bool × post_cqe_data)), ws.length ≤ n → n ≤ r.cq_mask + 1 →
      (ws.map Prod.snd).Subperm (overflow_records u f k) →
      (run_workers (gw_ring_cq_advance (submit_ring env r) n) ws).1 =
        List.replicate ws.length run_status.done ∧
      (run_workers (gw_ring_cq_advance (submit_ring env r) n) ws).2.cq_tail =
        add32 r.cq_tail (f + ws.length) ∧
      (run_workers (gw_ring_cq_advance (submit_ring env r) n) ws).2.cq_head =
        add32 r.cq_head n ∧
      (∀ j, j < ws.length →
        (run_workers (gw_ring_cq_advance (submit_ring env r) n) ws).2.cqes[
            add32 r.cq_tail (f + j) &&& r.cq_mask]? =
          (ws[j]?).map (fun w => { res := w.2.res, user_data := w.2.user_data })) ∧
      (∀ s, (∀ j, j < ws.length → s ≠ (add32 r.cq_tail (f + j) &&& r.cq_mask)) →
        (run_workers (gw_ring_cq_advance (submit_ring env r) n) ws).2.cqes[s]? =
          (submit_ring env r).cqes[s]?) ∧
      (∀ j, n ≤ j → j < r.cq_mask + 1 →
        (run_workers (gw_ring_cq_advance (submit_ring env r) n) ws).2.cqes[
            add32 r.cq_head j &&& r.cq_mask]? =
          (submit_ring env r).cqes[add32 r.cq_head j &&& r.cq_mask]?) ∧
      ((ws.map Prod.snd).Perm (overflow_records u f k) →
        (run_workers (gw_ring_cq_advance (submit_ring env r) n) ws).2.cq_tail =
          add32 r.cq_tail k)) := by
  have hsub := submit_nops_overflow env r k f u q h hs hk hnop hocc hf hfk hq henv
  have hc := cq_cap_bounds r h
  have hm : r.cq_mask + 1 < 2 ^ 32 := by omega
  have hch : r.cq_head < 2 ^ 32 := h.2.2.2.2.2.2.1
  have hct : r.cq_tail < 2 ^ 32 := h.2.2.2.2.2.2.2.1
  have hfe := cq_left_eq r hm hocc
  rw [hf] at hfe
  obtain ⟨n0, hn0, hp⟩ := cq_shape r h
  have hlen := nop_records_length r f r.sq_head
  obtain ⟨p1, p2, p3, p4, p5⟩ := post_all_spec n0 hn0 (nop_records r f r.sq_head) r
    hp h.2.2.2.1 hct (by omega)
  rw [hlen] at p1 p3 p4
  have hring : submit_ring env r =
      { post_all r (nop_records r f r.sq_head) with
        sq_head := r.sq_tail
        io_wq := some ⟨q.pending ++ (overflow_records u f k).map work.post_cqe⟩ } := by
    unfold submit_ring; rw [hsub]
  generalize hra : post_all r (nop_records r f r.sq_head) = ra at *
  have a4 : ra.cq_head = r.cq_head := by rw [p5]
  have a5 : ra.cq_mask = r.cq_mask := by rw [p5]
  have a7 : ra.should_stop = false := by rw [p5]; exact hs
  generalize hr1 : submit_ring env r = r1 at *
  have b1 : r1.cqes = ra.cqes := by rw [hring]
  have b2 : r1.cq_tail = add32 r.cq_tail f := by rw [hring]; exact p1
  have b3 : r1.cq_head = r.cq_head := by rw [hring]; exact a4
  have b4 : r1.cq_mask = r.cq_mask := by rw [hring]; exact a5
  have b5 : r1.should_stop = false := by rw [hring]; exact a7
  have b6 : r1.sq_head = r.sq_tail := by rw [hring]
  have b7 : r1.io_wq = some ⟨q.pending ++ (overflow_records u f k).map work.post_cqe⟩ := by
    rw [hring]
  have hready1 : gw_ring_cq_ready r1 = r.cq_mask + 1 := by
    unfold gw_ring_cq_ready at hfe hocc ⊢
    rw [b2, b3]
    unfold sub32 at hfe hocc ⊢
    unfold add32
    omega
  have hleft1 : gw_ring_cq_left r1 = 0 := by
    unfold gw_ring_cq_left
    rw [hready1, b4]
    unfold sub32 add32
    omega
  have hsub1 : gw_ring_submit env r = some ((k : Int), r1) := by rw [hring]; exact hsub
  refine ⟨hsub1, b6, b3, b2, ?_, ?_, ?_, b7, hready1, ?_, ?_⟩
  · intro i hi
    rw [b1, p3 i hi, nop_records_get r _ _ i h.2.2.2.2.1 hi, (hnop i (by omega)).2]
    rfl
  · intro j hj
    rw [b1]
    exact p4 _ (fun i hi => unconsumed_ne r h j i f hj (by omega) hi)
  · intro s hs'
    rw [b1]
    exact p4 s hs'
  · intro d
    have hnot : ¬ gw_ring_cq_left r1 > 0 := by omega
    simp only [gw_iowq_post_cqe, gw_iowq_post_cqe_loop, hnot, if_false, b5, Bool.false_eq_true,
      and_self]
  · intro n ws hn1 hn2 hsub
    have hwl : ws.length ≤ k - f := by
      have := hsub.length_le
      simpa [overflow_records] using this
    have hr2 : gw_ring_cq_advance r1 n = { r1 with cq_head := add32 r1.cq_head n } := rfl
    generalize gw_ring_cq_advance r1 n = r2 at *
    have c1 : r2.cq_head = add32 r.cq_head n := by rw [hr2]; show add32 r1.cq_head n = _; rw [b3]
    have c2 : r2.cq_tail = add32 r.cq_tail f := by rw [hr2]; exact b2
    have c3 : r2.cq_mask = r.cq_mask := by rw [hr2]; exact b4
    have c4 : r2.cqes = r1.cqes := by rw [hr2]
    have hready2 : gw_ring_cq_ready r2 + ws.length ≤ r2.cq_mask + 1 := by
      unfold gw_ring_cq_ready at hfe hocc ⊢
      rw [c1, c2, c3]
      unfold sub32 at hfe hocc ⊢
      unfold add32
      omega
    obtain ⟨w1, w2⟩ := run_workers_done ws r2 (by rw [c1]; exact add32_lt _ _)
      (by rw [c2]; exact add32_lt _ _) (by rw [c3]; exact hm) hready2
    obtain ⟨q1, q2, q3, q4, q5⟩ := post_all_spec n0 hn0 (ws.map Prod.snd) r2
      (by rw [c3]; exact hp) (by rw [c4, b1, p2, c3]; exact h.2.2.2.1)
      (by rw [c2]; exact add32_lt _ _) (by rw [c3, List.length_map]; omega)
    rw [List.length_map] at q1 q3 q4
    rw [c2, add32_add32] at q1
    rw [c2, c3] at q3 q4
    generalize hpa : post_all r2 (ws.map Prod.snd) = pa at *
    generalize hrw : run_workers r2 ws = rw2 at *
    have d1 : rw2.2.cqes = pa.cqes := by rw [w2]
    have d2 : rw2.2.cq_tail = pa.cq_tail := by rw [w2]
    have d3 : rw2.2.cq_head = r2.cq_head := by rw [w2]; show pa.cq_head = _; rw [q5]
    have hslots : ∀ j, j < ws.length →
        rw2.2.cqes[add32 r.cq_tail (f + j) &&& r.cq_mask]? =
          (ws[j]?).map (fun w => { res := w.2.res, user_data := w.2.user_data }) := by
      intro j hj
      have := q3 j hj
      rw [add32_add32] at this
      rw [d1, this, List.getElem?_map]
      cases ws[j]? <;> rfl
    have hother : ∀ s, (∀ j, j < ws.length → s ≠ (add32 r.cq_tail (f + j) &&& r.cq_mask)) →
        rw2.2.cqes[s]? = r1.cqes[s]? := by
      intro s hs'
      rw [d1, ← c4]
      apply q4
      intro j hj
      rw [add32_add32]
      exact hs' j hj
    refine ⟨w1, by rw [d2, q1], by rw [d3, c1], hslots, hother, ?_, ?_⟩
    · intro j hj1 hj2
      apply hother
      intro i hi
      rw [cq_tail_eq r hct, add32_add32]
      apply slot_ne r.cq_mask n0 r.cq_head j _ hp hn0
      · unfold gw_ring_cq_ready at hfe hocc ⊢; omega
      · unfold gw_ring_cq_ready at hfe hocc ⊢; omega
    · intro hperm
      have hl : ws.length = k - f := by
        have := hperm.length_eq
        simpa [overflow_records] using this
      have hkf : f + ws.length = k := by omega
      rw [d2, q1, hkf]

set_option maxRecDepth 1000000 in
/-- C6 witness: 48 NOPs on a 16-entry ring (CQ capacity 32).  After two
submitted batches the CQ is full; the third batch of 16 is submitted with no
free slot: the submit returns 16, 32 CQEs are ready and 16 records are pending.
After `gw_ring_cq_advance(32)` the 16 worker bodies deliver exactly the
remaining 16. -/
theorem C6_witness_forty_eight_nops :
    ring_ok overflow_test_ring ∧
    gw_ring_sq_ready overflow_test_ring = 16 ∧
    gw_ring_cq_left overflow_test_ring = 0 ∧
    gw_ring_submit env_accept overflow_test_ring =
      some (16, submit_ring env_accept overflow_test_ring) ∧
    gw_ring_cq_ready (submit_ring env_accept overflow_test_ring) = 32 ∧
    (submit_ring env_accept overflow_test_ring).io_wq =
      some ⟨(overflow_records (fun _ => 3735928559) 0 16).map work.post_cqe⟩ ∧
    gw_ring_cq_ready (run_workers
      (gw_ring_cq_advance (submit_ring env_accept overflow_test_ring) 32)
      ((overflow_records (fun _ => 3735928559) 0 16).map (fun d => (false, d)))).2 = 16 :=
  ⟨by decide, by decide, by decide,
    (C6_overflow_delivers_all env_accept overflow_test_ring 16 0 (fun _ => 3735928559) ⟨[]⟩
      (by decide) (by decide) (by decide) (by decide) (by decide) (by decide) (by decide)
      (by decide) (fun _ => ⟨rfl, rfl⟩)).1,
    by decide, by decide, by decide⟩

/-! ## C7: `gw_ring_queue_init` -/

theorem round_up_loop_pow (entries : Nat) (he : entries ≤ 2 ^ 30) :
    ∀ (d m fuel : Nat), 1 ≤ m → m + d = 30 → (m = 1 ∨ 2 ^ (m - 1) < entries) → d < fuel →
      ∃ n, 1 ≤ n ∧ n ≤ 30 ∧ round_up_loop fuel (2 ^ m) entries = some (2 ^ n) ∧
        entries ≤ 2 ^ n ∧ (n = 1 ∨ 2 ^ (n - 1) < entries) := by
  intro d
  induction d with
  | zero =>
    intro m fuel hm hd hprev hf
    obtain ⟨f, rfl⟩ : ∃ f, fuel = f + 1 := ⟨fuel - 1, by omega⟩
    have : m = 30 := by omega
    subst this
    refine ⟨30, by omega, by omega, ?_, he, hprev⟩
    have : ¬ 2 ^ 30 < entries := by omega
    rw [round_up_loop, if_neg this]
  | succ d ih =>
    intro m fuel hm hd hprev hf
    obtain ⟨f, rfl⟩ : ∃ f, fuel = f + 1 := ⟨fuel - 1, by omega⟩
    by_cases hlt : 2 ^ m < entries
    · have hmul : mul32 (2 ^ m) 2 = 2 ^ (m + 1) := by
        have h1 : 2 ^ (m + 1) ≤ 2 ^ 30 := Nat.pow_le_pow_right (by norm_num) (by omega)
        have h2 : 2 ^ (m + 1) = 2 ^ m * 2 := by ring
        unfold mul32
        rw [← h2]
        exact Nat.mod_eq_of_lt (by omega)
      obtain ⟨n, h1, h2, h3, h4, h5⟩ := ih (m + 1) f (by omega) (by omega)
        (Or.inr (by simpa using hlt)) (by omega)
      refine ⟨n, h1, h2, ?_, h4, h5⟩
      rw [round_up_loop]
      simp only [hlt, if_true, hmul]
      exact h3
    · refine ⟨m, hm, by omega, ?_, by omega, hprev⟩
      rw [round_up_loop, if_neg hlt]

theorem round_up_result (fuel entries : Nat) (he : entries ≤ 2 ^ 30) (hf : 32 ≤ fuel) :
    ∃ n, 1 ≤ n ∧ n ≤ 30 ∧ round_up_loop fuel 2 entries = some (2 ^ n) ∧
      entries ≤ 2 ^ n ∧ (n = 1 ∨ 2 ^ (n - 1) < entries) := by
  have := round_up_loop_pow entries he 29 1 fuel (by omega) (by omega) (Or.inl rfl) (by omega)
  simpa using this

theorem pow_smallest (entries n : Nat) (h1 : 1 ≤ n) (h4 : entries ≤ 2 ^ n)
    (h5 : n = 1 ∨ 2 ^ (n - 1) < entries) :
    max entries 2 ≤ 2 ^ n ∧ ∀ m, max entries 2 ≤ 2 ^ m → 2 ^ n ≤ 2 ^ m := by
  have h2 : 2 ≤ 2 ^ n := by
    calc 2 = 2 ^ 1 := by norm_num
      _ ≤ 2 ^ n := Nat.pow_le_pow_right (by norm_num) h1
  refine ⟨max_le h4 h2, ?_⟩
  intro m hm
  have hm1 : entries ≤ 2 ^ m := le_trans (le_max_left _ _) hm
  have hm2 : 2 ≤ 2 ^ m := le_trans (le_max_right _ _) hm
  rcases h5 with h5 | h5
  · subst h5; simpa using hm2
  · have hlt : 2 ^ (n - 1) < 2 ^ m := lt_of_lt_of_le h5 hm1
    have : n - 1 < m := (Nat.pow_lt_pow_iff_right (by norm_num)).mp hlt
    exact Nat.pow_le_pow_right (by norm_num) (by omega)

theorem init_success_shape (fuel : Nat) (o : init_oracle) (entries : Nat) (out : init_out)
    (he : entries ≤ 2 ^ 30) (hf : 32 ≤ fuel)
    (hi : gw_ring_queue_init fuel o entries = some out) (hr : out.ret = 0) :
    ∃ n, 1 ≤ n ∧ n ≤ 30 ∧ entries ≤ 2 ^ n ∧ (n = 1 ∨ 2 ^ (n - 1) < entries) ∧
      out.ring =
        { gw_ring_zero with
          sq_mask := 2 ^ n - 1
          cq_mask := 2 * 2 ^ n - 1
          sqes := List.replicate (2 ^ n) sqe_zero
          cqes := List.replicate (2 * 2 ^ n) cqe_zero
          io_wq := some { pending := [] } } := by
  obtain ⟨n, h1, h2, h3, h4, h5⟩ := round_up_result fuel entries he hf
  refine ⟨n, h1, h2, h4, h5, ?_⟩
  have hlo : 2 ≤ 2 ^ n := by
    calc 2 = 2 ^ 1 := by norm_num
      _ ≤ 2 ^ n := Nat.pow_le_pow_right (by norm_num) h1
  have hhi : 2 ^ n ≤ 2 ^ 30 := Nat.pow_le_pow_right (by norm_num) h2
  have e1 : sub32 (2 ^ n) 1 = 2 ^ n - 1 := by unfold sub32; omega
  have e2 : sub32 (mul32 (2 ^ n) 2) 1 = 2 * 2 ^ n - 1 := by unfold sub32 mul32; omega
  have e3 : add32 (2 ^ n - 1) 1 = 2 ^ n := by unfold add32; omega
  have e4 : add32 (2 * 2 ^ n - 1) 1 = 2 * 2 ^ n := by unfold add32; omega
  unfold gw_ring_queue_init at hi
  rw [h3] at hi
  dsimp only at hi
  rw [e2, e1, e3, e4] at hi
  split_ifs at hi <;> simp only [Option.some.injEq] at hi <;> subst hi
  all_goals first
    | rfl
    | (exfalso; simp_all [ENOMEM])

theorem init_returns (fuel : Nat) (o : init_oracle) (entries : Nat) (i : Nat)
    (h : round_up_loop fuel 2 entries = some i) :
    ∃ out, gw_ring_queue_init fuel o entries = some out := by
  unfold gw_ring_queue_init
  rw [h]
  dsimp only
  split_ifs <;> exact ⟨_, rfl⟩

theorem init_all_ok_ret (fuel entries i : Nat) (h : round_up_loop fuel 2 entries = some i) :
    (gw_ring_queue_init fuel init_all_ok entries).map (fun out => out.ret) = some 0 := by
  unfold gw_ring_queue_init
  rw [h]
  rfl

theorem init_success_counters (fuel : Nat) (o : init_oracle) (entries : Nat) (out : init_out)
    (hi : gw_ring_queue_init fuel o entries = some out) (hr : out.ret = 0) :
    out.ring.sq_head = 0 ∧ out.ring.sq_tail = 0 ∧ out.ring.cq_head = 0 ∧ out.ring.cq_tail = 0 ∧
    out.ring.post_cqe_cond_n = 0 ∧ out.ring.wait_cqe_cond_n = 0 ∧
    out.ring.should_stop = false := by
  unfold gw_ring_queue_init at hi
  cases hq : round_up_loop fuel 2 entries with
  | none => rw [hq] at hi; simp at hi
  | some i =>
    rw [hq] at hi
    dsimp only at hi
    split_ifs at hi <;> simp only [Option.some.injEq] at hi <;> subst hi
    all_goals exact ⟨rfl, rfl, rfl, rfl, rfl, rfl, rfl⟩

/-- C7: for every `entries <= 2 ^ 30` the rounding loop ends (32 loop tests are
enough), so `gw_ring_queue_init` returns; it can return 0 (it does when every
step succeeds); and whenever it returns 0, `sq_mask + 1` is the smallest power
of two that is at least `max(entries, 2)`, `cq_mask + 1` is twice that, the four
counters and both waiter counters are 0, `should_stop` is false, and both
arrays hold exactly their capacity. -/
theorem C7_init_rounds_up (fuel : Nat) (o : init_oracle) (entries : Nat)
    (he : entries ≤ 2 ^ 30) (hf : 32 ≤ fuel) :
    (∃ out, gw_ring_queue_init fuel o entries = some out) ∧
    (gw_ring_queue_init fuel init_all_ok entries).map (fun out => out.ret) = some 0 ∧
    (∀ out, gw_ring_queue_init fuel o entries = some out → out.ret = 0 →
      (∃ n, out.ring.sq_mask + 1 = 2 ^ n ∧ max entries 2 ≤ 2 ^ n ∧
        ∀ m, max entries 2 ≤ 2 ^ m → 2 ^ n ≤ 2 ^ m) ∧
      out.ring.cq_mask + 1 = 2 * (out.ring.sq_mask + 1) ∧
      out.ring.sq_head = 0 ∧ out.ring.sq_tail = 0 ∧
      out.ring.cq_head = 0 ∧ out.ring.cq_tail = 0 ∧
      out.ring.post_cqe_cond_n = 0 ∧ out.ring.wait_cqe_cond_n = 0 ∧
      out.ring.should_stop = false ∧
      out.ring.sqes.length = out.ring.sq_mask + 1 ∧
      out.ring.cqes.length = out.ring.cq_mask + 1 ∧
      ring_ok out.ring) := by
  obtain ⟨n0, _, _, h3, _, _⟩ := round_up_result fuel entries he hf
  refine ⟨init_returns fuel o entries _ h3, init_all_ok_ret fuel entries _ h3, ?_⟩
  intro out hi hr
  obtain ⟨n, h1, h2, h4, h5, hring⟩ := init_success_shape fuel o entries out he hf hi hr
  have hlo : 2 ≤ 2 ^ n := by
    calc 2 = 2 ^ 1 := by norm_num
      _ ≤ 2 ^ n := Nat.pow_le_pow_right (by norm_num) h1
  have hs := pow_smallest entries n h1 h4 h5
  have a1 : out.ring.sq_mask + 1 = 2 ^ n := by rw [hring]; show 2 ^ n - 1 + 1 = 2 ^ n; omega
  have a2 : out.ring.cq_mask + 1 = 2 * 2 ^ n := by
    rw [hring]; show 2 * 2 ^ n - 1 + 1 = 2 * 2 ^ n; omega
  have a3 : out.ring.sqes.length = 2 ^ n := by
    rw [hring]; show (List.replicate (2 ^ n) sqe_zero).length = 2 ^ n; simp
  have a4 : out.ring.cqes.length = 2 * 2 ^ n := by
    rw [hring]; show (List.replicate (2 * 2 ^ n) cqe_zero).length = 2 * 2 ^ n; simp
  have hc := init_success_counters fuel o entries out hi hr
  obtain ⟨c1, c2, c3, c4, c5, c6, c7⟩ := hc
  have hwq : out.ring.io_wq.isSome = true := by rw [hring]; rfl
  refine ⟨⟨n, a1, hs.1, hs.2⟩, by omega, c1, c2, c3, c4, c5, c6, c7, by omega, by omega, ?_⟩
  refine ⟨⟨n, by omega, by omega, a1⟩, by omega, by omega, by omega, ?_, ?_, ?_, ?_, hwq⟩
  · rw [c1]; norm_num
  · rw [c2]; norm_num
  · rw [c3]; norm_num
  · rw [c4]; norm_num

/-- C7 witness: `entries = 1` gives SQ 2 / CQ 4, `entries = 5` gives SQ 8 / CQ 16,
`entries = 16` gives SQ 16 / CQ 32. -/
theorem C7_witness_rounding :
    ((fresh_ring 1).sq_mask + 1 = 2 ∧ (fresh_ring 1).cq_mask + 1 = 4) ∧
    ((fresh_ring 5).sq_mask + 1 = 8 ∧ (fresh_ring 5).cq_mask + 1 = 16) ∧
    ((fresh_ring 16).sq_mask + 1 = 16 ∧ (fresh_ring 16).cq_mask + 1 = 32) ∧
    gw_ring_queue_init 64 init_all_ok 5 =
      some { ret := 0, ring := fresh_ring 5, released := [] } ∧
    (fresh_ring 5).cq_mask + 1 = 2 * ((fresh_ring 5).sq_mask + 1) :=
  ⟨by decide, by decide, by decide, by decide,
    ((C7_init_rounds_up 64 init_all_ok 5 (by norm_num) (by norm_num)).2.2
      { ret := 0, ring := fresh_ring 5, released := [] } (by decide) rfl).2.1⟩

/-! ## C8: `gw_ring_wait_cqe_nr` -/

/-- C8: `gw_ring_wait_cqe_nr(ring, &cqe, nr)` on a ring with `should_stop` set
returns `-EOWNERDEAD`, leaves `*cqe` as it was and the ring unchanged, whatever
`cq_ready` and `nr` are; on a ring with `should_stop` clear and
`cq_ready >= nr` it returns 0 without blocking, leaves the ring unchanged, and
when `cqe` is non-NULL stores the address of `cqes[cq_head & cq_mask]` in
`*cqe`; `gw_ring_wait_cqe` is `gw_ring_wait_cqe_nr` with `nr = 1`. -/
theorem C8_wait_cqe_nr (r : gw_ring) (cqe : Option (Option Nat)) (nr : Nat) :
    (r.should_stop = true →
      gw_ring_wait_cqe_nr r cqe nr = { ret := some (-EOWNERDEAD), cqe := cqe, ring := r }) ∧
    (r.should_stop = false → nr ≤ gw_ring_cq_ready r →
      (gw_ring_wait_cqe_nr r cqe nr).ret = some 0 ∧
      (gw_ring_wait_cqe_nr r cqe nr).ring = r ∧
      (cqe = none → (gw_ring_wait_cqe_nr r cqe nr).cqe = none) ∧
      (∀ c, cqe = some c →
        (gw_ring_wait_cqe_nr r cqe nr).cqe = some (some (r.cq_head &&& r.cq_mask)))) ∧
    gw_ring_wait_cqe r cqe = gw_ring_wait_cqe_nr r cqe 1 := by
  refine ⟨?_, ?_, rfl⟩
  · intro hs
    simp [gw_ring_wait_cqe_nr, __gw_ring_wait_cqe_nr, hs]
  · intro hs hn
    simp only [gw_ring_wait_cqe_nr, __gw_ring_wait_cqe_nr, hs, ge_iff_le, hn, if_true]
    refine ⟨by simp, by simp, ?_, ?_⟩
    · intro hc; subst hc; simp
    · intro c hc; subst hc; simp

/-- C8 witness: with four completions ready, a wait for 4 returns 0 and points
`*cqe` at slot 0; once `should_stop` is set the same wait returns `-130` and
`*cqe` keeps its old content. -/
theorem C8_witness_ready_and_stopped :
    (gw_ring_wait_cqe_nr full_cq_ring (some none) 4).ret = some 0 ∧
    (gw_ring_wait_cqe_nr full_cq_ring (some none) 4).cqe = some (some 0) ∧
    gw_ring_wait_cqe_nr { full_cq_ring with should_stop := true } (some (some 3)) 4 =
      { ret := some (-130), cqe := some (some 3),
        ring := { full_cq_ring with should_stop := true } } :=
  ⟨((C8_wait_cqe_nr full_cq_ring (some none) 4).2.1 (by decide) (by decide)).1,
    ((C8_wait_cqe_nr full_cq_ring (some none) 4).2.1 (by decide) (by decide)).2.2.2
      none rfl,
    (C8_wait_cqe_nr { full_cq_ring with should_stop := true } (some (some 3)) 4).1 rfl⟩

/-! ## C9: `gw_ring_submit` during shutdown -/

/-- C9 as amended: on every initialised ring with `should_stop` set,
`gw_ring_submit` returns `-EOWNERDEAD`, a negative value, when at least one SQE
is pending, and returns 0 when none is pending; in both cases the ring is left
unchanged. -/
theorem C9_submit_during_shutdown (env : Nat → oracle) (r : gw_ring) (h : ring_ok r)
    (hs : r.should_stop = true) :
    (gw_ring_sq_ready r ≠ 0 → gw_ring_submit env r = some (-EOWNERDEAD, r)) ∧
    (gw_ring_sq_ready r = 0 → gw_ring_submit env r = some (0, r)) ∧
    -EOWNERDEAD < 0 := by
  have h1 : r.sq_head < 2 ^ 32 := h.2.2.2.2.1
  have h2 : r.sq_tail < 2 ^ 32 := h.2.2.2.2.2.1
  have hstep : gw_ring_submit env r =
      __gw_ring_submit_loop env (4294967295 + 1) r r.sq_head r.sq_tail 0 0 := rfl
  rw [hstep, __gw_ring_submit_loop]
  refine ⟨?_, ?_, by decide⟩
  · intro hn
    have : r.sq_head ≠ r.sq_tail := by
      intro he; apply hn; unfold gw_ring_sq_ready sub32; rw [he]; omega
    simp [this, hs]
  · intro hn
    have : r.sq_head = r.sq_tail := by
      unfold gw_ring_sq_ready sub32 at hn; omega
    simp only [this, if_true]
    have he : ({ r with sq_head := r.sq_tail } : gw_ring) = r := by
      cases r; simp_all
    rw [he]

/-- C9 witness: a 2-entry ring with one NOP pending and `should_stop` set: the
submit returns `-130` and the SQE stays pending. -/
theorem C9_witness_pending_sqe :
    ring_ok { (queue_nop (fresh_ring 2) 5) with should_stop := true } ∧
    gw_ring_sq_ready { (queue_nop (fresh_ring 2) 5) with should_stop := true } = 1 ∧
    gw_ring_submit env_accept { (queue_nop (fresh_ring 2) 5) with should_stop := true } =
      some (-130, { (queue_nop (fresh_ring 2) 5) with should_stop := true }) :=
  ⟨by decide, by decide,
    (C9_submit_during_shutdown env_accept
      { (queue_nop (fresh_ring 2) 5) with should_stop := true } (by decide) rfl).1 (by decide)⟩

/-- C9 counterexample: on a fresh 2-entry ring with `should_stop` set and no SQE
pending, `gw_ring_submit` returns 0, not `-EOWNERDEAD`. -/
theorem C9_counterexample_empty_sq :
    ring_ok { (fresh_ring 2) with should_stop := true } ∧
    ({ (fresh_ring 2) with should_stop := true } : gw_ring).should_stop = true ∧
    gw_ring_submit env_accept { (fresh_ring 2) with should_stop := true } =
      some (0, { (fresh_ring 2) with should_stop := true }) ∧
    (0 : Int) ≠ -EOWNERDEAD :=
  ⟨by decide, by decide, by decide, by decide⟩

/-! ## C10: CQ occupancy -/

theorem post_inv (r : gw_ring) (res : Int) (ud : Nat)
    (hh : r.cq_head < 2 ^ 32)
    (hinv : gw_ring_cq_ready r ≤ add32 r.cq_mask 1) (hl : 0 < gw_ring_cq_left r) :
    (__gw_post_cqe r res ud).cq_head < 2 ^ 32 ∧ (__gw_post_cqe r res ud).cq_tail < 2 ^ 32 ∧
    (__gw_post_cqe r res ud).cq_mask = r.cq_mask ∧
    gw_ring_cq_ready (__gw_post_cqe r res ud) ≤ add32 (__gw_post_cqe r res ud).cq_mask 1 := by
  have hm : add32 r.cq_mask 1 < 2 ^ 32 := add32_lt _ _
  refine ⟨hh, add32_lt _ _, rfl, ?_⟩
  show sub32 (add32 r.cq_tail 1) r.cq_head ≤ add32 r.cq_mask 1
  unfold gw_ring_cq_left gw_ring_cq_ready at *
  generalize add32 r.cq_mask 1 = c at *
  unfold sub32 add32 at *
  omega

theorem iowq_loop_inv (r : gw_ring) (d : post_cqe_data)
    (hh : r.cq_head < 2 ^ 32) (ht : r.cq_tail < 2 ^ 32)
    (hinv : gw_ring_cq_ready r ≤ add32 r.cq_mask 1) :
    (gw_iowq_post_cqe_loop r d).2.cq_head < 2 ^ 32 ∧
    (gw_iowq_post_cqe_loop r d).2.cq_tail < 2 ^ 32 ∧
    (gw_iowq_post_cqe_loop r d).2.cq_mask = r.cq_mask ∧
    gw_ring_cq_ready (gw_iowq_post_cqe_loop r d).2 ≤
      add32 (gw_iowq_post_cqe_loop r d).2.cq_mask 1 := by
  simp only [gw_iowq_post_cqe_loop]
  split_ifs with h1 h2
  · exact post_inv r _ _ hh hinv h1
  · exact ⟨hh, ht, rfl, hinv⟩
  · exact ⟨hh, ht, rfl, hinv⟩

theorem cq_step_inv (r : gw_ring) (op : cq_op)
    (hh : r.cq_head < 2 ^ 32) (ht : r.cq_tail < 2 ^ 32)
    (hinv : gw_ring_cq_ready r ≤ add32 r.cq_mask 1)
    (hadv : advance_ok r op = true) :
    (cq_step r op).cq_head < 2 ^ 32 ∧ (cq_step r op).cq_tail < 2 ^ 32 ∧
    (cq_step r op).cq_mask = r.cq_mask ∧
    gw_ring_cq_ready (cq_step r op) ≤ add32 (cq_step r op).cq_mask 1 := by
  cases op with
  | post o res ud =>
    simp only [cq_step, gw_post_cqe]
    by_cases hl : gw_ring_cq_left r = 0
    · simp only [hl, if_true, gw_post_cqe_via_wq]
      split_ifs <;> exact ⟨hh, ht, rfl, hinv⟩
    · simp only [hl, if_false]
      exact post_inv r res ud hh hinv (by omega)
  | iowq_run d => exact iowq_loop_inv r d hh ht hinv
  | iowq_wake d =>
    simp only [cq_step, gw_iowq_post_cqe_wake]
    generalize hr : ({ r with post_cqe_cond_n := dec16 r.post_cqe_cond_n } : gw_ring) = r1
    have e1 : r1.cq_head = r.cq_head := by rw [← hr]
    have e2 : r1.cq_tail = r.cq_tail := by rw [← hr]
    have e3 : r1.cq_mask = r.cq_mask := by rw [← hr]
    have hinv1 : gw_ring_cq_ready r1 ≤ add32 r1.cq_mask 1 := by
      unfold gw_ring_cq_ready at hinv ⊢
      rw [e1, e2, e3]; exact hinv
    have := iowq_loop_inv r1 d (by rw [e1]; exact hh) (by rw [e2]; exact ht) hinv1
    rw [e3] at this
    exact this
  | advance n =>
    have hn : n ≤ gw_ring_cq_ready r := by simpa [advance_ok] using hadv
    refine ⟨add32_lt _ _, ht, rfl, ?_⟩
    show sub32 r.cq_tail (add32 r.cq_head n) ≤ add32 r.cq_mask 1
    unfold gw_ring_cq_ready at *
    generalize add32 r.cq_mask 1 = c at *
    unfold sub32 add32 at *
    omega

theorem cq_run_inv : ∀ (ops : List cq_op) (r : gw_ring),
    r.cq_head < 2 ^ 32 → r.cq_tail < 2 ^ 32 →
    gw_ring_cq_ready r ≤ add32 r.cq_mask 1 → advances_ok r ops = true →
    gw_ring_cq_ready (cq_run r ops) ≤ add32 (cq_run r ops).cq_mask 1 ∧
    (cq_run r ops).cq_mask = r.cq_mask := by
  intro ops
  induction ops with
  | nil => intro r _ _ hinv _; exact ⟨hinv, rfl⟩
  | cons op ops ih =>
    intro r hh ht hinv hok
    rw [advances_ok, Bool.and_eq_true] at hok
    obtain ⟨s1, s2, s3, s4⟩ := cq_step_inv r op hh ht hinv hok.1
    have := ih (cq_step r op) s1 s2 s4 hok.2
    show gw_ring_cq_ready (cq_run (cq_step r op) ops) ≤ add32 (cq_run (cq_step r op) ops).cq_mask 1 ∧
      (cq_run (cq_step r op) ops).cq_mask = r.cq_mask
    exact ⟨this.1, this.2.trans s3⟩

theorem add32_one_le (m : Nat) : add32 m 1 ≤ m + 1 := by
  unfold add32; exact Nat.mod_le _ _

/-- C10 as amended: every ring state reached from a successful
`gw_ring_queue_init` by a sequence of `gw_post_cqe` calls, overflow-worker runs
and wake-ups, and `gw_ring_cq_advance(n)` calls whose `n` is at most the number
of CQEs ready at the call, satisfies `cq_tail - cq_head <= cq_mask + 1` with
the difference, and also the sum `cq_mask + 1`, taken in 32-bit arithmetic. -/
theorem C10_cq_occupancy_bounded (fuel : Nat) (o : init_oracle) (entries : Nat) (out : init_out) (ops : List cq_op)
    (hi : gw_ring_queue_init fuel o entries = some out) (hr : out.ret = 0)
    (hok : advances_ok out.ring ops = true) :
    gw_ring_cq_ready (cq_run out.ring ops) ≤ add32 (cq_run out.ring ops).cq_mask 1 ∧
    gw_ring_cq_ready (cq_run out.ring ops) ≤ (cq_run out.ring ops).cq_mask + 1 := by
  obtain ⟨-, -, c3, c4, -⟩ := init_success_counters fuel o entries out hi hr
  have h0 : gw_ring_cq_ready out.ring ≤ add32 out.ring.cq_mask 1 := by
    unfold gw_ring_cq_ready; rw [c3, c4]; unfold sub32; omega
  have := cq_run_inv ops out.ring (by rw [c3]; norm_num) (by rw [c4]; norm_num) h0 hok
  exact ⟨this.1, le_trans this.1 (add32_one_le _)⟩

/-- C10 witness: on a fresh 2-entry ring, five posts (the fifth overflows), an
advance by 2, a worker run and a worker wake-up keep the CQ within its
capacity 4. -/
theorem C10_witness_post_advance :
    advances_ok (fresh_ring 2)
      [cq_op.post (env_accept 0) 0 1, cq_op.post (env_accept 0) 0 2,
       cq_op.post (env_accept 0) 0 3, cq_op.post (env_accept 0) 0 4,
       cq_op.post (env_accept 0) 0 5, cq_op.advance 2,
       cq_op.iowq_run { res := 0, user_data := 5 },
       cq_op.iowq_wake { res := 0, user_data := 6 }] = true ∧
    gw_ring_cq_ready (cq_run (fresh_ring 2)
      [cq_op.post (env_accept 0) 0 1, cq_op.post (env_accept 0) 0 2,
       cq_op.post (env_accept 0) 0 3, cq_op.post (env_accept 0) 0 4,
       cq_op.post (env_accept 0) 0 5, cq_op.advance 2,
       cq_op.iowq_run { res := 0, user_data := 5 },
       cq_op.iowq_wake { res := 0, user_data := 6 }]) ≤ (fresh_ring 2).cq_mask + 1 :=
  ⟨by decide,
    (C10_cq_occupancy_bounded 64 init_all_ok 2
      { ret := 0, ring := fresh_ring 2, released := [] } _ (by decide) rfl (by decide)).2⟩

/-- C10 counterexample: after a successful init with `entries = 2` (CQ capacity
4), `gw_ring_cq_advance(1)` on the empty CQ moves `cq_head` past `cq_tail`, and
`cq_tail - cq_head` is `2 ^ 32 - 1`, which is more than `cq_mask + 1`. -/
theorem C10_counterexample_advance_past_tail :
    gw_ring_queue_init 64 init_all_ok 2 =
      some { ret := 0, ring := fresh_ring 2, released := [] } ∧
    (cq_run (fresh_ring 2) [cq_op.advance 1]).cq_mask + 1 = 4 ∧
    gw_ring_cq_ready (cq_run (fresh_ring 2) [cq_op.advance 1]) = 4294967295 ∧
    ¬ gw_ring_cq_ready (cq_run (fresh_ring 2) [cq_op.advance 1]) ≤
      (cq_run (fresh_ring 2) [cq_op.advance 1]).cq_mask + 1 :=
  ⟨by decide, by decide, by decide, by decide⟩

/-! ## Lemmas on the submit loop and the wait loop -/

theorem submit_stopped (env : Nat → oracle) (r : gw_ring) (h : ring_ok r)
    (hs : r.should_stop = true) :
    (gw_ring_sq_ready r ≠ 0 → __gw_ring_submit env r = some (-EOWNERDEAD, r)) ∧
    (gw_ring_sq_ready r = 0 → __gw_ring_submit env r = some (0, r)) := by
  have h1 : r.sq_head < 2 ^ 32 := h.2.2.2.2.1
  have h2 : r.sq_tail < 2 ^ 32 := h.2.2.2.2.2.1
  have hstep : __gw_ring_submit env r =
      __gw_ring_submit_loop env (4294967295 + 1) r r.sq_head r.sq_tail 0 0 := rfl
  rw [hstep, __gw_ring_submit_loop]
  constructor
  · intro hn
    have : r.sq_head ≠ r.sq_tail := by
      intro he; apply hn; unfold gw_ring_sq_ready sub32; rw [he]; omega
    simp [this, hs]
  · intro hn
    have : r.sq_head = r.sq_tail := by
      unfold gw_ring_sq_ready sub32 at hn; omega
    simp only [this, if_true]
    have he : ({ r with sq_head := r.sq_tail } : gw_ring) = r := by
      cases r; simp_all
    rw [he]

theorem submit_running (env : Nat → oracle) (r : gw_ring) (h : ring_ok r)
    (hs : r.should_stop = false) :
    ∃ (c : Nat) (r1 : gw_ring), __gw_ring_submit env r = some ((c : Int), r1) ∧
      r1.should_stop = false ∧ r1.sq_head = r.sq_tail ∧ r1.sq_tail = r.sq_tail ∧
      r1.sq_mask = r.sq_mask ∧ r1.sqes = r.sqes ∧ r1.cq_head = r.cq_head ∧
      r1.cq_mask = r.cq_mask ∧ r1.cqes.length = r.cqes.length ∧
      r1.wait_cqe_cond_n = r.wait_cqe_cond_n := by
  have hf := dispatch_seq_frame env (gw_ring_sq_ready r) r.sq_head 0 r
  obtain ⟨f1, f2, f3, f4, f5, f6, f7, f8, f9, f10⟩ := hf
  refine ⟨_, _, submit_eq_dispatch env r h hs, ?_, rfl, f4, f5, f2, f6, f7, f10, f9⟩
  exact f1.trans hs

theorem wait_pass_cases (r : gw_ring) (cqe : Option (Option Nat)) (k : Nat) :
    ((__gw_ring_wait_cqe_nr r cqe k).ret = some 0 →
      k ≤ gw_ring_cq_ready (__gw_ring_wait_cqe_nr r cqe k).ring ∧
      (__gw_ring_wait_cqe_nr r cqe k).ring = r ∧ r.should_stop = false) ∧
    (∀ v, (__gw_ring_wait_cqe_nr r cqe k).ret = some v → v < 0 →
      r.should_stop = true ∧ (__gw_ring_wait_cqe_nr r cqe k).ring = r) ∧
    (∀ v, (__gw_ring_wait_cqe_nr r cqe k).ret = some v → v = 0 ∨ v = -EOWNERDEAD) ∧
    ((__gw_ring_wait_cqe_nr r cqe k).ret = none →
      r.should_stop = false ∧ gw_ring_cq_ready r < k) := by
  unfold __gw_ring_wait_cqe_nr
  cases hs : r.should_stop
  · by_cases hk : gw_ring_cq_ready r ≥ k
    · simp [hk]
    · simp [hk]; omega
  · simp

theorem wake_ring_eq (ring1 : gw_ring) (k : Nat) :
    gw_ring_submit_and_wait_wake ring1 k =
      __gw_ring_wait_cqe_nr { ring1 with wait_cqe_cond_n := dec16 ring1.wait_cqe_cond_n } none k :=
  rfl

/-! ## C11: SQ occupancy -/

theorem round_up_zero_none (entries : Nat) (he : 0 < entries) :
    ∀ fuel, round_up_loop fuel 0 entries = none := by
  intro fuel
  induction fuel with
  | zero => rfl
  | succ f ih =>
    rw [round_up_loop, if_pos he]
    have : mul32 0 2 = 0 := by decide
    rw [this]; exact ih

theorem round_up_loop_shape (entries : Nat) :
    ∀ (fuel m i : Nat), 1 ≤ m → m ≤ 31 → round_up_loop fuel (2 ^ m) entries = some i →
      ∃ n, 1 ≤ n ∧ n ≤ 31 ∧ i = 2 ^ n := by
  intro fuel
  induction fuel with
  | zero => intro m i _ _ h; simp [round_up_loop] at h
  | succ f ih =>
    intro m i hm1 hm2 h
    rw [round_up_loop] at h
    by_cases hlt : 2 ^ m < entries
    · rw [if_pos hlt] at h
      by_cases hm : m = 31
      · subst hm
        have hz : mul32 (2 ^ 31) 2 = 0 := by decide
        rw [hz, round_up_zero_none entries (by omega)] at h
        simp at h
      · have hmul : mul32 (2 ^ m) 2 = 2 ^ (m + 1) := by
          have h1 : 2 ^ (m + 1) ≤ 2 ^ 31 := Nat.pow_le_pow_right (by norm_num) (by omega)
          have h2 : 2 ^ (m + 1) = 2 ^ m * 2 := by ring
          unfold mul32
          rw [← h2]
          exact Nat.mod_eq_of_lt (by omega)
        rw [hmul] at h
        exact ih (m + 1) i (by omega) (by omega) h
    · rw [if_neg hlt] at h
      simp only [Option.some.injEq] at h
      exact ⟨m, hm1, hm2, h.symm⟩

theorem init_success_sq_mask (fuel : Nat) (o : init_oracle) (entries : Nat) (out : init_out)
    (hi : gw_ring_queue_init fuel o entries = some out) (hr : out.ret = 0) :
    ∃ n, 1 ≤ n ∧ n ≤ 31 ∧ out.ring.sq_mask = 2 ^ n - 1 := by
  unfold gw_ring_queue_init at hi
  cases hq : round_up_loop fuel 2 entries with
  | none => rw [hq] at hi; simp at hi
  | some i =>
    obtain ⟨n, h1, h2, h3⟩ := round_up_loop_shape entries fuel 1 i (by omega) (by omega)
      (by simpa using hq)
    have hlo : 2 ≤ 2 ^ n := by
      calc 2 = 2 ^ 1 := by norm_num
        _ ≤ 2 ^ n := Nat.pow_le_pow_right (by norm_num) h1
    have hhi : 2 ^ n ≤ 2 ^ 31 := Nat.pow_le_pow_right (by norm_num) h2
    have e1 : sub32 i 1 = 2 ^ n - 1 := by rw [h3]; unfold sub32; omega
    refine ⟨n, h1, h2, ?_⟩
    rw [hq] at hi
    dsimp only at hi
    rw [e1] at hi
    split_ifs at hi <;> simp only [Option.some.injEq] at hi <;> subst hi
    all_goals first
      | rfl
      | (exfalso; simp_all [ENOMEM])

theorem submit_inv (env : Nat → oracle) (r : gw_ring) (hinv : sq_inv r) :
    ∃ (c : Int) (r1 : gw_ring), __gw_ring_submit env r = some (c, r1) ∧ 0 ≤ c ∧
      r1.should_stop = false ∧ r1.sq_head = r.sq_tail ∧ r1.sq_tail = r.sq_tail ∧
      r1.sq_mask = r.sq_mask := by
  obtain ⟨hs, h1, h2, -, -⟩ := hinv
  have := submit_loop_eq env r.sq_tail h2 (gw_ring_sq_ready r) (2 ^ 32) r r.sq_head 0 0 hs h1
    rfl (sub32_lt _ _)
  obtain ⟨f1, f2, f3, f4, f5, -⟩ := dispatch_seq_frame env (gw_ring_sq_ready r) r.sq_head 0 r
  refine ⟨_, _, this, by omega, f1.trans hs, rfl, f4, f5⟩

theorem sq_inv_of_fields (r r1 : gw_ring) (hinv : sq_inv r)
    (e1 : r1.should_stop = r.should_stop) (e2 : r1.sq_head = r.sq_head)
    (e3 : r1.sq_tail = r.sq_tail) (e4 : r1.sq_mask = r.sq_mask) : sq_inv r1 := by
  unfold sq_inv gw_ring_sq_ready at *
  rw [e1, e2, e3, e4]; exact hinv

theorem sq_inv_bump (r r1 : gw_ring) (hinv : sq_inv r)
    (hlt : gw_ring_sq_ready r < add32 r.sq_mask 1)
    (e1 : r1.should_stop = r.should_stop) (e2 : r1.sq_head = r.sq_head)
    (e3 : r1.sq_tail = add32 r.sq_tail 1) (e4 : r1.sq_mask = r.sq_mask) : sq_inv r1 := by
  have hm : add32 r.sq_mask 1 < 2 ^ 32 := add32_lt _ _
  unfold sq_inv gw_ring_sq_ready at *
  rw [e1, e2, e3, e4]
  obtain ⟨a, b, c, d, e⟩ := hinv
  refine ⟨a, b, add32_lt _ _, d, ?_⟩
  generalize add32 r.sq_mask 1 = cap at *
  unfold sub32 at hlt e ⊢
  unfold add32
  omega

theorem sq_left_pos_iff (r : gw_ring) (hinv : sq_inv r) :
    gw_ring_sq_left r = 0 ↔ gw_ring_sq_ready r = add32 r.sq_mask 1 := by
  have hm : add32 r.sq_mask 1 < 2 ^ 32 := add32_lt _ _
  have hr : gw_ring_sq_ready r < 2 ^ 32 := sub32_lt _ _
  obtain ⟨-, -, -, -, e⟩ := hinv
  unfold gw_ring_sq_left
  generalize add32 r.sq_mask 1 = cap at *
  generalize gw_ring_sq_ready r = k at *
  unfold sub32
  omega

theorem sq_step_inv (r : gw_ring) (op : sq_op) (hinv : sq_inv r) :
    ∃ r1, sq_step r op = some r1 ∧ sq_inv r1 ∧ r1.sq_mask = r.sq_mask := by
  have hfull := sq_left_pos_iff r hinv
  cases op with
  | get_sqe =>
    refine ⟨_, rfl, ?_, ?_⟩
    · unfold gw_ring_get_sqe
      by_cases hl : gw_ring_sq_left r > 0
      · rw [if_pos hl]
        have hlt : gw_ring_sq_ready r < add32 r.sq_mask 1 := by
          have := hinv.2.2.2.2
          have hne : ¬ gw_ring_sq_left r = 0 := by omega
          rw [hfull] at hne
          omega
        exact sq_inv_bump r _ hinv hlt rfl rfl rfl rfl
      · rw [if_neg hl]; exact hinv
    · unfold gw_ring_get_sqe
      split_ifs <;> rfl
  | get_sqe_nf env =>
    by_cases hl : gw_ring_sq_left r = 0
    · obtain ⟨c, r1, e, -, s1, s2, s3, s4⟩ := submit_inv env r hinv
      refine ⟨{ r1 with sq_tail := add32 r1.sq_tail 1 }, ?_, ?_, s4⟩
      · simp only [sq_step, gw_ring_get_sqe_nf, hl, if_true, e, Option.map_some']
      · obtain ⟨a, b, c', d, e'⟩ := hinv
        refine ⟨s1, ?_, add32_lt _ _, ?_, ?_⟩
        · show r1.sq_head < 2 ^ 32
          rw [s2]; exact c'
        · show 1 ≤ add32 r1.sq_mask 1
          rw [s4]; exact d
        · show sub32 (add32 r1.sq_tail 1) r1.sq_head ≤ add32 r1.sq_mask 1
          rw [s2, s3, s4]
          have : sub32 (add32 r.sq_tail 1) r.sq_tail = 1 := by unfold sub32 add32; omega
          rw [this]; exact d
    · refine ⟨{ r with sq_tail := add32 r.sq_tail 1 }, ?_, ?_, rfl⟩
      · simp only [sq_step, gw_ring_get_sqe_nf, hl, if_false, Option.map_some']
      · have hlt : gw_ring_sq_ready r < add32 r.sq_mask 1 := by
          have := hinv.2.2.2.2
          rw [hfull] at hl
          omega
        exact sq_inv_bump r _ hinv hlt rfl rfl rfl rfl
  | submit env =>
    obtain ⟨c, r1, e, -, s1, s2, s3, s4⟩ := submit_inv env r hinv
    refine ⟨r1, ?_, ?_, s4⟩
    · show (__gw_ring_submit env r).map (fun x => x.2) = some r1
      rw [e]; rfl
    · obtain ⟨a, b, c', d, e'⟩ := hinv
      refine ⟨s1, by rw [s2]; exact c', by rw [s3]; exact c', by rw [s4]; exact d, ?_⟩
      unfold gw_ring_sq_ready
      rw [s2, s3]
      have : sub32 r.sq_tail r.sq_tail = 0 := by unfold sub32; omega
      rw [this]; omega
  | submit_and_wait env k =>
    obtain ⟨c, r1, e, hc, s1, s2, s3, s4⟩ := submit_inv env r hinv
    have hr1 : sq_inv r1 := by
      obtain ⟨a, b, c', d, e'⟩ := hinv
      refine ⟨s1, by rw [s2]; exact c', by rw [s3]; exact c', by rw [s4]; exact d, ?_⟩
      unfold gw_ring_sq_ready
      rw [s2, s3]
      have : sub32 r.sq_tail r.sq_tail = 0 := by unfold sub32; omega
      rw [this]; omega
    have hnn : ¬ c < 0 := by omega
    refine ⟨(__gw_ring_wait_cqe_nr r1 none k).ring, ?_, ?_, ?_⟩
    · simp only [sq_step, gw_ring_submit_and_wait, e, hnn, if_false, Option.map_some']
    · unfold __gw_ring_wait_cqe_nr
      split_ifs
      · exact hr1
      · exact hr1
      · exact sq_inv_of_fields r1 _ hr1 rfl rfl rfl rfl
    · unfold __gw_ring_wait_cqe_nr
      split_ifs <;> exact s4
  | wait_wake k =>
    refine ⟨_, rfl, ?_, ?_⟩
    · unfold gw_ring_submit_and_wait_wake __gw_ring_wait_cqe_nr_wake __gw_ring_wait_cqe_nr
      split_ifs <;> exact sq_inv_of_fields r _ hinv rfl rfl rfl rfl
    · unfold gw_ring_submit_and_wait_wake __gw_ring_wait_cqe_nr_wake __gw_ring_wait_cqe_nr
      split_ifs <;> rfl
  | fill slot sqe =>
    exact ⟨_, rfl, sq_inv_of_fields r _ hinv rfl rfl rfl rfl, rfl⟩

theorem sq_run_inv : ∀ (ops : List sq_op) (r : gw_ring), sq_inv r →
    ∃ r1, sq_run r ops = some r1 ∧ sq_inv r1 ∧ r1.sq_mask = r.sq_mask := by
  intro ops
  induction ops with
  | nil => intro r h; exact ⟨r, rfl, h, rfl⟩
  | cons op ops ih =>
    intro r h
    obtain ⟨r1, e1, i1, m1⟩ := sq_step_inv r op h
    obtain ⟨r2, e2, i2, m2⟩ := ih r1 i1
    refine ⟨r2, ?_, i2, m2.trans m1⟩
    rw [sq_run, e1]
    exact e2

/-- C11: from the ring of every successful `gw_ring_queue_init`, every sequence
of `gw_ring_get_sqe`, `gw_ring_get_sqe_nf`, `gw_ring_submit` and
`gw_ring_submit_and_wait` calls (with wake-ups of blocked waits and the
caller's writes into SQE slots in between) runs through, and the ring it
reaches satisfies `sq_tail - sq_head <= sq_mask + 1`, the difference, and also
the sum `sq_mask + 1`, taken in 32-bit arithmetic. -/
theorem C11_sq_occupancy_bounded (fuel : Nat) (o : init_oracle) (entries : Nat) (out : init_out) (ops : List sq_op)
    (hi : gw_ring_queue_init fuel o entries = some out) (hr : out.ret = 0) :
    ∃ r1, sq_run out.ring ops = some r1 ∧
      gw_ring_sq_ready r1 ≤ add32 r1.sq_mask 1 ∧
      gw_ring_sq_ready r1 ≤ r1.sq_mask + 1 := by
  obtain ⟨c1, c2, -, -, -, -, c7⟩ := init_success_counters fuel o entries out hi hr
  obtain ⟨n, h1, h2, hm⟩ := init_success_sq_mask fuel o entries out hi hr
  have hlo : 2 ≤ 2 ^ n := by
    calc 2 = 2 ^ 1 := by norm_num
      _ ≤ 2 ^ n := Nat.pow_le_pow_right (by norm_num) h1
  have hhi : 2 ^ n ≤ 2 ^ 31 := Nat.pow_le_pow_right (by norm_num) h2
  have h0 : sq_inv out.ring := by
    refine ⟨c7, by rw [c1]; norm_num, by rw [c2]; norm_num, ?_, ?_⟩
    · rw [hm]; unfold add32; omega
    · unfold gw_ring_sq_ready; rw [c1, c2, hm]; unfold sub32 add32; omega
  obtain ⟨r1, e, i, -⟩ := sq_run_inv ops out.ring h0
  exact ⟨r1, e, i.2.2.2.2, le_trans i.2.2.2.2 (add32_one_le _)⟩

/-- C11 witness: on a fresh 2-entry ring, two reservations, a failed third one,
a never-failing reservation (which submits), a submit and a submit-and-wait
keep the SQ within its capacity 2. -/
theorem C11_witness_reserve_and_submit :
    gw_ring_queue_init 64 init_all_ok 2 =
      some { ret := 0, ring := fresh_ring 2, released := [] } ∧
    ∃ r1, sq_run (fresh_ring 2)
        [sq_op.get_sqe, sq_op.fill 0 (gw_ring_prep_nop sqe_zero), sq_op.get_sqe,
         sq_op.fill 1 (gw_ring_prep_nop sqe_zero), sq_op.get_sqe,
         sq_op.get_sqe_nf env_accept, sq_op.submit env_accept, sq_op.get_sqe,
         sq_op.submit_and_wait env_accept 1, sq_op.wait_wake 1] = some r1 ∧
      gw_ring_sq_ready r1 ≤ add32 r1.sq_mask 1 ∧
      gw_ring_sq_ready r1 ≤ r1.sq_mask + 1 :=
  ⟨by decide,
    C11_sq_occupancy_bounded 64 init_all_ok 2
      { ret := 0, ring := fresh_ring 2, released := [] } _ (by decide) rfl⟩

/-! ## C12: `gw_ring_get_sqe_nf` -/

theorem sq_shape (r : gw_ring) (h : ring_ok r) :
    ∃ n, n ≤ 32 ∧ r.sq_mask + 1 = 2 ^ n := by
  obtain ⟨⟨n, hn, hn0, hp⟩, -⟩ := h
  exact ⟨n, by omega, hp⟩

theorem sq_tail_eq (r : gw_ring) (ht : r.sq_tail < 2 ^ 32) :
    r.sq_tail = add32 r.sq_head (gw_ring_sq_ready r) := by
  unfold gw_ring_sq_ready sub32 add32; omega

/-- C12 as amended: on every initialised ring with
`sq_tail - sq_head <= sq_mask + 1` on which `should_stop` is clear or the SQ is
not full, `gw_ring_get_sqe_nf` returns a slot: the slot is
`sqes[old sq_tail & sq_mask]`, it lies inside the array, and `sq_tail` grows by
exactly one.  If the SQ was full the ring is the one the dispatch of all
pending SQEs left, with `sq_head` moved to the old `sq_tail`, so the new entry
is the only pending one; otherwise nothing but `sq_tail` changes.  The
returned slot is not the slot of any other SQE still pending dispatch, and
`sq_tail - sq_head <= sq_mask + 1` holds afterwards. -/
theorem C12_get_sqe_nf_makes_room (env : Nat → oracle) (r : gw_ring) (h : ring_ok r)
    (hs : r.should_stop = false ∨ gw_ring_sq_left r ≠ 0)
    (hocc : gw_ring_sq_ready r ≤ r.sq_mask + 1) :
    (gw_ring_get_sqe_nf env r).isSome = true ∧
    (∀ slot ring1, gw_ring_get_sqe_nf env r = some (slot, ring1) →
      slot = (r.sq_tail &&& r.sq_mask) ∧ slot < r.sqes.length ∧
      ring1.sq_tail = add32 r.sq_tail 1 ∧
      ring1.sq_mask = r.sq_mask ∧
      (gw_ring_sq_left r = 0 →
        ring1 = { (dispatch_seq env (gw_ring_sq_ready r) r.sq_head 0 r).2 with
          sq_head := r.sq_tail, sq_tail := add32 r.sq_tail 1 } ∧
        gw_ring_sq_ready ring1 = 1) ∧
      (gw_ring_sq_left r ≠ 0 → ring1 = { r with sq_tail := add32 r.sq_tail 1 }) ∧
      (∀ j, j + 1 < gw_ring_sq_ready ring1 →
        (add32 ring1.sq_head j &&& ring1.sq_mask) ≠ slot) ∧
      gw_ring_sq_ready ring1 ≤ ring1.sq_mask + 1) := by
  have hcap := sq_cap_bounds r h
  have h1 : r.sq_head < 2 ^ 32 := h.2.2.2.2.1
  have h2 : r.sq_tail < 2 ^ 32 := h.2.2.2.2.2.1
  have hlen : r.sqes.length = r.sq_mask + 1 := h.2.2.1
  have hb : (r.sq_tail &&& r.sq_mask) < r.sqes.length := by
    have := @Nat.and_le_right r.sq_tail r.sq_mask
    omega
  have hsubmit : r.should_stop = false → __gw_ring_submit env r =
      some ((((dispatch_seq env (gw_ring_sq_ready r) r.sq_head 0 r).1.count true : Nat) : Int),
        { (dispatch_seq env (gw_ring_sq_ready r) r.sq_head 0 r).2 with sq_head := r.sq_tail }) :=
    fun hc => submit_eq_dispatch env r h hc
  have hf := dispatch_seq_frame env (gw_ring_sq_ready r) r.sq_head 0 r
  obtain ⟨f1, f2, f3, f4, f5, -⟩ := hf
  generalize hd : (dispatch_seq env (gw_ring_sq_ready r) r.sq_head 0 r).2 = rd at *
  by_cases hl : gw_ring_sq_left r = 0
  · have hsub := hsubmit (hs.resolve_right (not_not.mpr hl))
    have hnf : gw_ring_get_sqe_nf env r =
        some (r.sq_tail &&& r.sq_mask,
          { rd with sq_head := r.sq_tail, sq_tail := add32 r.sq_tail 1 }) := by
      unfold gw_ring_get_sqe_nf
      rw [if_pos hl, hsub]
      dsimp only
      rw [f4, f5]
    rw [hnf]
    refine ⟨rfl, ?_⟩
    intro slot ring1 he
    simp only [Option.some.injEq, Prod.mk.injEq] at he
    obtain ⟨e1, e2⟩ := he
    subst e1 e2
    have hready : gw_ring_sq_ready
        ({ rd with sq_head := r.sq_tail, sq_tail := add32 r.sq_tail 1 } : gw_ring) = 1 := by
      show sub32 (add32 r.sq_tail 1) r.sq_tail = 1
      unfold sub32 add32; omega
    refine ⟨rfl, hb, rfl, f5, fun _ => ⟨rfl, hready⟩, fun hne => absurd hl hne, ?_, ?_⟩
    · intro j hj
      rw [hready] at hj
      omega
    · rw [hready]
      show 1 ≤ rd.sq_mask + 1
      omega
  · have hnf : gw_ring_get_sqe_nf env r =
        some (r.sq_tail &&& r.sq_mask, { r with sq_tail := add32 r.sq_tail 1 }) := by
      unfold gw_ring_get_sqe_nf
      rw [if_neg hl]
    rw [hnf]
    refine ⟨rfl, ?_⟩
    intro slot ring1 he
    simp only [Option.some.injEq, Prod.mk.injEq] at he
    obtain ⟨e1, e2⟩ := he
    subst e1 e2
    have hlt : gw_ring_sq_ready r < r.sq_mask + 1 := by
      have := (sq_left_eq_zero_iff r h).not.mp hl
      omega
    have hready : gw_ring_sq_ready ({ r with sq_tail := add32 r.sq_tail 1 } : gw_ring) =
        gw_ring_sq_ready r + 1 := by
      show sub32 (add32 r.sq_tail 1) r.sq_head = _
      unfold gw_ring_sq_ready at hlt ⊢
      unfold sub32 at hlt ⊢
      unfold add32
      omega
    obtain ⟨n, hn, hp⟩ := sq_shape r h
    refine ⟨rfl, hb, rfl, rfl, fun h0 => absurd h0 hl, fun _ => rfl, ?_, ?_⟩
    · intro j hj
      rw [hready] at hj
      show (add32 r.sq_head j &&& r.sq_mask) ≠ (r.sq_tail &&& r.sq_mask)
      have ht := sq_tail_eq r h2
      have hz : (r.sq_tail &&& r.sq_mask) = (add32 r.sq_head (gw_ring_sq_ready r) &&& r.sq_mask) := by
        rw [← ht]
      rw [hz]
      exact slot_ne r.sq_mask n r.sq_head j (gw_ring_sq_ready r) hp hn (by omega) (by omega)
    · rw [hready]
      show gw_ring_sq_ready r + 1 ≤ r.sq_mask + 1
      omega

/-- C12 witness: SQ capacity 2, two SQEs reserved and not submitted; the third
reservation through `gw_ring_get_sqe_nf` returns a slot, while `gw_ring_get_sqe`
returns `NULL`.  And with `should_stop` set but only one of the two slots
reserved, `gw_ring_get_sqe_nf` returns the free slot 1. -/
theorem C12_witness_third_reservation :
    ring_ok (queue_nops 7 2 (fresh_ring 2)) ∧
    (queue_nops 7 2 (fresh_ring 2)).should_stop = false ∧
    gw_ring_sq_ready (queue_nops 7 2 (fresh_ring 2)) = 2 ∧
    (gw_ring_get_sqe (queue_nops 7 2 (fresh_ring 2))).1 = none ∧
    (gw_ring_get_sqe_nf env_accept (queue_nops 7 2 (fresh_ring 2))).isSome = true ∧
    (gw_ring_get_sqe_nf env_accept (queue_nops 7 2 (fresh_ring 2))).map (fun x => x.1) =
      some 0 ∧
    ({ (queue_nop (fresh_ring 2) 7) with should_stop := true } : gw_ring).should_stop = true ∧
    gw_ring_sq_left { (queue_nop (fresh_ring 2) 7) with should_stop := true } = 1 ∧
    (gw_ring_get_sqe_nf env_accept
      { (queue_nop (fresh_ring 2) 7) with should_stop := true }).isSome = true ∧
    (gw_ring_get_sqe_nf env_accept
      { (queue_nop (fresh_ring 2) 7) with should_stop := true }).map (fun x => x.1) = some 1 :=
  ⟨by decide, by decide, by decide, by decide,
    (C12_get_sqe_nf_makes_room env_accept (queue_nops 7 2 (fresh_ring 2)) (by decide)
      (Or.inl (by decide)) (by decide)).1,
    by decide, by decide, by decide,
    (C12_get_sqe_nf_makes_room env_accept
      { (queue_nop (fresh_ring 2) 7) with should_stop := true } (by decide)
      (Or.inr (by decide)) (by decide)).1,
    by decide⟩

/-- C12 counterexample: a 2-entry ring with two NOPs pending and `should_stop`
set.  `gw_ring_get_sqe_nf` returns slot 0 although the internal submit dispatched
nothing: `sq_head` is still 0, so slot 0 holds the SQE pending at counter 0, and
`sq_tail - sq_head` becomes 3, more than the capacity 2. -/
theorem C12_counterexample_shutdown :
    ring_ok { (queue_nops 7 2 (fresh_ring 2)) with should_stop := true } ∧
    gw_ring_sq_ready { (queue_nops 7 2 (fresh_ring 2)) with should_stop := true } = 2 ∧
    ({ (queue_nops 7 2 (fresh_ring 2)) with should_stop := true } : gw_ring).sq_mask + 1 = 2 ∧
    gw_ring_get_sqe_nf env_accept { (queue_nops 7 2 (fresh_ring 2)) with should_stop := true } =
      some (0, { (queue_nops 7 2 (fresh_ring 2)) with should_stop := true, sq_tail := 3 }) ∧
    gw_ring_sq_ready
      { (queue_nops 7 2 (fresh_ring 2)) with should_stop := true, sq_tail := 3 } = 3 ∧
    (add32 ({ (queue_nops 7 2 (fresh_ring 2)) with should_stop := true, sq_tail := 3 }
      : gw_ring).sq_head 0 &&& 1) = 0 := by
  decide

/-! ## C13: `gw_ring_cq_advance` makes room -/

theorem post_all_frame : ∀ (l : List post_cqe_data) (r : gw_ring),
    (post_all r l).io_wq = r.io_wq ∧ (post_all r l).cq_head = r.cq_head ∧
    (post_all r l).cq_mask = r.cq_mask ∧ (post_all r l).should_stop = r.should_stop := by
  intro l
  induction l with
  | nil => intro r; exact ⟨rfl, rfl, rfl, rfl⟩
  | cons d l ih =>
    intro r
    have := ih (__gw_post_cqe r d.res d.user_data)
    exact this

theorem cq_ready_post_all : ∀ (l : List post_cqe_data) (r : gw_ring),
    r.cq_mask + 1 < 2 ^ 32 → gw_ring_cq_ready r + l.length ≤ r.cq_mask + 1 →
    gw_ring_cq_ready (post_all r l) = gw_ring_cq_ready r + l.length := by
  intro l
  induction l with
  | nil => intro r _ _; rfl
  | cons d l ih =>
    intro r hm hfree
    simp only [List.length_cons] at hfree
    have h1 := cq_ready_post r d.res d.user_data hm (by omega)
    have := ih (__gw_post_cqe r d.res d.user_data) hm (by rw [h1]; show _ ≤ r.cq_mask + 1; omega)
    show gw_ring_cq_ready (post_all (__gw_post_cqe r d.res d.user_data) l) = _
    rw [this, h1, List.length_cons]
    omega

theorem post_calls_direct : ∀ (cs : List (oracle × post_cqe_data)) (r : gw_ring),
    r.cq_mask + 1 < 2 ^ 32 → gw_ring_cq_ready r + cs.length ≤ r.cq_mask + 1 →
    post_calls r cs = (List.replicate cs.length true, post_all r (cs.map Prod.snd)) := by
  intro cs
  induction cs with
  | nil => intro r _ _; rfl
  | cons c cs ih =>
    intro r hm hfree
    simp only [List.length_cons] at hfree
    have hpos := cq_left_pos r hm (by omega)
    have hne : ¬ gw_ring_cq_left r = 0 := by omega
    have hstep : gw_post_cqe c.1 r c.2.res c.2.user_data =
        (true, __gw_post_cqe r c.2.res c.2.user_data) := by
      simp [gw_post_cqe, hne]
    have h1 := cq_ready_post r c.2.res c.2.user_data hm (by omega)
    have := ih (__gw_post_cqe r c.2.res c.2.user_data) hm
      (by rw [h1]; show _ ≤ r.cq_mask + 1; omega)
    rw [post_calls]
    simp only [hstep, this, List.length_cons, List.replicate_succ, List.map_cons, post_all]

/-- C13: on every initialised ring with `cq_tail - cq_head <= cq_mask + 1` and
every `n <= cq_ready`, `gw_ring_cq_advance(n)` changes `cq_head` alone, to
`cq_head + n`; and every sequence of at most `n` `gw_post_cqe` calls that
follows consists of direct writes only: each call returns true, the ring is
the one the `__gw_post_cqe` writes leave, the pool is untouched whatever
`malloc` and the pool would answer, and `cq_tail - cq_head`, which is
`cq_ready - n` plus the number of calls, stays within `cq_mask + 1`. -/
theorem C13_advance_then_posts (r : gw_ring) (n : Nat) (cs : List (oracle × post_cqe_data)) (h : ring_ok r)
    (hocc : gw_ring_cq_ready r ≤ r.cq_mask + 1) (hn : n ≤ gw_ring_cq_ready r)
    (hcs : cs.length ≤ n) :
    gw_ring_cq_advance r n = { r with cq_head := add32 r.cq_head n } ∧
    gw_ring_cq_ready (gw_ring_cq_advance r n) = gw_ring_cq_ready r - n ∧
    (post_calls (gw_ring_cq_advance r n) cs).1 = List.replicate cs.length true ∧
    (post_calls (gw_ring_cq_advance r n) cs).2 =
      post_all (gw_ring_cq_advance r n) (cs.map Prod.snd) ∧
    (post_calls (gw_ring_cq_advance r n) cs).2.io_wq = r.io_wq ∧
    gw_ring_cq_ready (post_calls (gw_ring_cq_advance r n) cs).2 =
      gw_ring_cq_ready r - n + cs.length ∧
    gw_ring_cq_ready (post_calls (gw_ring_cq_advance r n) cs).2 ≤ r.cq_mask + 1 := by
  have hc := cq_cap_bounds r h
  have hm : r.cq_mask + 1 < 2 ^ 32 := by omega
  have hr2 : gw_ring_cq_advance r n = { r with cq_head := add32 r.cq_head n } := rfl
  have hready : gw_ring_cq_ready (gw_ring_cq_advance r n) = gw_ring_cq_ready r - n := by
    show sub32 r.cq_tail (add32 r.cq_head n) = _
    unfold gw_ring_cq_ready at hn hocc ⊢
    unfold sub32 at hn hocc ⊢
    unfold add32
    omega
  generalize gw_ring_cq_advance r n = r2 at *
  have e1 : r2.cq_mask = r.cq_mask := by rw [hr2]
  have e2 : r2.io_wq = r.io_wq := by rw [hr2]
  have hfree : gw_ring_cq_ready r2 + cs.length ≤ r2.cq_mask + 1 := by rw [hready, e1]; omega
  have hp := post_calls_direct cs r2 (by rw [e1]; exact hm) hfree
  have hra := cq_ready_post_all (cs.map Prod.snd) r2 (by rw [e1]; exact hm)
    (by rw [List.length_map]; exact hfree)
  rw [List.length_map, hready] at hra
  refine ⟨hr2, hready, by rw [hp], by rw [hp], ?_, by rw [hp]; exact hra, ?_⟩
  · rw [hp]
    exact (post_all_frame _ _).1.trans e2
  · rw [hp]
    show gw_ring_cq_ready (post_all r2 (cs.map Prod.snd)) ≤ _
    rw [hra]; omega

/-- C13 witness: on a full 4-slot CQ, after `gw_ring_cq_advance(2)` two posts
succeed even when every allocation would fail, and the CQ is full again. -/
theorem C13_witness_advance_two :
    ring_ok full_cq_ring ∧ gw_ring_cq_ready full_cq_ring = 4 ∧
    (post_calls (gw_ring_cq_advance full_cq_ring 2)
      [(env_refuse 0, { res := 0, user_data := 5 }),
       (env_refuse 1, { res := 0, user_data := 6 })]).1 = [true, true] ∧
    gw_ring_cq_ready (post_calls (gw_ring_cq_advance full_cq_ring 2)
      [(env_refuse 0, { res := 0, user_data := 5 }),
       (env_refuse 1, { res := 0, user_data := 6 })]).2 = 4 :=
  ⟨by decide, by decide,
    (C13_advance_then_posts full_cq_ring 2
      [(env_refuse 0, { res := 0, user_data := 5 }),
       (env_refuse 1, { res := 0, user_data := 6 })]
      (by decide) (by decide) (by decide) (by decide)).2.2.1,
    by decide⟩

/-! ## C14: `gw_ring_for_each_cqe` -/

theorem for_each_loop_eq (r : gw_ring) (ht : r.cq_tail < 2 ^ 32) :
    ∀ (n fuel head : Nat) (visited : List (Nat × gw_ring_cqe)),
      head < 2 ^ 32 → sub32 r.cq_tail head = n → n < fuel →
      gw_ring_for_each_cqe_loop r fuel head visited =
        some (visited ++ (List.range n).map
          (fun j => (add32 head j &&& r.cq_mask, cqe_at r (add32 head j))), r) := by
  intro n
  induction n with
  | zero =>
    intro fuel head visited hh hn hf
    obtain ⟨f, rfl⟩ : ∃ f, fuel = f + 1 := ⟨fuel - 1, by omega⟩
    have hht : head = r.cq_tail := by unfold sub32 at hn; omega
    simp [gw_ring_for_each_cqe_loop, hht]
  | succ n ih =>
    intro fuel head visited hh hn hf
    obtain ⟨f, rfl⟩ : ∃ f, fuel = f + 1 := ⟨fuel - 1, by omega⟩
    have hht : head ≠ r.cq_tail := by unfold sub32 at hn; omega
    have hn' : sub32 r.cq_tail (add32 head 1) = n := by unfold sub32 add32 at *; omega
    rw [gw_ring_for_each_cqe_loop]
    simp only [hht, ne_eq, not_false_eq_true, if_true]
    rw [ih f (add32 head 1) _ (add32_lt _ _) hn' (by omega)]
    simp only [List.range_succ_eq_map, List.map_cons, List.map_map, List.append_assoc,
      List.singleton_append, add32_zero _ hh]
    congr 4
    apply List.map_congr_left
    intro j _
    simp only [Function.comp, add32_add32, Nat.add_comm 1 j]

/-- C14: on every initialised ring the walk of `gw_ring_for_each_cqe` ends; it
visits exactly `cq_tail - cq_head` (32-bit) entries, the `j`-th visited being
`cqes[(cq_head + j) & cq_mask]` for `j = 0, 1, ...` in increasing order, and
the ring is left as it was. -/
theorem C14_for_each_visits_ready (r : gw_ring) (h : ring_ok r) :
    gw_ring_for_each_cqe r =
      some ((List.range (gw_ring_cq_ready r)).map
        (fun j => (add32 r.cq_head j &&& r.cq_mask, cqe_at r (add32 r.cq_head j))), r) ∧
    (∀ visited ring1, gw_ring_for_each_cqe r = some (visited, ring1) →
      visited.length = gw_ring_cq_ready r ∧ ring1 = r ∧
      ∀ j, j < gw_ring_cq_ready r →
        visited[j]? = some (add32 r.cq_head j &&& r.cq_mask,
          r.cqes.getD (add32 r.cq_head j &&& r.cq_mask) cqe_zero)) := by
  have hh : r.cq_head < 2 ^ 32 := h.2.2.2.2.2.2.1
  have ht : r.cq_tail < 2 ^ 32 := h.2.2.2.2.2.2.2.1
  have he := for_each_loop_eq r ht (gw_ring_cq_ready r) (2 ^ 32) r.cq_head [] hh rfl (sub32_lt _ _)
  have he' : gw_ring_for_each_cqe r =
      some ((List.range (gw_ring_cq_ready r)).map
        (fun j => (add32 r.cq_head j &&& r.cq_mask, cqe_at r (add32 r.cq_head j))), r) := by
    simpa [gw_ring_for_each_cqe] using he
  refine ⟨he', ?_⟩
  intro visited ring1 hv
  rw [he'] at hv
  simp only [Option.some.injEq, Prod.mk.injEq] at hv
  obtain ⟨hv1, hv2⟩ := hv
  subst hv1 hv2
  refine ⟨by simp, rfl, ?_⟩
  intro j hj
  simp [hj, cqe_at]

set_option maxRecDepth 1000000 in
/-- C14 witness: after 32 NOP completions on a ring with CQ capacity 32 the walk
visits 32 entries. -/
theorem C14_witness_thirty_two :
    ring_ok (submit_ok (queue_nops 3735928559 16
      (submit_ok (queue_nops 3735928559 16 (fresh_ring 16))))) ∧
    gw_ring_cq_ready (submit_ok (queue_nops 3735928559 16
      (submit_ok (queue_nops 3735928559 16 (fresh_ring 16))))) = 32 ∧
    (gw_ring_for_each_cqe (submit_ok (queue_nops 3735928559 16
      (submit_ok (queue_nops 3735928559 16 (fresh_ring 16)))))).map
        (fun x => x.1.length) = some 32 :=
  ⟨by decide, by decide,
    by
      rw [(C14_for_each_visits_ready _ (by decide)).1]
      decide⟩

/-! ## C15: `gw_ring_submit_and_wait` -/

/-- C15: on every initialised ring `gw_ring_submit_and_wait(ring, k)` reaches its
return or its `cond_wait`.  When it returns 0 the ring has `cq_ready >= k` (and
`should_stop` clear); when it returns a negative value, that value is
`-EOWNERDEAD` and `should_stop` is set; it returns nothing else.  When its submit
phase returns a negative status, that status is returned with the ring the
submit phase left: the wait phase is not entered.  The same holds for a call
that resumes from the `cond_wait` of its wait phase. -/
theorem C15_submit_and_wait_returns (env : Nat → oracle) (r : gw_ring) (k : Nat) (h : ring_ok r) :
    (gw_ring_submit_and_wait env r k).isSome = true ∧
    (∀ out, gw_ring_submit_and_wait env r k = some out →
      (out.ret = some 0 → k ≤ gw_ring_cq_ready out.ring ∧ out.ring.should_stop = false) ∧
      (∀ v, out.ret = some v → v < 0 →
        v = -EOWNERDEAD ∧ r.should_stop = true ∧ out.ring.should_stop = true) ∧
      (∀ v, out.ret = some v → v = 0 ∨ v = -EOWNERDEAD) ∧
      (∀ v ring1, gw_ring_submit env r = some (v, ring1) → v < 0 →
        out = { ret := some v, cqe := none, ring := ring1 })) ∧
    (∀ ring1 : gw_ring,
      ((gw_ring_submit_and_wait_wake ring1 k).ret = some 0 →
        k ≤ gw_ring_cq_ready (gw_ring_submit_and_wait_wake ring1 k).ring ∧
        (gw_ring_submit_and_wait_wake ring1 k).ring.should_stop = false) ∧
      (∀ v, (gw_ring_submit_and_wait_wake ring1 k).ret = some v → v < 0 →
        v = -EOWNERDEAD ∧ ring1.should_stop = true)) := by
  have hsubmit : ∀ x, gw_ring_submit env r = x → __gw_ring_submit env r = x := fun x hx => hx
  refine ⟨?_, ?_, ?_⟩
  · unfold gw_ring_submit_and_wait
    cases hs : r.should_stop
    · obtain ⟨c, r1, e, -⟩ := submit_running env r h hs
      rw [e]
      dsimp only
      split_ifs <;> rfl
    · by_cases hn : gw_ring_sq_ready r = 0
      · rw [(submit_stopped env r h hs).2 hn]
        dsimp only
        split_ifs <;> rfl
      · rw [(submit_stopped env r h hs).1 hn]
        dsimp only
        split_ifs <;> rfl
  · intro out hout
    unfold gw_ring_submit_and_wait at hout
    cases hs : r.should_stop
    · obtain ⟨c, r1, e, e1, -⟩ := submit_running env r h hs
      rw [e] at hout
      have hc : ¬ ((c : Int) < 0) := by omega
      simp only [hc, if_false, Option.some.injEq] at hout
      subst hout
      obtain ⟨w1, w2, w3, -⟩ := wait_pass_cases r1 none k
      refine ⟨?_, ?_, w3, ?_⟩
      · intro h0
        obtain ⟨a, b, c'⟩ := w1 h0
        exact ⟨a, by rw [b]; exact c'⟩
      · intro v hv hneg
        obtain ⟨a, b⟩ := w2 v hv hneg
        rw [e1] at a
        exact absurd a (by simp)
      · intro v ring1 hv hneg
        rw [hsubmit _ hv] at e
        simp only [Option.some.injEq, Prod.mk.injEq] at e
        omega
    · by_cases hn : gw_ring_sq_ready r = 0
      · rw [(submit_stopped env r h hs).2 hn] at hout
        simp only [lt_self_iff_false, if_false, Option.some.injEq] at hout
        subst hout
        obtain ⟨w1, w2, w3, -⟩ := wait_pass_cases r none k
        refine ⟨?_, ?_, w3, ?_⟩
        · intro h0
          obtain ⟨a, b, c'⟩ := w1 h0
          rw [hs] at c'
          exact absurd c' (by simp)
        · intro v hv hneg
          obtain ⟨a, b⟩ := w2 v hv hneg
          rcases w3 v hv with hz | hz
          · omega
          · exact ⟨hz, rfl, by rw [b]; exact hs⟩
        · intro v ring1 hv hneg
          have := (submit_stopped env r h hs).2 hn
          rw [hsubmit _ hv] at this
          simp only [Option.some.injEq, Prod.mk.injEq] at this
          omega
      · rw [(submit_stopped env r h hs).1 hn] at hout
        have hneg130 : (-EOWNERDEAD : Int) < 0 := by decide
        simp only [hneg130, if_true, Option.some.injEq] at hout
        subst hout
        refine ⟨?_, ?_, ?_, ?_⟩
        · intro h0; simp at h0
        · intro v hv _
          simp only [Option.some.injEq] at hv
          exact ⟨hv.symm, rfl, hs⟩
        · intro v hv
          simp only [Option.some.injEq] at hv
          exact Or.inr hv.symm
        · intro v ring1 hv _
          have := (submit_stopped env r h hs).1 hn
          rw [hsubmit _ hv] at this
          simp only [Option.some.injEq, Prod.mk.injEq] at this
          obtain ⟨a, b⟩ := this
          subst a b
          rfl
  · intro ring1
    rw [wake_ring_eq]
    obtain ⟨w1, w2, w3, -⟩ := wait_pass_cases
      { ring1 with wait_cqe_cond_n := dec16 ring1.wait_cqe_cond_n } none k
    refine ⟨?_, ?_⟩
    · intro h0
      obtain ⟨a, b, c'⟩ := w1 h0
      exact ⟨a, by rw [b]; exact c'⟩
    · intro v hv hneg
      obtain ⟨a, b⟩ := w2 v hv hneg
      rcases w3 v hv with hz | hz
      · omega
      · exact ⟨hz, a⟩

/-- C15 witness: with one NOP pending on a fresh 2-entry ring,
`gw_ring_submit_and_wait(ring, 1)` returns 0 and one CQE is ready. -/
theorem C15_witness_one_nop :
    ring_ok (queue_nop (fresh_ring 2) 5) ∧
    (gw_ring_submit_and_wait env_accept (queue_nop (fresh_ring 2) 5) 1).isSome = true ∧
    (gw_ring_submit_and_wait env_accept (queue_nop (fresh_ring 2) 5) 1).map
      (fun x => (x.ret, gw_ring_cq_ready x.ring)) = some (some 0, 1) :=
  ⟨by decide,
    (C15_submit_and_wait_returns env_accept (queue_nop (fresh_ring 2) 5) 1 (by decide)).1,
    by decide⟩

/-! ## C16: failure of `gw_ring_queue_init` -/

theorem init_rollback (fuel : Nat) (o : init_oracle) (entries : Nat) (out : init_out)
    (hi : gw_ring_queue_init fuel o entries = some out) (hs : o.sqes_ok = true)
    (hr : out.ret ≠ 0) :
    out.ring = gw_ring_zero ∧
    ((o.cqes_ok = false ∧ out.ret = -ENOMEM ∧ out.released = [resource.sqes]) ∨
     (o.cqes_ok = true ∧ o.wq_ret ≠ 0 ∧ out.ret = o.wq_ret ∧
        out.released = [resource.cqes, resource.sqes]) ∨
     (o.cqes_ok = true ∧ o.wq_ret = 0 ∧ o.sq_lock_ret ≠ 0 ∧ out.ret = o.sq_lock_ret ∧
        out.released = [resource.io_wq, resource.cqes, resource.sqes]) ∨
     (o.cqes_ok = true ∧ o.wq_ret = 0 ∧ o.sq_lock_ret = 0 ∧ o.cq_lock_ret ≠ 0 ∧
        out.ret = o.cq_lock_ret ∧
        out.released = [resource.sq_lock, resource.io_wq, resource.cqes, resource.sqes]) ∨
     (o.cqes_ok = true ∧ o.wq_ret = 0 ∧ o.sq_lock_ret = 0 ∧ o.cq_lock_ret = 0 ∧
        o.post_cqe_cond_ret ≠ 0 ∧ out.ret = o.post_cqe_cond_ret ∧
        out.released = [resource.cq_lock, resource.sq_lock, resource.io_wq, resource.cqes,
          resource.sqes]) ∨
     (o.cqes_ok = true ∧ o.wq_ret = 0 ∧ o.sq_lock_ret = 0 ∧ o.cq_lock_ret = 0 ∧
        o.post_cqe_cond_ret = 0 ∧ o.wait_cqe_cond_ret ≠ 0 ∧ out.ret = o.wait_cqe_cond_ret ∧
        out.released = [resource.post_cqe_cond, resource.cq_lock, resource.sq_lock,
          resource.io_wq, resource.cqes, resource.sqes])) := by
  unfold gw_ring_queue_init at hi
  cases hq : round_up_loop fuel 2 entries with
  | none => rw [hq] at hi; simp at hi
  | some i =>
    rw [hq] at hi
    dsimp only at hi
    split_ifs at hi <;> simp only [Option.some.injEq] at hi <;> subst hi <;> simp_all

/-- C16 at its failing input: when the first `calloc` (the SQE array) fails for
`entries = 2`, `gw_ring_queue_init` returns `-ENOMEM` at once, without the final
`memset`: `sq_mask` is 1 and `cq_mask` is 3 in the ring it leaves, which is not
the zero ring.  Every later step that fails returns a non-zero status, releases
what the earlier steps acquired in reverse order and does leave the zero
ring. -/
theorem C16_first_calloc_failure_keeps_masks :
    gw_ring_queue_init 64
        { sqes_ok := false, cqes_ok := true, wq_ret := 0, sq_lock_ret := 0, cq_lock_ret := 0,
          post_cqe_cond_ret := 0, wait_cqe_cond_ret := 0 } 2 =
      some { ret := -ENOMEM, ring := { gw_ring_zero with sq_mask := 1, cq_mask := 3 },
             released := [] } ∧
    ({ gw_ring_zero with sq_mask := 1, cq_mask := 3 } : gw_ring) ≠ gw_ring_zero ∧
    (∀ (fuel : Nat) (o : init_oracle) (entries : Nat) (out : init_out),
      gw_ring_queue_init fuel o entries = some out → o.sqes_ok = true → out.ret ≠ 0 →
      out.ring = gw_ring_zero ∧ out.released ≠ [] ∧
      out.released.getLast? = some resource.sqes) := by
  refine ⟨by decide, by decide, ?_⟩
  intro fuel o entries out hi hs hr
  obtain ⟨hz, hc⟩ := init_rollback fuel o entries out hi hs hr
  refine ⟨hz, ?_, ?_⟩
  · rcases hc with hc | hc | hc | hc | hc | hc <;> simp [hc]
  · rcases hc with hc | hc | hc | hc | hc | hc <;> simp [hc]

/-! ## C17: counter wrap -/

theorem pow_mask (n : Nat) : (2 ^ n - 1) + 1 = 2 ^ n := by
  have : 1 ≤ 2 ^ n := Nat.one_le_two_pow
  omega

/-- C17: for every capacity `2 ^ n <= 2 ^ 31` with mask `2 ^ n - 1` and all
counters `head`, `tail` with `(tail - head) mod 2 ^ 32 <= 2 ^ n`, the slot indices
`(head + j) & mask` of the live entries `j < (tail - head) mod 2 ^ 32`, the sum
taken modulo `2 ^ 32`, are all below the capacity and pairwise distinct; and on
a ring with these counters and this mask, for the SQ as for the CQ,
`gw_ring_sq_left` / `gw_ring_cq_left` is the capacity minus the occupancy. -/
theorem C17_wrap_is_benign (n head tail : Nat) (hn : n ≤ 31)
    (hocc : sub32 tail head ≤ 2 ^ n) :
    (∀ j, j < sub32 tail head → (add32 head j &&& (2 ^ n - 1)) < 2 ^ n) ∧
    (∀ i j, i < sub32 tail head → j < sub32 tail head → i ≠ j →
      (add32 head i &&& (2 ^ n - 1)) ≠ (add32 head j &&& (2 ^ n - 1))) ∧
    (∀ r : gw_ring, r.sq_mask = 2 ^ n - 1 → r.sq_head = head → r.sq_tail = tail →
      gw_ring_sq_ready r = sub32 tail head ∧
      gw_ring_sq_left r = 2 ^ n - gw_ring_sq_ready r) ∧
    (∀ r : gw_ring, r.cq_mask = 2 ^ n - 1 → r.cq_head = head → r.cq_tail = tail →
      gw_ring_cq_ready r = sub32 tail head ∧
      gw_ring_cq_left r = 2 ^ n - gw_ring_cq_ready r) := by
  have hm := pow_mask n
  have hcap : 2 ^ n ≤ 2 ^ 31 := Nat.pow_le_pow_right (by norm_num) hn
  have hpos : 1 ≤ 2 ^ n := Nat.one_le_two_pow
  refine ⟨?_, ?_, ?_, ?_⟩
  · intro j _
    rw [and_mask_eq_mod (2 ^ n - 1) n _ hm, hm]
    exact Nat.mod_lt _ (by omega)
  · intro i j hi hj hij
    rcases Nat.lt_or_gt_of_ne hij with hlt | hgt
    · exact slot_ne (2 ^ n - 1) n head i j hm (by omega) hlt (by omega)
    · exact (slot_ne (2 ^ n - 1) n head j i hm (by omega) hgt (by omega)).symm
  · intro r h1 h2 h3
    have hr : gw_ring_sq_ready r = sub32 tail head := by unfold gw_ring_sq_ready; rw [h2, h3]
    refine ⟨hr, ?_⟩
    unfold gw_ring_sq_left
    rw [hr, h1]
    generalize sub32 tail head = k at *
    unfold sub32 add32
    omega
  · intro r h1 h2 h3
    have hr : gw_ring_cq_ready r = sub32 tail head := by unfold gw_ring_cq_ready; rw [h2, h3]
    refine ⟨hr, ?_⟩
    unfold gw_ring_cq_left
    rw [hr, h1]
    generalize sub32 tail head = k at *
    unfold sub32 add32
    omega

/-- C17 witness: capacity 2, `head = 2 ^ 32 - 1`, `tail = 1`: the two live
entries, the second one past the wrap of the counter, sit in slots 1 and 0. -/
theorem C17_witness_wrap :
    sub32 1 4294967295 = 2 ∧
    (add32 4294967295 0 &&& (2 ^ 1 - 1)) = 1 ∧ (add32 4294967295 1 &&& (2 ^ 1 - 1)) = 0 ∧
    (add32 4294967295 0 &&& (2 ^ 1 - 1)) ≠ (add32 4294967295 1 &&& (2 ^ 1 - 1)) :=
  ⟨by decide, by decide, by decide,
    (C17_wrap_is_benign 1 4294967295 1 (by decide) (by decide)).2.1 0 1 (by decide) (by decide)
      (by decide)⟩

/-! ## C18: opcode dispatch -/

/-- C18 as amended: `gw_issue_sqe` dispatches the two opcodes that have a
handler.  A NOP is completed inline through `gw_post_cqe` (a direct write when
the CQ has free space, an overflow record queued to the pool when it is full),
`GW_RING_OP_TG_GET_UPDATES` is queued to the worker pool as a task, and both
report success whenever the record allocation succeeds and the pool accepts
the task.  Every other opcode, `GW_RING_OP_TG_API_CALL` (declared in the
enumeration, without a handler) as well as every `op >= GW_RING_OP_LAST`, takes
the default case: dispatch failure, ring and pool unchanged.  So a dispatch
that reports success is one of a NOP or a `GW_RING_OP_TG_GET_UPDATES`. -/
theorem C18_dispatch_by_opcode (o : oracle) (ring : gw_ring) (sqe : gw_ring_sqe) :
    (sqe.op = GW_RING_OP_NOP →
      gw_issue_sqe o ring sqe = gw_post_cqe o ring 0 sqe.user_data ∧
      (gw_ring_cq_left ring ≠ 0 →
        gw_issue_sqe o ring sqe = (true, __gw_post_cqe ring 0 sqe.user_data)) ∧
      (∀ q, gw_ring_cq_left ring = 0 → ring.io_wq = some q → o.malloc_ok = true →
        o.queue_status = 0 →
        gw_issue_sqe o ring sqe =
          (true, { ring with
            io_wq := some ⟨q.pending ++
              [work.post_cqe { res := 0, user_data := sqe.user_data }]⟩ }))) ∧
    (sqe.op = GW_RING_OP_TG_GET_UPDATES →
      ∀ q, ring.io_wq = some q → o.malloc_ok = true → o.queue_status = 0 →
        gw_issue_sqe o ring sqe =
          (true, { ring with
            io_wq := some ⟨q.pending ++ [work.tg_get_updates
              { ctx := sqe.arg1, updates_p := sqe.arg2, offset := s64 sqe.arg3,
                user_data := sqe.user_data }]⟩ })) ∧
    (sqe.op = GW_RING_OP_NOP ∨ sqe.op = GW_RING_OP_TG_GET_UPDATES →
      o.malloc_ok = true → o.queue_status = 0 → (gw_issue_sqe o ring sqe).1 = true) ∧
    (sqe.op ≠ GW_RING_OP_NOP → sqe.op ≠ GW_RING_OP_TG_GET_UPDATES →
      gw_issue_sqe o ring sqe = (false, ring)) ∧
    (sqe.op = GW_RING_OP_TG_API_CALL ∨ GW_RING_OP_LAST ≤ sqe.op →
      gw_issue_sqe o ring sqe = (false, ring)) ∧
    ((gw_issue_sqe o ring sqe).1 = true →
      sqe.op = GW_RING_OP_NOP ∨ sqe.op = GW_RING_OP_TG_GET_UPDATES) := by
  have hother : sqe.op ≠ GW_RING_OP_NOP → sqe.op ≠ GW_RING_OP_TG_GET_UPDATES →
      gw_issue_sqe o ring sqe = (false, ring) := by
    intro h0 h1
    simp [gw_issue_sqe, h0, h1]
  refine ⟨?_, ?_, ?_, hother, ?_, ?_⟩
  · intro hop
    refine ⟨by simp [gw_issue_sqe, hop, gw_issue_sqe_nop], issue_nop_direct o ring sqe hop, ?_⟩
    intro q hl hq hm hs
    exact issue_nop_overflow o ring sqe q hop hl hq hm hs
  · intro hop q hq hm hs
    simp [gw_issue_sqe, hop, gw_issue_sqe_tg_get_updates, hm, hs, hq, try_queue_work]
  · intro hop hm hs
    rcases hop with hop | hop
    · by_cases hl : gw_ring_cq_left ring = 0
      · cases hq : ring.io_wq <;>
          simp [gw_issue_sqe, hop, gw_issue_sqe_nop, gw_post_cqe, hl, gw_post_cqe_via_wq, hm, hs,
            hq, try_queue_work]
      · rw [issue_nop_direct o ring sqe hop hl]
    · cases hq : ring.io_wq <;>
        simp [gw_issue_sqe, hop, gw_issue_sqe_tg_get_updates, hm, hs, hq, try_queue_work]
  · intro hop
    apply hother
    · rintro h0; rw [h0] at hop; revert hop; decide
    · rintro h1; rw [h1] at hop; revert hop; decide
  · intro ht
    by_contra hne
    push_neg at hne
    rw [hother hne.1 hne.2] at ht
    simp at ht

/-- C18 witness: with `malloc` succeeding and the pool accepting, a
`GW_RING_OP_TG_GET_UPDATES` SQE on a fresh 2-entry ring is queued to the pool and
reported as success, and opcode 7 is reported as a dispatch failure. -/
theorem C18_witness_get_updates_queued :
    gw_issue_sqe { malloc_ok := true, queue_status := 0 } (fresh_ring 2)
        { sqe_zero with op := GW_RING_OP_TG_GET_UPDATES, user_data := 5 } =
      (true, { (fresh_ring 2) with
        io_wq := some ⟨[work.tg_get_updates
          { ctx := 0, updates_p := 0, offset := 0, user_data := 5 }]⟩ }) ∧
    gw_issue_sqe { malloc_ok := true, queue_status := 0 } (fresh_ring 2)
        { sqe_zero with op := 7, user_data := 5 } = (false, fresh_ring 2) :=
  ⟨by
      have e := (C18_dispatch_by_opcode { malloc_ok := true, queue_status := 0 } (fresh_ring 2)
        { sqe_zero with op := GW_RING_OP_TG_GET_UPDATES, user_data := 5 }).2.1 rfl
          ⟨[]⟩ (by decide) rfl rfl
      rw [e]
      decide,
    (C18_dispatch_by_opcode { malloc_ok := true, queue_status := 0 } (fresh_ring 2)
      { sqe_zero with op := 7, user_data := 5 }).2.2.2.2.1 (Or.inr (by decide))⟩

/-- C18 counterexample: `GW_RING_OP_TG_API_CALL` (2) is below the sentinel
`GW_RING_OP_LAST` (3), `malloc` succeeds and the pool of the fresh 2-entry ring
accepts every task, yet `gw_issue_sqe` reports failure and queues nothing. -/
theorem C18_counterexample_api_call :
    GW_RING_OP_TG_API_CALL < GW_RING_OP_LAST ∧
    (fresh_ring 2).io_wq = some ⟨[]⟩ ∧
    gw_issue_sqe { malloc_ok := true, queue_status := 0 } (fresh_ring 2)
      { sqe_zero with op := GW_RING_OP_TG_API_CALL, user_data := 5 } = (false, fresh_ring 2) := by
  decide

/-! ## C19: the overflow worker during shutdown -/

/-- C19 as amended: on every ring with `should_stop` set, a run or a wake-up of
`gw_iowq_post_cqe` that finds the CQ full (`gw_ring_cq_left == 0`) returns
without posting and leaves `cqes`, `cq_tail` and `cq_head` unchanged (a wake-up
only decrements `post_cqe_cond_n`); one that finds free space writes its record
and increments `cq_tail`, because the free-space test comes before the
`should_stop` test. -/
theorem C19_worker_during_shutdown (r : gw_ring) (d : post_cqe_data) (hs : r.should_stop = true) :
    (gw_ring_cq_left r = 0 →
      gw_iowq_post_cqe r d = (run_status.stopped, r) ∧
      gw_iowq_post_cqe_wake r d =
        (run_status.stopped, { r with post_cqe_cond_n := dec16 r.post_cqe_cond_n }) ∧
      (gw_iowq_post_cqe_wake r d).2.cqes = r.cqes ∧
      (gw_iowq_post_cqe_wake r d).2.cq_tail = r.cq_tail ∧
      (gw_iowq_post_cqe_wake r d).2.cq_head = r.cq_head) ∧
    (0 < gw_ring_cq_left r →
      gw_iowq_post_cqe r d = (run_status.done, __gw_post_cqe r d.res d.user_data) ∧
      (gw_iowq_post_cqe r d).2.cq_tail = add32 r.cq_tail 1) := by
  constructor
  · intro hl
    have hl' : gw_ring_cq_left
        ({ r with post_cqe_cond_n := dec16 r.post_cqe_cond_n } : gw_ring) = 0 := by
      rw [cq_left_cond_n]; exact hl
    have h1 : gw_iowq_post_cqe r d = (run_status.stopped, r) := by
      simp [gw_iowq_post_cqe, gw_iowq_post_cqe_loop, hl, hs]
    have h2 : gw_iowq_post_cqe_wake r d =
        (run_status.stopped, { r with post_cqe_cond_n := dec16 r.post_cqe_cond_n }) := by
      rw [gw_iowq_post_cqe_wake, gw_iowq_post_cqe_loop, hl']
      simp [hs]
    refine ⟨h1, h2, ?_, ?_, ?_⟩ <;> rw [h2]
  · intro hl
    have h1 : gw_iowq_post_cqe r d = (run_status.done, __gw_post_cqe r d.res d.user_data) := by
      simp [gw_iowq_post_cqe, gw_iowq_post_cqe_loop, hl]
    exact ⟨h1, by rw [h1]; rfl⟩

/-- C19 witness: on a full 4-slot CQ with `should_stop` set the worker returns
without posting. -/
theorem C19_witness_full_cq_stopped :
    ({ full_cq_ring with should_stop := true } : gw_ring).should_stop = true ∧
    gw_ring_cq_left { full_cq_ring with should_stop := true } = 0 ∧
    gw_iowq_post_cqe { full_cq_ring with should_stop := true } { res := 7, user_data := 9 } =
      (run_status.stopped, { full_cq_ring with should_stop := true }) :=
  ⟨by decide, by decide,
    ((C19_worker_during_shutdown { full_cq_ring with should_stop := true }
      { res := 7, user_data := 9 } rfl).1 (by decide)).1⟩

/-- C19 counterexample: on a fresh 2-entry ring (empty CQ) with `should_stop`
set, a run of `gw_iowq_post_cqe` on the record `(7, 9)` writes it to slot 0 and
moves `cq_tail` to 1. -/
theorem C19_counterexample_free_space :
    ({ (fresh_ring 2) with should_stop := true } : gw_ring).should_stop = true ∧
    gw_iowq_post_cqe { (fresh_ring 2) with should_stop := true } { res := 7, user_data := 9 } =
      (run_status.done,
        { (fresh_ring 2) with
          should_stop := true, cq_tail := 1
          cqes := [{ res := 7, user_data := 9 }, cqe_zero, cqe_zero, cqe_zero] }) := by
  decide

/-! ## C20: lock order -/

theorem post_cqe_tr_fst (o : oracle) (r : gw_ring) (res : Int) (ud : Nat) :
    gw_post_cqe_tr o r res ud = (gw_post_cqe o r res ud, [lock_ev.lock_cq, lock_ev.unlock_cq]) := by
  unfold gw_post_cqe_tr gw_post_cqe
  split_ifs <;> rfl

theorem issue_tr_eq (o : oracle) (r : gw_ring) (sqe : gw_ring_sqe) :
    gw_issue_sqe_tr o r sqe = (gw_issue_sqe o r sqe, issue_locks sqe) := by
  unfold gw_issue_sqe_tr gw_issue_sqe issue_locks gw_issue_sqe_nop
  split_ifs
  · exact post_cqe_tr_fst _ _ _ _
  · rfl
  · rfl

theorem submit_loop_tr_fst (env : Nat → oracle) (tail : Nat) :
    ∀ (fuel : Nat) (r : gw_ring) (head : Nat) (ret : Int) (i : Nat) (tr : List lock_ev),
      (__gw_ring_submit_loop_tr env fuel r head tail ret i tr).map Prod.fst =
        __gw_ring_submit_loop env fuel r head tail ret i := by
  intro fuel
  induction fuel with
  | zero => intro r head ret i tr; rfl
  | succ f ih =>
    intro r head ret i tr
    rw [__gw_ring_submit_loop_tr, __gw_ring_submit_loop]
    split_ifs
    · rfl
    · rfl
    · simp only [issue_tr_eq]
      exact ih _ _ _ _ _

theorem submit_loop_tr_trace (env : Nat → oracle) (tail : Nat) (ht : tail < 2 ^ 32) :
    ∀ (n fuel : Nat) (r : gw_ring) (head : Nat) (ret : Int) (i : Nat) (tr : List lock_ev),
      r.should_stop = false → head < 2 ^ 32 → sub32 tail head = n → n < fuel →
      (__gw_ring_submit_loop_tr env fuel r head tail ret i tr).map Prod.snd =
        some (tr ++ dispatch_locks r n head) := by
  intro n
  induction n with
  | zero =>
    intro fuel r head ret i tr hs hh hn hf
    obtain ⟨f, rfl⟩ : ∃ f, fuel = f + 1 := ⟨fuel - 1, by omega⟩
    have hht : head = tail := by unfold sub32 at hn; omega
    simp [__gw_ring_submit_loop_tr, dispatch_locks, hht]
  | succ n ih =>
    intro fuel r head ret i tr hs hh hn hf
    obtain ⟨f, rfl⟩ : ∃ f, fuel = f + 1 := ⟨fuel - 1, by omega⟩
    have hht : head ≠ tail := by unfold sub32 at hn; omega
    have hn' : sub32 tail (add32 head 1) = n := by unfold sub32 add32 at *; omega
    have hfr := issue_frame (env i) r (sqe_at r head)
    have hs' : (gw_issue_sqe (env i) r (sqe_at r head)).2.should_stop = false := by
      rw [hfr.1]; exact hs
    rw [__gw_ring_submit_loop_tr]
    simp only [hht, if_false, hs, Bool.false_eq_true, issue_tr_eq]
    rw [ih f _ (add32 head 1) _ (i + 1) _ hs' (add32_lt _ _) hn' (by omega)]
    have hcongr : ∀ (m hd : Nat), dispatch_locks (gw_issue_sqe (env i) r (sqe_at r head)).2 m hd =
        dispatch_locks r m hd := by
      intro m
      induction m with
      | zero => intro hd; rfl
      | succ m ihm =>
        intro hd
        simp only [dispatch_locks, ihm, sqe_at_congr r _ hd hfr.2.1 hfr.2.2.2.2.1]
    rw [hcongr]
    simp only [dispatch_locks, List.append_assoc]

theorem sq_under_cq_dispatch (r : gw_ring) :
    ∀ (n head : Nat) (t : List lock_ev),
      sq_under_cq false (dispatch_locks r n head ++ t) = sq_under_cq false t := by
  intro n
  induction n with
  | zero => intro head t; rfl
  | succ n ih =>
    intro head t
    simp only [dispatch_locks, issue_locks]
    split_ifs
    · simp only [List.cons_append, List.nil_append, List.append_assoc, sq_under_cq]
      exact ih _ _
    · simp only [List.nil_append]
      exact ih _ _

theorem dispatch_locks_nil (r : gw_ring) :
    ∀ (n head : Nat), head < 2 ^ 32 →
      (∀ j, j < n → (sqe_at r (add32 head j)).op ≠ GW_RING_OP_NOP) →
      dispatch_locks r n head = [] := by
  intro n
  induction n with
  | zero => intro head _ _; rfl
  | succ n ih =>
    intro head hh hno
    have h0 : (sqe_at r head).op ≠ GW_RING_OP_NOP := by
      have := hno 0 (by omega); rwa [add32_zero _ hh] at this
    simp only [dispatch_locks, issue_locks, h0, if_false, List.nil_append]
    apply ih _ (add32_lt _ _)
    intro j hj
    rw [add32_add32, Nat.add_comm 1 j]
    exact hno (j + 1) (by omega)

theorem cq_under_sq_dispatch (r : gw_ring) :
    ∀ (n head : Nat) (t : List lock_ev), head < 2 ^ 32 →
      (∃ j, j < n ∧ (sqe_at r (add32 head j)).op = GW_RING_OP_NOP) →
      cq_under_sq true (dispatch_locks r n head ++ t) = true := by
  intro n
  induction n with
  | zero => intro head t _ ⟨j, hj, _⟩; omega
  | succ n ih =>
    intro head t hh ⟨j, hj, hop⟩
    by_cases h0 : (sqe_at r head).op = GW_RING_OP_NOP
    · simp [dispatch_locks, issue_locks, h0, cq_under_sq]
    · simp only [dispatch_locks, issue_locks, h0, if_false, List.nil_append]
      apply ih _ _ (add32_lt _ _)
      cases j with
      | zero => rw [add32_zero _ hh] at hop; exact absurd hop h0
      | succ j =>
        refine ⟨j, by omega, ?_⟩
        rw [add32_add32, Nat.add_comm 1 j]
        exact hop

theorem submit_tr_form (env : Nat → oracle) (r : gw_ring) (h : ring_ok r) :
    ∃ (res : Int × gw_ring) (D : List lock_ev),
      __gw_ring_submit env r = some res ∧
      (∀ tr0, __gw_ring_submit_tr env r tr0 = some (res, tr0 ++ D)) ∧
      (r.should_stop = true → (res.1 = 0 ∨ res.1 = -EOWNERDEAD)) ∧
      (r.should_stop = false → 0 ≤ res.1) ∧
      ((r.should_stop = true ∧ D = []) ∨
        (r.should_stop = false ∧ D = dispatch_locks r (gw_ring_sq_ready r) r.sq_head)) := by
  have h1 : r.sq_head < 2 ^ 32 := h.2.2.2.2.1
  have h2 : r.sq_tail < 2 ^ 32 := h.2.2.2.2.2.1
  cases hs : r.should_stop
  · have hplain : __gw_ring_submit env r = _ := submit_eq_dispatch env r h hs
    refine ⟨_, dispatch_locks r (gw_ring_sq_ready r) r.sq_head, hplain, ?_, ?_, ?_, Or.inr ⟨rfl, rfl⟩⟩
    · intro tr0
      have a := submit_loop_tr_fst env r.sq_tail (2 ^ 32) r r.sq_head 0 0 tr0
      have b := submit_loop_tr_trace env r.sq_tail h2 (gw_ring_sq_ready r) (2 ^ 32) r r.sq_head
        0 0 tr0 hs h1 rfl (sub32_lt _ _)
      have hplain' : __gw_ring_submit_loop env (2 ^ 32) r r.sq_head r.sq_tail 0 0 = _ := hplain
      rw [hplain'] at a
      unfold __gw_ring_submit_tr
      cases hx : __gw_ring_submit_loop_tr env (2 ^ 32) r r.sq_head r.sq_tail 0 0 tr0 with
      | none => rw [hx] at a; simp at a
      | some x =>
        rw [hx] at a b
        simp only [Option.map_some', Option.some.injEq] at a b
        rw [← a, ← b]
    · intro hc; simp at hc
    · intro _; simp
  · have hstep : ∀ tr0, __gw_ring_submit_tr env r tr0 =
        __gw_ring_submit_loop_tr env (4294967295 + 1) r r.sq_head r.sq_tail 0 0 tr0 :=
      fun _ => rfl
    by_cases hn : gw_ring_sq_ready r = 0
    · refine ⟨(0, r), [], (submit_stopped env r h hs).2 hn, ?_, fun _ => Or.inl rfl,
        fun hc => by simp at hc, Or.inl ⟨rfl, rfl⟩⟩
      intro tr0
      have : r.sq_head = r.sq_tail := by
        unfold gw_ring_sq_ready sub32 at hn; omega
      rw [hstep, __gw_ring_submit_loop_tr]
      simp only [this, if_true, List.append_nil]
      have he : ({ r with sq_head := r.sq_tail } : gw_ring) = r := by
        cases r; simp_all
      rw [he]
    · refine ⟨(-EOWNERDEAD, r), [], (submit_stopped env r h hs).1 hn, ?_, fun _ => Or.inr rfl,
        fun hc => by simp at hc, Or.inl ⟨rfl, rfl⟩⟩
      intro tr0
      have : r.sq_head ≠ r.sq_tail := by
        intro he; apply hn; unfold gw_ring_sq_ready sub32; rw [he]; omega
      rw [hstep, __gw_ring_submit_loop_tr]
      simp [this, hs]

theorem sq_under_cq_submit (r : gw_ring) (D rest : List lock_ev)
    (hD : D = [] ∨ D = dispatch_locks r (gw_ring_sq_ready r) r.sq_head) :
    sq_under_cq false ([lock_ev.lock_sq] ++ D ++ rest) = sq_under_cq false rest := by
  rcases hD with hD | hD
  · subst hD; simp [sq_under_cq]
  · subst hD
    simp only [List.singleton_append, List.cons_append, sq_under_cq, Bool.false_or]
    exact sq_under_cq_dispatch _ _ _ _

/-- C20 as amended: on every initialised ring, in the lock trace of each of
`gw_ring_submit`, `gw_ring_get_sqe_nf`, `gw_ring_submit_and_wait`, `gw_post_cqe`,
`gw_ring_cq_advance` and `gw_ring_wait_cqe_nr` (also when resumed from its
`cond_wait`), `sq_lock` is never acquired while `cq_lock` is held.  `cq_lock` is
never acquired while `sq_lock` is held in `gw_post_cqe`, `gw_ring_cq_advance` and
`gw_ring_wait_cqe_nr`, nor in the three submitting operations when `should_stop`
is set or no pending SQE is a NOP, nor in a `gw_ring_get_sqe_nf` that finds free
space.  It is acquired while `sq_lock` is held whenever `should_stop` is clear
and a pending SQE is a NOP, in `gw_ring_submit`, in `gw_ring_submit_and_wait` and
in a `gw_ring_get_sqe_nf` that finds the SQ full.  The traced operations compute
what the plain ones do. -/
theorem C20_lock_order (env : Nat → oracle) (r : gw_ring) (o : oracle) (res : Int)
    (ud n nr wait_nr : Nat) (cqe : Option (Option Nat)) (h : ring_ok r) :
    ((gw_post_cqe_tr o r res ud).1 = gw_post_cqe o r res ud ∧
     (gw_ring_cq_advance_tr r n).1 = gw_ring_cq_advance r n ∧
     (gw_ring_wait_cqe_nr_tr r cqe nr).1 = gw_ring_wait_cqe_nr r cqe nr ∧
     (gw_ring_wait_cqe_nr_wake_tr r cqe nr).1 = __gw_ring_wait_cqe_nr_wake r cqe nr ∧
     (gw_ring_submit_tr env r).map Prod.fst = gw_ring_submit env r ∧
     (gw_ring_get_sqe_nf_tr env r).map Prod.fst = gw_ring_get_sqe_nf env r ∧
     (gw_ring_submit_and_wait_tr env r wait_nr).map Prod.fst =
       gw_ring_submit_and_wait env r wait_nr) ∧
    (sq_under_cq false (gw_post_cqe_tr o r res ud).2 = false ∧
     sq_under_cq false (gw_ring_cq_advance_tr r n).2 = false ∧
     sq_under_cq false (gw_ring_wait_cqe_nr_tr r cqe nr).2 = false ∧
     sq_under_cq false (gw_ring_wait_cqe_nr_wake_tr r cqe nr).2 = false ∧
     (gw_ring_submit_tr env r).map (fun x => sq_under_cq false x.2) = some false ∧
     (gw_ring_get_sqe_nf_tr env r).map (fun x => sq_under_cq false x.2) = some false ∧
     (gw_ring_submit_and_wait_tr env r wait_nr).map (fun x => sq_under_cq false x.2) =
       some false) ∧
    (cq_under_sq false (gw_post_cqe_tr o r res ud).2 = false ∧
     cq_under_sq false (gw_ring_cq_advance_tr r n).2 = false ∧
     cq_under_sq false (gw_ring_wait_cqe_nr_tr r cqe nr).2 = false ∧
     cq_under_sq false (gw_ring_wait_cqe_nr_wake_tr r cqe nr).2 = false) ∧
    ((r.should_stop = true ∨
        ∀ j, j < gw_ring_sq_ready r → (sqe_at r (add32 r.sq_head j)).op ≠ GW_RING_OP_NOP) →
      (gw_ring_submit_tr env r).map (fun x => cq_under_sq false x.2) = some false ∧
      (gw_ring_get_sqe_nf_tr env r).map (fun x => cq_under_sq false x.2) = some false ∧
      (gw_ring_submit_and_wait_tr env r wait_nr).map (fun x => cq_under_sq false x.2) =
        some false) ∧
    (r.should_stop = false →
      (∃ j, j < gw_ring_sq_ready r ∧ (sqe_at r (add32 r.sq_head j)).op = GW_RING_OP_NOP) →
      (gw_ring_submit_tr env r).map (fun x => cq_under_sq false x.2) = some true ∧
      (gw_ring_submit_and_wait_tr env r wait_nr).map (fun x => cq_under_sq false x.2) =
        some true ∧
      (gw_ring_sq_left r = 0 →
        (gw_ring_get_sqe_nf_tr env r).map (fun x => cq_under_sq false x.2) = some true)) ∧
    (gw_ring_sq_left r ≠ 0 →
      (gw_ring_get_sqe_nf_tr env r).map (fun x => cq_under_sq false x.2) = some false) := by
  have h1 : r.sq_head < 2 ^ 32 := h.2.2.2.2.1
  obtain ⟨sres, D, hplain, htr, hstop, hrun, hD⟩ := submit_tr_form env r h
  have hD' : D = [] ∨ D = dispatch_locks r (gw_ring_sq_ready r) r.sq_head := by
    rcases hD with ⟨-, e⟩ | ⟨-, e⟩
    · exact Or.inl e
    · exact Or.inr e
  have hsub : gw_ring_submit_tr env r = some (sres, [lock_ev.lock_sq] ++ D ++ [lock_ev.unlock_sq]) := by
    unfold gw_ring_submit_tr; rw [htr]
  have hnf : gw_ring_sq_left r = 0 → gw_ring_get_sqe_nf_tr env r =
      some ((sres.2.sq_tail &&& sres.2.sq_mask,
        { sres.2 with sq_tail := add32 sres.2.sq_tail 1 }),
        [lock_ev.lock_sq] ++ D ++ [lock_ev.unlock_sq]) := by
    intro hl; unfold gw_ring_get_sqe_nf_tr; rw [if_pos hl, htr]
  have hnf' : gw_ring_sq_left r ≠ 0 → gw_ring_get_sqe_nf_tr env r =
      some ((r.sq_tail &&& r.sq_mask, { r with sq_tail := add32 r.sq_tail 1 }),
        [lock_ev.lock_sq, lock_ev.unlock_sq]) := by
    intro hl; unfold gw_ring_get_sqe_nf_tr; rw [if_neg hl]
  have hsaw : gw_ring_submit_and_wait_tr env r wait_nr =
      if sres.1 < 0 then
        some ({ ret := some sres.1, cqe := none, ring := sres.2 },
          [lock_ev.lock_sq] ++ D ++ [lock_ev.unlock_sq])
      else
        some (__gw_ring_wait_cqe_nr sres.2 none wait_nr,
          [lock_ev.lock_sq] ++ D ++ [lock_ev.unlock_sq] ++
            [lock_ev.lock_cq, lock_ev.unlock_cq]) := by
    unfold gw_ring_submit_and_wait_tr; rw [htr]
  refine ⟨⟨?_, rfl, rfl, rfl, ?_, ?_, ?_⟩, ⟨?_, rfl, rfl, rfl, ?_, ?_, ?_⟩, ⟨?_, rfl, rfl, rfl⟩,
    ?_, ?_, ?_⟩
  · rw [post_cqe_tr_fst]
  · rw [hsub]; exact hplain.symm
  · by_cases hl : gw_ring_sq_left r = 0
    · rw [hnf hl]; unfold gw_ring_get_sqe_nf; rw [if_pos hl, hplain]; rfl
    · rw [hnf' hl]; unfold gw_ring_get_sqe_nf; rw [if_neg hl]; rfl
  · rw [hsaw]; unfold gw_ring_submit_and_wait; rw [hplain]
    dsimp only
    split_ifs <;> rfl
  · rw [post_cqe_tr_fst]; rfl
  · rw [hsub]
    simp only [Option.map_some', Option.some.injEq]
    rw [sq_under_cq_submit r D _ hD']; rfl
  · by_cases hl : gw_ring_sq_left r = 0
    · rw [hnf hl]
      simp only [Option.map_some', Option.some.injEq]
      rw [sq_under_cq_submit r D _ hD']; rfl
    · rw [hnf' hl]; rfl
  · rw [hsaw]
    split_ifs
    · simp only [Option.map_some', Option.some.injEq]
      rw [sq_under_cq_submit r D _ hD']; rfl
    · simp only [Option.map_some', Option.some.injEq]
      rw [List.append_assoc, sq_under_cq_submit r D _ hD']; rfl
  · rw [post_cqe_tr_fst]; rfl
  · intro hcase
    have hnil : D = [] := by
      rcases hD with ⟨-, e⟩ | ⟨hs, e⟩
      · exact e
      · rcases hcase with hc | hc
        · rw [hs] at hc; simp at hc
        · rw [e]; exact dispatch_locks_nil r _ _ h1 hc
    subst hnil
    refine ⟨?_, ?_, ?_⟩
    · rw [hsub]; rfl
    · by_cases hl : gw_ring_sq_left r = 0
      · rw [hnf hl]; rfl
      · rw [hnf' hl]; rfl
    · rw [hsaw]; split_ifs <;> rfl
  · intro hs hex
    have hDd : D = dispatch_locks r (gw_ring_sq_ready r) r.sq_head := by
      rcases hD with ⟨hs', -⟩ | ⟨-, e⟩
      · rw [hs] at hs'; simp at hs'
      · exact e
    have key : ∀ rest, cq_under_sq false ([lock_ev.lock_sq] ++ D ++ rest) = true := by
      intro rest
      rw [hDd]
      simp only [List.singleton_append, List.cons_append, cq_under_sq]
      exact cq_under_sq_dispatch r _ _ _ h1 hex
    refine ⟨?_, ?_, ?_⟩
    · rw [hsub]
      simp only [Option.map_some', Option.some.injEq]
      exact key _
    · rw [hsaw, if_neg (not_lt.mpr (hrun hs))]
      simp only [Option.map_some', Option.some.injEq]
      rw [List.append_assoc]
      exact key _
    · intro hl
      rw [hnf hl]
      simp only [Option.map_some', Option.some.injEq]
      exact key _
  · intro hl
    rw [hnf' hl]; rfl

/-- C20 witness: with one `GW_RING_OP_TG_GET_UPDATES` SQE pending on a fresh
2-entry ring, `gw_ring_submit` acquires neither lock under the other. -/
theorem C20_witness_no_nop_pending :
    ring_ok (queue_raw (fresh_ring 2) GW_RING_OP_TG_GET_UPDATES 9) ∧
    gw_ring_sq_ready (queue_raw (fresh_ring 2) GW_RING_OP_TG_GET_UPDATES 9) = 1 ∧
    (gw_ring_submit_tr env_accept (queue_raw (fresh_ring 2) GW_RING_OP_TG_GET_UPDATES 9)).map
      (fun x => cq_under_sq false x.2) = some false ∧
    (gw_ring_submit_tr env_accept (queue_raw (fresh_ring 2) GW_RING_OP_TG_GET_UPDATES 9)).map
      (fun x => sq_under_cq false x.2) = some false :=
  ⟨by decide, by decide,
    ((C20_lock_order env_accept (queue_raw (fresh_ring 2) GW_RING_OP_TG_GET_UPDATES 9)
      { malloc_ok := true, queue_status := 0 } 0 0 0 0 0 none (by decide)).2.2.2.1
        (Or.inr (by decide))).1,
    (C20_lock_order env_accept (queue_raw (fresh_ring 2) GW_RING_OP_TG_GET_UPDATES 9)
      { malloc_ok := true, queue_status := 0 } 0 0 0 0 0 none (by decide)).2.1.2.2.2.2.1⟩

/-- C20 counterexample: one NOP pending on a fresh 2-entry ring.  The lock
trace of `gw_ring_submit` is `lock sq, lock cq, unlock cq, unlock sq`: `cq_lock`
is acquired, by `gw_post_cqe`, while `sq_lock` is held. -/
theorem C20_counterexample_nop_submit :
    ring_ok (queue_nop (fresh_ring 2) 5) ∧
    (gw_ring_submit_tr env_accept (queue_nop (fresh_ring 2) 5)).map Prod.snd =
      some [lock_ev.lock_sq, lock_ev.lock_cq, lock_ev.unlock_cq, lock_ev.unlock_sq] ∧
    (gw_ring_submit_tr env_accept (queue_nop (fresh_ring 2) 5)).map
      (fun x => cq_under_sq false x.2) = some true := by
  decide

/-! ## C21: the capacity-rounding loop -/

theorem mul32_pow (m : Nat) (hm : m < 31) : mul32 (2 ^ m) 2 = 2 ^ (m + 1) := by
  have h1 : 2 ^ (m + 1) ≤ 2 ^ 31 := Nat.pow_le_pow_right (by norm_num) (by omega)
  have h2 : 2 ^ (m + 1) = 2 ^ m * 2 := by ring
  unfold mul32
  rw [← h2]
  exact Nat.mod_eq_of_lt (by omega)

theorem round_up_loop_diverges (entries : Nat) (he : 2 ^ 31 < entries) :
    ∀ (fuel m : Nat), m ≤ 31 → round_up_loop fuel (2 ^ m) entries = none := by
  intro fuel
  induction fuel with
  | zero => intro m _; rfl
  | succ f ih =>
    intro m hm
    have hle : 2 ^ m ≤ 2 ^ 31 := Nat.pow_le_pow_right (by norm_num) hm
    have hlt : 2 ^ m < entries := by omega
    rw [round_up_loop, if_pos hlt]
    by_cases h31 : m = 31
    · subst h31
      have hz : mul32 (2 ^ 31) 2 = 0 := by decide
      rw [hz]
      exact round_up_zero_none entries (by omega) f
    · rw [mul32_pow m (by omega)]
      exact ih (m + 1) (by omega)

theorem round_up_loop_upto (entries : Nat) (he : entries ≤ 2 ^ 31) :
    ∀ (d m fuel : Nat), 1 ≤ m → m + d = 31 → (m = 1 ∨ 2 ^ (m - 1) < entries) → d < fuel →
      ∃ n, 1 ≤ n ∧ n ≤ 31 ∧ round_up_loop fuel (2 ^ m) entries = some (2 ^ n) ∧
        entries ≤ 2 ^ n ∧ (n = 1 ∨ 2 ^ (n - 1) < entries) := by
  intro d
  induction d with
  | zero =>
    intro m fuel hm hd hprev hf
    obtain ⟨f, rfl⟩ : ∃ f, fuel = f + 1 := ⟨fuel - 1, by omega⟩
    have : m = 31 := by omega
    subst this
    refine ⟨31, by omega, by omega, ?_, he, hprev⟩
    have : ¬ 2 ^ 31 < entries := by omega
    rw [round_up_loop, if_neg this]
  | succ d ih =>
    intro m fuel hm hd hprev hf
    obtain ⟨f, rfl⟩ : ∃ f, fuel = f + 1 := ⟨fuel - 1, by omega⟩
    by_cases hlt : 2 ^ m < entries
    · obtain ⟨n, h1, h2, h3, h4, h5⟩ := ih (m + 1) f (by omega) (by omega)
        (Or.inr (by simpa using hlt)) (by omega)
      refine ⟨n, h1, h2, ?_, h4, h5⟩
      rw [round_up_loop, if_pos hlt, mul32_pow m (by omega)]
      exact h3
    · refine ⟨m, hm, by omega, ?_, by omega, hprev⟩
      rw [round_up_loop, if_neg hlt]

theorem round_up_top (fuel entries : Nat) (h1 : 2 ^ 30 < entries) (h2 : entries ≤ 2 ^ 31)
    (hf : 32 ≤ fuel) : round_up_loop fuel 2 entries = some (2 ^ 31) := by
  obtain ⟨n, a, b, c, d, e⟩ :=
    round_up_loop_upto entries h2 30 1 fuel (by omega) (by omega) (Or.inl rfl) (by omega)
  have hn : n = 31 := by
    by_contra hne
    have : 2 ^ n ≤ 2 ^ 30 := Nat.pow_le_pow_right (by norm_num) (by omega)
    omega
  subst hn
  simpa using c

theorem init_diverges (fuel : Nat) (o : init_oracle) (entries : Nat)
    (h : round_up_loop fuel 2 entries = none) : gw_ring_queue_init fuel o entries = none := by
  unfold gw_ring_queue_init
  rw [h]

theorem init_masks (fuel : Nat) (o : init_oracle) (entries i : Nat) (out : init_out)
    (hl : round_up_loop fuel 2 entries = some i)
    (hi : gw_ring_queue_init fuel o entries = some out) (hr : out.ret = 0) :
    out.ring.sq_mask = sub32 i 1 ∧ out.ring.cq_mask = sub32 (mul32 i 2) 1 := by
  unfold gw_ring_queue_init at hi
  rw [hl] at hi
  dsimp only at hi
  split_ifs at hi <;> simp only [Option.some.injEq] at hi <;> subst hi <;> simp_all [ENOMEM]

/-- C21 at its failing inputs.  For `entries = 2147483649` (`2 ^ 31 + 1`) the
doubling `i *= 2u` takes `i` from `2 ^ 31` to 0 in 32-bit arithmetic and 0 stays
0, so the test `i < entries` holds for ever: no number of loop tests ends the
loop, and `gw_ring_queue_init` does not return; the same for every
`entries > 2 ^ 31`.  For `entries = 1073741825` (`2 ^ 30 + 1`), as for every
`entries` above `2 ^ 30` and up to `2 ^ 31`, the loop ends with `i = 2 ^ 31`, but
`entries * 2u - 1u` wraps: `cq_mask` is `2 ^ 32 - 1`, the CQ capacity
`(cq_mask + 1) mod 2 ^ 32` is 0 and not `2 * i`, and `gw_ring_cq_left` is 0 on
the ring a successful init leaves.  For every `entries <= 2 ^ 31` the loop ends
within 32 tests at a power of two that is at least `entries`. -/
theorem C21_rounding_loop_overflows :
    mul32 (2 ^ 31) 2 = 0 ∧ mul32 0 2 = 0 ∧
    (∀ fuel, round_up_loop fuel 2 2147483649 = none) ∧
    (∀ fuel o, gw_ring_queue_init fuel o 2147483649 = none) ∧
    (∀ entries, 2 ^ 31 < entries → ∀ fuel o,
      round_up_loop fuel 2 entries = none ∧ gw_ring_queue_init fuel o entries = none) ∧
    round_up_loop 64 2 1073741825 = some (2 ^ 31) ∧
    add32 (sub32 (mul32 (2 ^ 31) 2) 1) 1 = 0 ∧
    (gw_ring_queue_init 64 init_all_ok 1073741825).map
        (fun out => (out.ret, out.ring.sq_mask, out.ring.cq_mask, add32 out.ring.cq_mask 1)) =
      some (0, 2147483647, 4294967295, 0) ∧
    (∀ entries fuel o out, 2 ^ 30 < entries → entries ≤ 2 ^ 31 → 32 ≤ fuel →
      gw_ring_queue_init fuel o entries = some out → out.ret = 0 →
      add32 out.ring.sq_mask 1 = 2 ^ 31 ∧ add32 out.ring.cq_mask 1 = 0 ∧
      gw_ring_cq_left out.ring = 0) ∧
    (∀ entries fuel, entries ≤ 2 ^ 31 → 32 ≤ fuel →
      ∃ n, 1 ≤ n ∧ n ≤ 31 ∧ round_up_loop fuel 2 entries = some (2 ^ n) ∧ entries ≤ 2 ^ n) := by
  have hdiv : ∀ entries, 2 ^ 31 < entries → ∀ fuel, round_up_loop fuel 2 entries = none := by
    intro entries he fuel
    have := round_up_loop_diverges entries he fuel 1 (by omega)
    simpa using this
  have hmask : ∀ entries fuel o out, 2 ^ 30 < entries → entries ≤ 2 ^ 31 → 32 ≤ fuel →
      gw_ring_queue_init fuel o entries = some out → out.ret = 0 →
      out.ring.sq_mask = 2147483647 ∧ out.ring.cq_mask = 4294967295 := by
    intro entries fuel o out h1 h2 hf hi hr
    obtain ⟨m1, m2⟩ := init_masks fuel o entries _ out (round_up_top fuel entries h1 h2 hf) hi hr
    rw [m1, m2]
    exact ⟨by decide, by decide⟩
  refine ⟨by decide, by decide, hdiv _ (by norm_num), ?_, ?_, round_up_top _ _ (by norm_num)
    (by norm_num) (by norm_num), by decide, ?_, ?_, ?_⟩
  · intro fuel o
    exact init_diverges fuel o _ (hdiv _ (by norm_num) fuel)
  · intro entries he fuel o
    exact ⟨hdiv entries he fuel, init_diverges fuel o entries (hdiv entries he fuel)⟩
  · have hl := round_up_top 64 1073741825 (by norm_num) (by norm_num) (by norm_num)
    obtain ⟨out, ho⟩ := init_returns 64 init_all_ok 1073741825 _ hl
    have hret := init_all_ok_ret 64 1073741825 _ hl
    rw [ho] at hret
    simp only [Option.map_some', Option.some.injEq] at hret
    obtain ⟨m1, m2⟩ := hmask 1073741825 64 init_all_ok out (by norm_num) (by norm_num)
      (by norm_num) ho hret
    rw [ho]
    simp only [Option.map_some', hret, m1, m2]
    decide
  · intro entries fuel o out h1 h2 hf hi hr
    obtain ⟨m1, m2⟩ := hmask entries fuel o out h1 h2 hf hi hr
    obtain ⟨-, -, c3, c4, -⟩ := init_success_counters fuel o entries out hi hr
    refine ⟨by rw [m1]; decide, by rw [m2]; decide, ?_⟩
    unfold gw_ring_cq_left gw_ring_cq_ready
    rw [m2, c3, c4]
    decide
  · intro entries fuel he hf
    obtain ⟨n, a, b, c, d, -⟩ :=
      round_up_loop_upto entries he 30 1 fuel (by omega) (by omega) (Or.inl rfl) (by omega)
    exact ⟨n, a, b, by simpa using c, d⟩

end GwRing
